import Mathlib

/-!
Verification development for the SurfaceFlinger layer-hierarchy front end
(`services/surfaceflinger/FrontEnd/LayerHierarchy.h`) and the input-dispatcher
interface (`services/inputflinger/dispatcher/include/InputDispatcherInterface.h`).

The repository excerpt provides the class declarations and inline member
functions; out-of-line member bodies (traversals, the scoped traversal-path
helper, and the hierarchy builder) are not part of the excerpt, so those
operations are modelled from the specification, as marked in the doc comments.
Machine integers (`uint32_t` ids) are modelled as `Nat`; no arithmetic in this
module can overflow a `uint32_t` because ids are only compared, never computed.
-/

/-- Sentinel id meaning "no layer" (`UNASSIGNED_LAYER_ID`, `UINT32_MAX`). -/
def UNASSIGNED_LAYER_ID : Nat := 4294967295

/-- Node key of the main hierarchy root. The root hierarchy has a null layer
and its traversal id is `UNASSIGNED_LAYER_ID`. -/
def ROOT_KEY : Nat := UNASSIGNED_LAYER_ID

/-- Node key of the offscreen root (a second null-layer root owned by the
builder; it has no layer id of its own, so we give it a sentinel key outside
the `uint32_t` id range). -/
def OFFSCREEN_KEY : Nat := 4294967296

/-- Relationship of a child to its parent during traversal
(`LayerHierarchy::Variant`). -/
inductive Variant where
  | Attached
  | Detached
  | Relative
  | Mirror
deriving DecidableEq, Repr

/-- The subset of a `RequestedLayerState` consumed by the hierarchy: identity,
declared structural parent, optional relative parent, optional mirror source,
and z order. -/
structure RequestedLayerState where
  id : Nat
  parentId : Option Nat
  relativeParentId : Option Nat
  mirrorId : Option Nat
  z : Int
deriving DecidableEq, Repr

/-- A unique path to a node during traversal (`LayerHierarchy::TraversalPath`):
the node id, the variant by which it was reached, the stack of mirror roots,
the stack of relative roots, and the first duplicate relative root found. -/
structure TraversalPath where
  id : Nat
  variant : Variant
  mirrorRootIds : List Nat
  relativeRootIds : List Nat
  invalidRelativeRootId : Nat := UNASSIGNED_LAYER_ID
deriving DecidableEq, Repr

/-- Inline in the header: a path is in a relative z loop when the duplicate
marker holds a valid layer id. -/
def TraversalPath.hasRelZLoop (p : TraversalPath) : Bool :=
  p.invalidRelativeRootId != UNASSIGNED_LAYER_ID

/-- Inline in the header: a path is relative when its relative-root stack is
non-empty. -/
def TraversalPath.isRelative (p : TraversalPath) : Bool :=
  !p.relativeRootIds.isEmpty

/-- Inline in the header: `TraversalPath::operator==` compares only the node id
and the mirror-root stack. -/
def TraversalPath.eq (p other : TraversalPath) : Bool :=
  p.id == other.id && p.mirrorRootIds == other.mirrorRootIds

/-- The root traversal id: `UNASSIGNED_LAYER_ID` with variant `Attached` and
empty stacks (`TraversalPath::ROOT_TRAVERSAL_ID`). -/
def ROOT_TRAVERSAL_ID : TraversalPath :=
  { id := UNASSIGNED_LAYER_ID
    variant := Variant.Attached
    mirrorRootIds := []
    relativeRootIds := []
    invalidRelativeRootId := UNASSIGNED_LAYER_ID }

/-- Modelled from the spec: the push half of `ScopedAddToTraversalPath`
(its constructor; the body is not in the excerpt). The new id and variant
become the path head; a `Mirror` push appends to the mirror-root stack; a
`Relative` push first checks the relative-root stack for the id, records it as
the duplicate marker when already present, then appends the id regardless. -/
def scopedPush (path : TraversalPath) (layerId : Nat) (variant : Variant) :
    TraversalPath :=
  let base := { path with id := layerId, variant := variant }
  match variant with
  | Variant.Mirror =>
      { base with mirrorRootIds := base.mirrorRootIds ++ [layerId] }
  | Variant.Relative =>
      let flagged :=
        if layerId ∈ base.relativeRootIds then
          { base with invalidRelativeRootId := layerId }
        else base
      { flagged with relativeRootIds := flagged.relativeRootIds ++ [layerId] }
  | _ => base

/-- Modelled from the spec: the pop half of `ScopedAddToTraversalPath`
(its destructor; the body is not in the excerpt). It restores the saved id and
variant and truncates both stacks back to their pre-push lengths; the duplicate
marker is propagated to the whole path instance, so it is not restored. -/
def scopedPop (saved current : TraversalPath) : TraversalPath :=
  { current with
    id := saved.id
    variant := saved.variant
    mirrorRootIds := current.mirrorRootIds.take saved.mirrorRootIds.length
    relativeRootIds := current.relativeRootIds.take saved.relativeRootIds.length }

/-- One hierarchy node (`class LayerHierarchy`): a non-owning reference to a
layer state record (null for the two roots), the ordered child edges, and the
two single nullable parent back-references (`mParent`, `mRelativeParent`),
which default to null exactly as in the header. -/
structure LayerHierarchy where
  layer : Option RequestedLayerState
  mChildren : List (Nat × Variant) := []
  mParent : Option Nat := none
  mRelativeParent : Option Nat := none
deriving DecidableEq, Repr

/-- The constructor `LayerHierarchy(RequestedLayerState*)`: a freshly created
node wraps the record and keeps the in-class member defaults (no children, no
parent back-references). -/
def LayerHierarchy.mk0 (layer : Option RequestedLayerState) : LayerHierarchy :=
  { layer := layer }

/-- The graph of hierarchy nodes, keyed by node id (the builder keeps
`mLayerIdToHierarchy`; we key regular nodes by layer id and the two roots by
the sentinel keys). -/
structure HierarchyGraph where
  nodes : List (Nat × LayerHierarchy)
deriving DecidableEq, Repr

/-- Keyed lookup of a node (`LayerHierarchyBuilder::getHierarchyFromId` in its
non-crashing mode). -/
def getHierarchyFromId (g : HierarchyGraph) (key : Nat) : Option LayerHierarchy :=
  (g.nodes.find? (fun kn => kn.1 == key)).map (fun kn => kn.2)

/-- Closed outcome set of input event injection: the anonymous enum
`INPUT_EVENT_INJECTION_*` in `InputDispatcherInterface.h`. -/
inductive InputEventInjectionResult where
  | pending
  | succeeded
  | permissionDenied
  | failed
  | timedOut
deriving DecidableEq, Repr

/-- Numeric value of each injection outcome, as declared in the header. -/
def InputEventInjectionResult.toCode : InputEventInjectionResult → Int
  | .pending => -1
  | .succeeded => 0
  | .permissionDenied => 1
  | .failed => 2
  | .timedOut => 3

/-- Modelled from the spec: `InputDispatcherInterface::injectInputEvent` is a
pure virtual member whose implementation is not in the excerpt; its contract
says it returns one of the `INPUT_EVENT_INJECTION_XXX` constants, which we
model by giving any implementation the closed result type. An implementation
is any function from injection arguments to the closed outcome set. -/
def InjectInputEventImpl (α : Type) : Type := α → InputEventInjectionResult

/-- Result of one traversal: the ordered list of (node id, path) visit
instances, the traversal path threaded out of the walk, and whether the walk
ran to completion within the available recursion depth. -/
structure TraverseResult where
  visits : List (Nat × TraversalPath)
  finalPath : TraversalPath
  completed : Bool
deriving DecidableEq, Repr

/-- Visitor callback: receives the hierarchy node and the traversal path, and
returns false to stop traversing down the hierarchy. -/
def Visitor : Type := LayerHierarchy → TraversalPath → Bool

/-- Child-edge selector: which child edges of a node a traversal descends,
and in which order. -/
def ChildSel : Type := HierarchyGraph → LayerHierarchy → List (Nat × Variant)

/-- Modelled from the spec: the per-child loop shared by both traversals. For
each child edge the path is extended by a scoped push, the child subtree is
walked by `step`, and the scope is popped before the next sibling, so each
recursive frame observes exactly the chain of edges from the root to itself. -/
def traverseList (step : Nat → TraversalPath → TraverseResult) :
    List (Nat × Variant) → TraversalPath → TraverseResult
  | [], path => { visits := [], finalPath := path, completed := true }
  | cv :: rest, path =>
      let r := step cv.1 (scopedPush path cv.1 cv.2)
      let popped := scopedPop path r.finalPath
      let rr := traverseList step rest popped
      { visits := r.visits ++ rr.visits
        finalPath := rr.finalPath
        completed := r.completed && rr.completed }

/-- Modelled from the spec: the recursive traversal core shared by `traverse`
and `traverseInZOrder` (their bodies are not in the excerpt). A node with a
layer is visited; a visitor returning false prunes the subtree (siblings are
still walked); a path already flagged with a duplicate relative root is not
descended further (the spec: cycle detection does not crash or infinite-loop
the walk, it marks affected paths); otherwise the selected child edges are
walked in order. Recursion depth is bounded by the fuel argument;
`completed = false` records that the fuel ran out. -/
def traverseGen (g : HierarchyGraph) (sel : ChildSel) (visitor : Visitor) :
    Nat → Nat → TraversalPath → TraverseResult
  | 0 => fun _ path => { visits := [], finalPath := path, completed := false }
  | Nat.succ fuel => fun key path =>
      match getHierarchyFromId g key with
      | none => { visits := [], finalPath := path, completed := true }
      | some node =>
          let vis : List (Nat × TraversalPath) :=
            if node.layer.isSome then [(key, path)] else []
          if node.layer.isSome && !(visitor node path) then
            { visits := vis, finalPath := path, completed := true }
          else if path.hasRelZLoop then
            { visits := vis, finalPath := path, completed := true }
          else
            let r := traverseList (traverseGen g sel visitor fuel) (sel g node) path
            { visits := vis ++ r.visits
              finalPath := r.finalPath
              completed := r.completed }

/-- Child selector of `traverse`: every child edge, in stored order. -/
def selAll : ChildSel := fun _ node => node.mChildren

/-- Declared z value of the record referenced by a node key (0 for the
null-layer roots, which never appear as children). -/
def zOfKey (g : HierarchyGraph) (key : Nat) : Int :=
  match getHierarchyFromId g key with
  | some node =>
      match node.layer with
      | some r => r.z
      | none => 0
  | none => 0

/-- Modelled from the spec: stable insertion of a child edge into a z-sorted
child list; an edge is placed before the first edge of strictly greater or
equal... it is placed before the first edge whose z value is at least its own,
so edges with equal z keep their original relative order. -/
def insertByZ (g : HierarchyGraph) (cv : Nat × Variant) :
    List (Nat × Variant) → List (Nat × Variant)
  | [] => [cv]
  | dv :: rest =>
      if zOfKey g cv.1 ≤ zOfKey g dv.1 then cv :: dv :: rest
      else dv :: insertByZ g cv rest

/-- Modelled from the spec: `LayerHierarchy::sortChildrenByZOrder` (body not in
the excerpt) is a stable sort of child edges keyed on the record's declared z
value; ties preserve insertion order. -/
def sortChildrenByZOrder (g : HierarchyGraph) :
    List (Nat × Variant) → List (Nat × Variant)
  | [] => []
  | cv :: rest => insertByZ g cv (sortChildrenByZOrder g rest)

/-- Child selector of `traverseInZOrder`: `Detached` child edges are skipped
entirely and the remaining visual sibling set (`Attached` and `Relative`
merged, plus `Mirror` edges) is visited in ascending declared z value. -/
def selZ : ChildSel := fun g node =>
  sortChildrenByZOrder g (node.mChildren.filter (fun cv => cv.2 != Variant.Detached))

/-- Number of nodes owned by the graph. -/
def numNodes (g : HierarchyGraph) : Nat := g.nodes.length

/-- Default recursion budget: on any graph whose non-`Relative` edges are
acyclic this depth is reached by no walk (proved below), so a completed result
is the exact value of the unbounded recursive walk. -/
def defaultFuel (g : HierarchyGraph) : Nat :=
  (numNodes g + 1) * (numNodes g + 1) + 1

/-- Modelled from the spec: `LayerHierarchy::traverse` starting at `startKey`
with the root traversal id, visiting all child variants depth first. -/
def LayerHierarchy.traverse (g : HierarchyGraph) (startKey : Nat)
    (visitor : Visitor) : TraverseResult :=
  traverseGen g selAll visitor (defaultFuel g) startKey ROOT_TRAVERSAL_ID

/-- Modelled from the spec: `LayerHierarchy::traverseInZOrder` starting at
`startKey` with the root traversal id, skipping `Detached` children and
visiting the merged sibling sets in ascending z order. -/
def LayerHierarchy.traverseInZOrder (g : HierarchyGraph) (startKey : Nat)
    (visitor : Visitor) : TraverseResult :=
  traverseGen g selZ visitor (defaultFuel g) startKey ROOT_TRAVERSAL_ID

/-- Visitor that always continues. -/
def visitTrue : Visitor := fun _ _ => true

/-- Modelled from the spec: `LayerHierarchy::hasRelZLoop(uint32_t&)` (body not
in the excerpt) walks the hierarchy and reports whether any visited path was
flagged with a duplicate relative root; the out-parameter receives the first
duplicate relative root that was visited, `UNASSIGNED_LAYER_ID` otherwise. -/
def LayerHierarchy.hasRelZLoop (g : HierarchyGraph) (startKey : Nat) :
    Bool × Nat :=
  let r := LayerHierarchy.traverse g startKey visitTrue
  match r.visits.find? (fun v => v.2.hasRelZLoop) with
  | some v => (true, v.2.invalidRelativeRootId)
  | none => (false, UNASSIGNED_LAYER_ID)

/-- Check whether a node with the given key exists. -/
def containsNode (g : HierarchyGraph) (key : Nat) : Bool :=
  (getHierarchyFromId g key).isSome

/-- Apply a function to the node stored at a key (no-op when absent). -/
def modifyNode (g : HierarchyGraph) (key : Nat)
    (f : LayerHierarchy → LayerHierarchy) : HierarchyGraph :=
  { nodes := g.nodes.map (fun kn => if kn.1 == key then (kn.1, f kn.2) else kn) }

/-- Modelled from the spec: `LayerHierarchy::addChild` appends a child edge
with its relationship kind to the parent's child list. -/
def addChild (g : HierarchyGraph) (parentKey childKey : Nat) (variant : Variant) :
    HierarchyGraph :=
  modifyNode g parentKey
    (fun n => { n with mChildren := n.mChildren ++ [(childKey, variant)] })

/-- A variant marking the child edge held by the structural parent. -/
def isStructuralVariant (v : Variant) : Bool :=
  v == Variant.Attached || v == Variant.Detached

/-- Modelled from the spec: `LayerHierarchy::removeChild` restricted to the
edges of one relationship class, removing the matching edge (the hierarchy
holds at most one structural and one relative edge per child). -/
def removeChildVariant (g : HierarchyGraph) (parentKey childKey : Nat)
    (pred : Variant → Bool) : HierarchyGraph :=
  modifyNode g parentKey
    (fun n =>
      { n with
        mChildren := n.mChildren.filter (fun cv => !(cv.1 == childKey && pred cv.2)) })

/-- Modelled from the spec: resolution of a record's structural parent against
the current node set — no declared parent attaches under the main root, a
declared parent that is absent attaches under the offscreen root. -/
def resolveParentKey (g : HierarchyGraph) (r : RequestedLayerState) : Nat :=
  match r.parentId with
  | none => ROOT_KEY
  | some p => if containsNode g p then p else OFFSCREEN_KEY

/-- Whether the record's declared relative parent resolves to a live node. -/
def relResolves (g : HierarchyGraph) (r : RequestedLayerState) : Bool :=
  match r.relativeParentId with
  | some q => containsNode g q
  | none => false

/-- Modelled from the spec: the structural child edge carries `Detached` when
the layer is relatively parented elsewhere, `Attached` otherwise. -/
def structuralVariant (g : HierarchyGraph) (r : RequestedLayerState) : Variant :=
  if relResolves g r then Variant.Detached else Variant.Attached

/-- Modelled from the spec: `LayerHierarchyBuilder::attachToParent` appends the
structural child edge under the resolved parent and records the back
reference. -/
def attachToParent (g : HierarchyGraph) (r : RequestedLayerState) :
    HierarchyGraph :=
  let pk := resolveParentKey g r
  let g1 := addChild g pk r.id (structuralVariant g r)
  modifyNode g1 r.id (fun n => { n with mParent := some pk })

/-- Modelled from the spec: `LayerHierarchyBuilder::attachToRelativeParent`
appends the `Relative` child edge when a relative parent is declared and
resolves, and records the back reference; an unresolved reference attaches
nothing. -/
def attachToRelativeParent (g : HierarchyGraph) (r : RequestedLayerState) :
    HierarchyGraph :=
  match r.relativeParentId with
  | none => g
  | some q =>
      if containsNode g q then
        modifyNode (addChild g q r.id Variant.Relative) r.id
          (fun n => { n with mRelativeParent := some q })
      else g

/-- Modelled from the spec: `LayerHierarchyBuilder::updateMirrorLayer` resolves
a declared mirror source into a `Mirror` child edge of the mirroring node; an
absent source means no mirror content yet, and mirrored content is kept in
sync by reference, so the edge targets the source node. -/
def updateMirrorLayer (g : HierarchyGraph) (r : RequestedLayerState) :
    HierarchyGraph :=
  match r.mirrorId with
  | none => g
  | some s => if containsNode g s then addChild g r.id s Variant.Mirror else g

/-- Full edge resolution of one record: structural, relative, then mirror. -/
def attachAll (g : HierarchyGraph) (r : RequestedLayerState) : HierarchyGraph :=
  updateMirrorLayer (attachToRelativeParent (attachToParent g r) r) r

/-- Modelled from the spec: `LayerHierarchyBuilder::detachFromParent` removes
the structural child edge via the back reference (failing soft when the parent
node is gone) and clears the back reference. -/
def detachFromParent (g : HierarchyGraph) (key : Nat) : HierarchyGraph :=
  match getHierarchyFromId g key with
  | none => g
  | some n =>
      match n.mParent with
      | none => g
      | some pk =>
          modifyNode (removeChildVariant g pk key isStructuralVariant) key
            (fun m => { m with mParent := none })

/-- Modelled from the spec: `LayerHierarchyBuilder::detachFromRelativeParent`
removes the `Relative` child edge via the back reference (failing soft when
the relative parent node is gone) and clears the back reference. -/
def detachFromRelativeParent (g : HierarchyGraph) (key : Nat) : HierarchyGraph :=
  match getHierarchyFromId g key with
  | none => g
  | some n =>
      match n.mRelativeParent with
      | none => g
      | some qk =>
          modifyNode (removeChildVariant g qk key (fun v => v == Variant.Relative))
            key (fun m => { m with mRelativeParent := none })

/-- Remove the mirror child edge held by a node (stale mirror content is
regenerated from the record on re-resolution). -/
def detachMirrorChild (g : HierarchyGraph) (key : Nat) : HierarchyGraph :=
  modifyNode g key
    (fun n => { n with mChildren := n.mChildren.filter (fun cv => cv.2 != Variant.Mirror) })

/-- Modelled from the spec: destroying a record detaches its node from its
structural and relative parents and deletes the node (together with the child
edges the node held). -/
def onLayerDestroyed (g : HierarchyGraph) (key : Nat) : HierarchyGraph :=
  let g1 := detachFromParent g key
  let g2 := detachFromRelativeParent g1 key
  { nodes := g2.nodes.filter (fun kn => kn.1 != key) }

/-- Modelled from the spec: an added record creates a fresh node; a changed
record first detaches the stale structural, relative and mirror edges it
previously held and stores the new record state. -/
def onLayerAdded (g : HierarchyGraph) (r : RequestedLayerState) : HierarchyGraph :=
  if containsNode g r.id then
    let g1 := detachFromParent g r.id
    let g2 := detachFromRelativeParent g1 r.id
    let g3 := detachMirrorChild g2 r.id
    modifyNode g3 r.id (fun n => { n with layer := some r })
  else
    { nodes := g.nodes ++ [(r.id, LayerHierarchy.mk0 (some r))] }

/-- Modelled from the spec: `LayerHierarchyBuilder::update` applies one
incremental delta: destroyed records are detached and deleted, added or
changed records are created or stripped of stale edges, and every added or
changed record is then re-resolved (in a separate phase, so forward references
within the batch are tolerated). -/
def LayerHierarchyBuilder.update (g : HierarchyGraph)
    (layers : List RequestedLayerState) (destroyedLayers : List Nat) :
    HierarchyGraph :=
  let g1 := destroyedLayers.foldl onLayerDestroyed g
  let g2 := layers.foldl onLayerAdded g1
  layers.foldl attachAll g2

/-- The empty builder state: just the main root and the offscreen root. -/
def rootsOnlyGraph : HierarchyGraph :=
  { nodes := [(ROOT_KEY, LayerHierarchy.mk0 none), (OFFSCREEN_KEY, LayerHierarchy.mk0 none)] }

/-- Modelled from the spec: the `LayerHierarchyBuilder` constructor ingests
the full record list once, creating one node per record and then resolving
every reference into edges. -/
def LayerHierarchyBuilder.construct (rs : List RequestedLayerState) :
    HierarchyGraph :=
  LayerHierarchyBuilder.update rootsOnlyGraph rs []

/-- Apply a sequence of (added or changed, destroyed) deltas to a builder
state. -/
def applyUpdates (g : HierarchyGraph)
    (deltas : List (List RequestedLayerState × List Nat)) : HierarchyGraph :=
  deltas.foldl (fun acc d => LayerHierarchyBuilder.update acc d.1 d.2) g

/-- Record ids of a record list. -/
def aliveIds (rs : List RequestedLayerState) : List Nat :=
  rs.map RequestedLayerState.id

/-- The external record collection after one delta: destroyed records are
dropped, changed records are replaced in place, and genuinely new records are
appended. -/
def applyDelta (rs layers : List RequestedLayerState) (destroyed : List Nat) :
    List RequestedLayerState :=
  (rs.filter (fun r => !(destroyed.contains r.id))).map
      (fun r =>
        match layers.find? (fun l => l.id == r.id) with
        | some l => l
        | none => r)
    ++ layers.filter (fun l => !((aliveIds rs).contains l.id))

/-- The external record collection after a sequence of deltas. -/
def applyDeltas (rs : List RequestedLayerState) :
    List (List RequestedLayerState × List Nat) → List RequestedLayerState
  | [] => rs
  | d :: ds => applyDeltas (applyDelta rs d.1 d.2) ds

/-- Spec-side resolution of a record's structural parent against a record
list. -/
def resolveParentOf (rs : List RequestedLayerState) (r : RequestedLayerState) :
    Nat :=
  match r.parentId with
  | none => ROOT_KEY
  | some p => if (aliveIds rs).contains p then p else OFFSCREEN_KEY

/-- Spec-side check that the declared relative parent resolves. -/
def relResolvesOf (rs : List RequestedLayerState) (r : RequestedLayerState) :
    Bool :=
  match r.relativeParentId with
  | some q => (aliveIds rs).contains q
  | none => false

/-- Spec-side structural child variant of a record. -/
def structuralVariantOf (rs : List RequestedLayerState) (r : RequestedLayerState) :
    Variant :=
  if relResolvesOf rs r then Variant.Detached else Variant.Attached

/-- Child edges a single record contributes to the child list of the node with
key `P`: its structural edge if `P` is its resolved parent, its `Relative`
edge if `P` is its resolved relative parent, and the `Mirror` edge to its
resolved mirror source if `P` is the record itself. -/
def contribOf (rs : List RequestedLayerState) (r : RequestedLayerState)
    (P : Nat) : List (Nat × Variant) :=
  (if resolveParentOf rs r = P then [(r.id, structuralVariantOf rs r)] else [])
  ++ (match r.relativeParentId with
      | some q =>
          if q = P ∧ (aliveIds rs).contains q then [(r.id, Variant.Relative)] else []
      | none => [])
  ++ (match r.mirrorId with
      | some s =>
          if r.id = P ∧ (aliveIds rs).contains s then [(s, Variant.Mirror)] else []
      | none => [])

/-- The child list of the node with key `P` in a graph freshly built from the
record list `rs`, described record by record. -/
def canonicalChildren (rs : List RequestedLayerState) (P : Nat) :
    List (Nat × Variant) :=
  rs.flatMap (fun r => contribOf rs r P)

/-- A layer id usable as a key: any value except the sentinels. -/
def validId (i : Nat) : Prop := i < UNASSIGNED_LAYER_ID

/-- Well-formed record: the record and every id it references are in the valid
id range. -/
def wfRecord (r : RequestedLayerState) : Prop :=
  validId r.id
  ∧ (∀ p ∈ r.parentId, validId p)
  ∧ (∀ q ∈ r.relativeParentId, validId q)
  ∧ (∀ s ∈ r.mirrorId, validId s)

/-- Well-formed record collection: distinct ids, each record well formed. -/
def wfRecords (rs : List RequestedLayerState) : Prop :=
  (aliveIds rs).Nodup ∧ ∀ r ∈ rs, wfRecord r

/-- A record collection all of whose declared references resolve within the
collection itself. -/
def resolvedRecords (rs : List RequestedLayerState) : Prop :=
  ∀ r ∈ rs,
    (∀ p ∈ r.parentId, p ∈ aliveIds rs)
    ∧ (∀ q ∈ r.relativeParentId, q ∈ aliveIds rs)
    ∧ (∀ s ∈ r.mirrorId, s ∈ aliveIds rs)

/-- Well-formed delta against a record collection: every destroyed id names an
existing record once and is not re-added in the same batch, the batch has
distinct well-formed records, and the resulting collection is fully
resolved. -/
def wfDelta (rs layers : List RequestedLayerState) (destroyed : List Nat) :
    Prop :=
  destroyed.Nodup
  ∧ (∀ d ∈ destroyed, d ∈ aliveIds rs)
  ∧ (∀ d ∈ destroyed, d ∉ aliveIds layers)
  ∧ wfRecords layers
  ∧ wfRecords (applyDelta rs layers destroyed)
  ∧ resolvedRecords (applyDelta rs layers destroyed)

/-- Well-formed delta sequence starting from a record collection. -/
def wfDeltas (rs : List RequestedLayerState) :
    List (List RequestedLayerState × List Nat) → Prop
  | [] => True
  | d :: ds => wfDelta rs d.1 d.2 ∧ wfDeltas (applyDelta rs d.1 d.2) ds

/-- Graph states agree up to node order and child insertion order: same keys,
and per key the same record, the same parent back-references, and child lists
equal as multisets. -/
def graphEquiv (g1 g2 : HierarchyGraph) : Prop :=
  (g1.nodes.map Prod.fst).Perm (g2.nodes.map Prod.fst)
  ∧ ∀ key n1 n2, getHierarchyFromId g1 key = some n1 →
      getHierarchyFromId g2 key = some n2 →
      n1.layer = n2.layer
      ∧ n1.mParent = n2.mParent
      ∧ n1.mRelativeParent = n2.mRelativeParent
      ∧ n1.mChildren.Perm n2.mChildren

/-- The edge and back-reference invariant of the hierarchy: an `Attached`
child edge is mirrored by the child's structural-parent back-reference, and a
`Relative` child edge is mirrored by the child's relative-parent
back-reference together with a `Detached` edge under the child's structural
parent. -/
def edgeInvariant (g : HierarchyGraph) : Prop :=
  ∀ A nA B v, getHierarchyFromId g A = some nA → (B, v) ∈ nA.mChildren →
    (v = Variant.Attached →
      ∃ nB, getHierarchyFromId g B = some nB ∧ nB.mParent = some A)
    ∧ (v = Variant.Relative →
      ∃ nB P nP, getHierarchyFromId g B = some nB
        ∧ nB.mRelativeParent = some A
        ∧ nB.mParent = some P
        ∧ getHierarchyFromId g P = some nP
        ∧ (B, Variant.Detached) ∈ nP.mChildren)

/-- Restoration of a traversal path up to the duplicate marker: id, variant
and both root stacks agree. -/
def restores (p q : TraversalPath) : Prop :=
  q.id = p.id ∧ q.variant = p.variant
  ∧ q.mirrorRootIds = p.mirrorRootIds ∧ q.relativeRootIds = p.relativeRootIds

/-- Number of visits of a given node id in a visit list. -/
def countVisits (visits : List (Nat × TraversalPath)) (x : Nat) : Nat :=
  visits.countP (fun v => v.1 == x)

/-- Number of visits of a given node id reached by a given variant. -/
def countVisitsVar (visits : List (Nat × TraversalPath)) (x : Nat)
    (w : Variant) : Nat :=
  visits.countP (fun v => v.1 == x && v.2.variant == w)

/-- Sum of a per-node weight over a visit list. -/
def sumOver (visits : List (Nat × TraversalPath)) (f : Nat → Nat) : Nat :=
  (visits.map (fun v => f v.1)).sum

/-- No visited path is flagged with a duplicate relative root. -/
def flagFree (visits : List (Nat × TraversalPath)) : Prop :=
  ∀ v ∈ visits, v.2.hasRelZLoop = false

/-- A chain of child edges from one traversal position to another: each edge
is a child edge of the current node, the traversal path is extended by a
scoped push at each edge, and no position before the last is flagged. -/
inductive ChainFrom (g : HierarchyGraph) :
    Nat → TraversalPath → List (Nat × Variant) → Nat → TraversalPath → Prop where
  | nil (k : Nat) (p : TraversalPath) : ChainFrom g k p [] k p
  | cons {k : Nat} {p : TraversalPath} {c : Nat} {v : Variant}
      {es : List (Nat × Variant)} {x : Nat} {q : TraversalPath}
      (n : LayerHierarchy) :
      getHierarchyFromId g k = some n →
      (c, v) ∈ n.mChildren →
      p.hasRelZLoop = false →
      ChainFrom g c (scopedPush p c v) es x q →
      ChainFrom g k p ((c, v) :: es) x q

/-- Two mutually relatively-parented layers (a relative-parent cycle). -/
def loopRecords : List RequestedLayerState :=
  [ { id := 1, parentId := none, relativeParentId := some 2, mirrorId := none, z := 0 }
  , { id := 2, parentId := none, relativeParentId := some 1, mirrorId := none, z := 0 } ]

/-- The hierarchy built from the relative-parent cycle. -/
def loopGraph : HierarchyGraph := LayerHierarchyBuilder.construct loopRecords

/-- Two disjoint mutual relative-parent cycles: layers 1 and 2 are each
other's relative parents, and so are layers 3 and 4. -/
def twoCycleRecords : List RequestedLayerState :=
  [ { id := 1, parentId := none, relativeParentId := some 2, mirrorId := none, z := 0 }
  , { id := 2, parentId := none, relativeParentId := some 1, mirrorId := none, z := 0 }
  , { id := 3, parentId := none, relativeParentId := some 4, mirrorId := none, z := 0 }
  , { id := 4, parentId := none, relativeParentId := some 3, mirrorId := none, z := 0 } ]

/-- The hierarchy built from the two disjoint relative cycles. -/
def twoCycleGraph : HierarchyGraph := LayerHierarchyBuilder.construct twoCycleRecords

/-- A structural two-cycle (each the declared parent of the other) reachable
through a relative edge. -/
def attCycleRecords : List RequestedLayerState :=
  [ { id := 1, parentId := none, relativeParentId := none, mirrorId := none, z := 0 }
  , { id := 2, parentId := some 3, relativeParentId := some 1, mirrorId := none, z := 0 }
  , { id := 3, parentId := some 2, relativeParentId := none, mirrorId := none, z := 0 } ]

/-- The hierarchy built from the structural two-cycle records. -/
def attCycleGraph : HierarchyGraph := LayerHierarchyBuilder.construct attCycleRecords

/-- A layer (id 3) with both a structural parent (id 1) and a relative parent
(id 2). -/
def relPosRecords : List RequestedLayerState :=
  [ { id := 1, parentId := none, relativeParentId := none, mirrorId := none, z := 0 }
  , { id := 2, parentId := none, relativeParentId := none, mirrorId := none, z := 0 }
  , { id := 3, parentId := some 1, relativeParentId := some 2, mirrorId := none, z := 0 } ]

/-- The hierarchy with one relatively-parented layer. -/
def relPosGraph : HierarchyGraph := LayerHierarchyBuilder.construct relPosRecords

/-- One parent with children declared with z values 3, 1, 2 (in insertion
order), and a fourth child tying at z 1. -/
def zRecords : List RequestedLayerState :=
  [ { id := 1, parentId := none, relativeParentId := none, mirrorId := none, z := 0 }
  , { id := 2, parentId := some 1, relativeParentId := none, mirrorId := none, z := 3 }
  , { id := 3, parentId := some 1, relativeParentId := none, mirrorId := none, z := 1 }
  , { id := 4, parentId := some 1, relativeParentId := none, mirrorId := none, z := 2 }
  , { id := 5, parentId := some 1, relativeParentId := none, mirrorId := none, z := 1 } ]

/-- The hierarchy with unsorted sibling z values. -/
def zGraph : HierarchyGraph := LayerHierarchyBuilder.construct zRecords

/-- Three records with equal z: a parent and two tied siblings. -/
def tieRecords : List RequestedLayerState :=
  [ { id := 1, parentId := none, relativeParentId := none, mirrorId := none, z := 0 }
  , { id := 2, parentId := some 1, relativeParentId := none, mirrorId := none, z := 0 }
  , { id := 3, parentId := some 1, relativeParentId := none, mirrorId := none, z := 0 } ]

/-- Delta that merely re-lists record 2 as changed (identical contents). -/
def tieDelta : List RequestedLayerState :=
  [ { id := 2, parentId := some 1, relativeParentId := none, mirrorId := none, z := 0 } ]

/-- The graph after incrementally applying the re-listing delta. -/
def tieIncremental : HierarchyGraph :=
  LayerHierarchyBuilder.update (LayerHierarchyBuilder.construct tieRecords) tieDelta []

/-- The graph built from scratch from the final record collection of the
re-listing delta. -/
def tieScratch : HierarchyGraph :=
  LayerHierarchyBuilder.construct (applyDelta tieRecords tieDelta [])

/-- Deduplicated list of node keys of a graph. -/
def keyList (g : HierarchyGraph) : List Nat := (g.nodes.map Prod.fst).dedup

/-- Number of node keys not yet on the path's relative-root stack. -/
def freshK (g : HierarchyGraph) (p : TraversalPath) : Nat :=
  ((keyList g).filter (fun k => !(p.relativeRootIds.contains k))).length

/-- Upper bound on the recursion depth still needed below a traversal
position: a flagged path is visited but never descended, and otherwise each
non-`Relative` edge lowers the rank while each fresh `Relative` edge lowers
the count of fresh relative roots. -/
def needFuel (g : HierarchyGraph) (rank : Nat → Nat) (k : Nat)
    (p : TraversalPath) : Nat :=
  if p.hasRelZLoop then 1
  else freshK g p * (numNodes g + 1) + rank k + 2


/-- Certificate that a rank function strictly decreases along every
non-`Relative` child edge of the graph. -/
def rankOk (g : HierarchyGraph) (rank : Nat → Nat) : Bool :=
  g.nodes.all (fun kn => kn.2.mChildren.all
    (fun cv => cv.2 == Variant.Relative || decide (rank cv.1 < rank kn.1)))

/-- Certificate that no child edge of the graph targets the reserved
`UNASSIGNED_LAYER_ID`. -/
def edgesValidOk (g : HierarchyGraph) : Bool :=
  g.nodes.all (fun kn => kn.2.mChildren.all
    (fun cv => cv.1 != UNASSIGNED_LAYER_ID))

/-- Contribution of one traversal position to a visit count: 1 when the
position's node carries a layer, is the counted id, and was reached by a
counted variant. -/
def headCount (g : HierarchyGraph) (X : Nat) (predB : Variant → Bool) (k : Nat)
    (p : TraversalPath) : Nat :=
  match getHierarchyFromId g k with
  | some node => if node.layer.isSome && (k == X) && predB p.variant then 1 else 0
  | none => 0

/-- Certificate that every child edge of the graph targets an existing node
that carries a layer (true of every builder-produced graph: only the two
roots are layerless and no edge targets them). -/
def childKeysHaveLayers (g : HierarchyGraph) : Bool :=
  g.nodes.all (fun kn => kn.2.mChildren.all (fun cv =>
    match getHierarchyFromId g cv.1 with
    | some cn => cn.layer.isSome
    | none => false))

/-- Spec-side resolution of a record's relative parent: the declared id when
it is alive, nothing otherwise. -/
def resolveRelativeOf (rs : List RequestedLayerState) (r : RequestedLayerState) :
    Option Nat :=
  match r.relativeParentId with
  | some q => if (aliveIds rs).contains q then some q else none
  | none => none

/-- Child list of the node with key `P`, built from the attached records in
attachment order, with references resolved against the record list `rs`. -/
def canonicalChildrenOn (rs att : List RequestedLayerState) (P : Nat) :
    List (Nat × Variant) :=
  att.flatMap (fun r => contribOf rs r P)

/-- Child list of a node in the middle of an update: the canonical list with
the structural and relative edges of dead or re-resolving records removed,
and the mirror edge of a re-resolving record removed from its own child
list. -/
def prunedChildren (rs att : List RequestedLayerState) (dead cleaned : List Nat)
    (key : Nat) : List (Nat × Variant) :=
  (canonicalChildrenOn rs att key).filter (fun cv =>
    if cv.2 == Variant.Mirror then !(cleaned.contains key)
    else !(dead.contains cv.1) && !(cleaned.contains cv.1))

/-- Builder end-state invariant: every record has a fully attached node, and
every node's child list is exactly the canonical list generated by the
attachment order `att` (a permutation of the record list). -/
structure BInv (rs att : List RequestedLayerState) (g : HierarchyGraph) : Prop where
  perm : att.Perm rs
  keys : (g.nodes.map Prod.fst).Perm (ROOT_KEY :: OFFSCREEN_KEY :: aliveIds rs)
  rootN : ∃ n, getHierarchyFromId g ROOT_KEY = some n ∧ n.layer = none
    ∧ n.mParent = none ∧ n.mRelativeParent = none
  offN : ∃ n, getHierarchyFromId g OFFSCREEN_KEY = some n ∧ n.layer = none
    ∧ n.mParent = none ∧ n.mRelativeParent = none
  recN : ∀ r ∈ rs, ∃ n, getHierarchyFromId g r.id = some n ∧ n.layer = some r
    ∧ n.mParent = some (resolveParentOf rs r)
    ∧ n.mRelativeParent = resolveRelativeOf rs r
  childrenN : ∀ key n, getHierarchyFromId g key = some n →
    n.mChildren = canonicalChildrenOn rs att key

/-- Builder invariant in the destroy and re-resolve phases of an update:
nodes in `D` have been destroyed, records in `chg` have been stripped of
their stale edges and re-stored, records in `newRecs` have fresh nodes, and
every child list is the old canonical list with the dead and stale edges
pruned. -/
structure MidInv (rs att : List RequestedLayerState) (D : List Nat)
    (chg newRecs : List RequestedLayerState) (g : HierarchyGraph) : Prop where
  keys : (g.nodes.map Prod.fst).Perm
    (ROOT_KEY :: OFFSCREEN_KEY ::
      ((aliveIds rs).filter (fun i => !(D.contains i)) ++ aliveIds newRecs))
  rootN : ∃ n, getHierarchyFromId g ROOT_KEY = some n ∧ n.layer = none
    ∧ n.mParent = none ∧ n.mRelativeParent = none
  offN : ∃ n, getHierarchyFromId g OFFSCREEN_KEY = some n ∧ n.layer = none
    ∧ n.mParent = none ∧ n.mRelativeParent = none
  recOld : ∀ u ∈ rs, u.id ∉ D → u.id ∉ aliveIds chg →
    ∃ n, getHierarchyFromId g u.id = some n ∧ n.layer = some u
      ∧ n.mParent = some (resolveParentOf rs u)
      ∧ n.mRelativeParent = resolveRelativeOf rs u
  recChg : ∀ r ∈ chg, ∃ n, getHierarchyFromId g r.id = some n
    ∧ n.layer = some r ∧ n.mParent = none ∧ n.mRelativeParent = none
  recNew : ∀ r ∈ newRecs, ∃ n, getHierarchyFromId g r.id = some n
    ∧ n.layer = some r ∧ n.mParent = none ∧ n.mRelativeParent = none
  childrenN : ∀ key n, getHierarchyFromId g key = some n →
    n.mChildren = prunedChildren rs att D (D ++ aliveIds chg) key

/-- Builder invariant in the attach phase of an update: all nodes of the new
record collection exist, records listed in `att` are attached, the rest are
pending with no edges of their own. -/
structure AttachInv (N att : List RequestedLayerState) (g : HierarchyGraph) : Prop where
  keys : (g.nodes.map Prod.fst).Perm (ROOT_KEY :: OFFSCREEN_KEY :: aliveIds N)
  rootN : ∃ n, getHierarchyFromId g ROOT_KEY = some n ∧ n.layer = none
    ∧ n.mParent = none ∧ n.mRelativeParent = none
  offN : ∃ n, getHierarchyFromId g OFFSCREEN_KEY = some n ∧ n.layer = none
    ∧ n.mParent = none ∧ n.mRelativeParent = none
  recN : ∀ r ∈ N, ∃ n, getHierarchyFromId g r.id = some n ∧ n.layer = some r
    ∧ (r.id ∈ aliveIds att → n.mParent = some (resolveParentOf N r)
        ∧ n.mRelativeParent = resolveRelativeOf N r)
    ∧ (r.id ∉ aliveIds att → n.mParent = none ∧ n.mRelativeParent = none)
  childrenN : ∀ key n, getHierarchyFromId g key = some n →
    n.mChildren = canonicalChildrenOn N att key

/-- Filter keeping every child edge except the structural edge of `x`. -/
def stripStructOf (x : Nat) : (Nat × Variant) → Bool :=
  fun cv => !(cv.1 == x && isStructuralVariant cv.2)

/-- Filter keeping every child edge except the `Relative` edge of `x`. -/
def stripRelOf (x : Nat) : (Nat × Variant) → Bool :=
  fun cv => !(cv.1 == x && cv.2 == Variant.Relative)

/-- Filter keeping every child edge except `Mirror` edges. -/
def keepNonMirror : (Nat × Variant) → Bool :=
  fun cv => cv.2 != Variant.Mirror

/-- The pruning predicate of `prunedChildren`, named for reuse. -/
def prunedPredB (dead cleaned : List Nat) (key : Nat) (cv : Nat × Variant) :
    Bool :=
  if cv.2 == Variant.Mirror then !(cleaned.contains key)
  else !(dead.contains cv.1) && !(cleaned.contains cv.1)

/-- The attachment order reached after one incremental update, given the
previous attachment order: surviving untouched records keep their places, and
the records of the batch are re-attached at the end, in batch order. -/
def attNext (att layers : List RequestedLayerState) (destroyed : List Nat) :
    List RequestedLayerState :=
  att.filter (fun u =>
    !(destroyed.contains u.id) && !((aliveIds layers).contains u.id)) ++ layers

/-- Decidable check of `wfRecord`. -/
def wfRecordOk (r : RequestedLayerState) : Bool :=
  decide (r.id < UNASSIGNED_LAYER_ID)
  && (match r.parentId with
      | some p => decide (p < UNASSIGNED_LAYER_ID)
      | none => true)
  && (match r.relativeParentId with
      | some q => decide (q < UNASSIGNED_LAYER_ID)
      | none => true)
  && (match r.mirrorId with
      | some s => decide (s < UNASSIGNED_LAYER_ID)
      | none => true)

/-- Decidable check of `wfRecords`. -/
def wfRecordsOk (rs : List RequestedLayerState) : Bool :=
  decide (aliveIds rs).Nodup && rs.all wfRecordOk

/-- Decidable check of `resolvedRecords`. -/
def resolvedOk (rs : List RequestedLayerState) : Bool :=
  rs.all (fun r =>
    (match r.parentId with
      | some p => (aliveIds rs).contains p
      | none => true)
    && (match r.relativeParentId with
        | some q => (aliveIds rs).contains q
        | none => true)
    && (match r.mirrorId with
        | some s => (aliveIds rs).contains s
        | none => true))

/-- Decidable check of `wfDelta`. -/
def wfDeltaOk (rs layers : List RequestedLayerState) (destroyed : List Nat) :
    Bool :=
  decide destroyed.Nodup
  && destroyed.all (fun d => (aliveIds rs).contains d)
  && destroyed.all (fun d => !((aliveIds layers).contains d))
  && wfRecordsOk layers
  && wfRecordsOk (applyDelta rs layers destroyed)
  && resolvedOk (applyDelta rs layers destroyed)

/-- Decidable check of `wfDeltas`. -/
def wfDeltasOk (rs : List RequestedLayerState) :
    List (List RequestedLayerState × List Nat) → Bool
  | [] => true
  | d :: ds => wfDeltaOk rs d.1 d.2 && wfDeltasOk (applyDelta rs d.1 d.2) ds

/-- A record collection exercising every reference kind: a root, a child, a
relatively-parented child and a mirroring layer. -/
def invRecords : List RequestedLayerState :=
  [ { id := 1, parentId := none, relativeParentId := none, mirrorId := none
    , z := 0 }
  , { id := 2, parentId := some 1, relativeParentId := none, mirrorId := none
    , z := 0 }
  , { id := 3, parentId := some 1, relativeParentId := some 2, mirrorId := none
    , z := 1 }
  , { id := 4, parentId := none, relativeParentId := none, mirrorId := some 2
    , z := 0 } ]

/-- A delta against `invRecords`: destroys the mirroring layer, reparents the
relatively-parented child and adds a new layer. -/
def invDelta : List RequestedLayerState × List Nat :=
  ([ { id := 5, parentId := some 2, relativeParentId := none, mirrorId := none
     , z := 2 }
   , { id := 3, parentId := some 2, relativeParentId := none, mirrorId := none
     , z := 1 } ], [4])

/-! Basic lemmas about the traversal engine. -/

theorem traverseList_nil (step : Nat → TraversalPath → TraverseResult)
    (path : TraversalPath) :
    traverseList step [] path = { visits := [], finalPath := path, completed := true } :=
  rfl

theorem traverseList_cons (step : Nat → TraversalPath → TraverseResult)
    (cv : Nat × Variant) (rest : List (Nat × Variant)) (path : TraversalPath) :
    traverseList step (cv :: rest) path =
      let r := step cv.1 (scopedPush path cv.1 cv.2)
      let popped := scopedPop path r.finalPath
      let rr := traverseList step rest popped
      { visits := r.visits ++ rr.visits
        finalPath := rr.finalPath
        completed := r.completed && rr.completed } :=
  rfl

theorem traverseGen_zero (g : HierarchyGraph) (sel : ChildSel) (visitor : Visitor)
    (key : Nat) (path : TraversalPath) :
    traverseGen g sel visitor 0 key path =
      { visits := [], finalPath := path, completed := false } :=
  rfl

theorem traverseGen_succ_none (g : HierarchyGraph) (sel : ChildSel)
    (visitor : Visitor) (fuel key : Nat) (path : TraversalPath)
    (h : getHierarchyFromId g key = none) :
    traverseGen g sel visitor (fuel + 1) key path =
      { visits := [], finalPath := path, completed := true } := by
  simp [traverseGen, h]

theorem traverseGen_succ_some (g : HierarchyGraph) (sel : ChildSel)
    (visitor : Visitor) (fuel key : Nat) (path : TraversalPath)
    (node : LayerHierarchy) (h : getHierarchyFromId g key = some node) :
    traverseGen g sel visitor (fuel + 1) key path =
      (let vis : List (Nat × TraversalPath) :=
        if node.layer.isSome then [(key, path)] else []
      if node.layer.isSome && !(visitor node path) then
        { visits := vis, finalPath := path, completed := true }
      else if path.hasRelZLoop then
        { visits := vis, finalPath := path, completed := true }
      else
        let r := traverseList (traverseGen g sel visitor fuel) (sel g node) path
        { visits := vis ++ r.visits
          finalPath := r.finalPath
          completed := r.completed }) := by
  simp [traverseGen, h]

/-! Lemmas about the scoped push and pop. -/

theorem scopedPush_id (p : TraversalPath) (c : Nat) (v : Variant) :
    (scopedPush p c v).id = c := by
  cases v <;> simp [scopedPush] <;> split <;> rfl

theorem scopedPush_variant (p : TraversalPath) (c : Nat) (v : Variant) :
    (scopedPush p c v).variant = v := by
  cases v <;> simp [scopedPush] <;> split <;> rfl

theorem scopedPush_mirror (p : TraversalPath) (c : Nat) (v : Variant) :
    (scopedPush p c v).mirrorRootIds =
      p.mirrorRootIds ++ (if v = Variant.Mirror then [c] else []) := by
  cases v <;> simp [scopedPush] <;> split <;> rfl

theorem scopedPush_rel (p : TraversalPath) (c : Nat) (v : Variant) :
    (scopedPush p c v).relativeRootIds =
      p.relativeRootIds ++ (if v = Variant.Relative then [c] else []) := by
  cases v <;> simp [scopedPush] <;> split <;> simp

theorem scopedPush_invalid (p : TraversalPath) (c : Nat) (v : Variant) :
    (scopedPush p c v).invalidRelativeRootId =
      if v = Variant.Relative ∧ c ∈ p.relativeRootIds then c
      else p.invalidRelativeRootId := by
  cases v <;> simp [scopedPush] <;> split <;> simp_all

theorem restores_refl (p : TraversalPath) : restores p p :=
  ⟨rfl, rfl, rfl, rfl⟩

theorem restores_trans {p q r : TraversalPath} (h1 : restores p q)
    (h2 : restores q r) : restores p r := by
  obtain ⟨a1, b1, c1, d1⟩ := h1
  obtain ⟨a2, b2, c2, d2⟩ := h2
  exact ⟨a2.trans a1, b2.trans b1, c2.trans c1, d2.trans d1⟩

theorem restores_scopedPop {p q : TraversalPath} (c : Nat) (v : Variant)
    (h : restores (scopedPush p c v) q) : restores p (scopedPop p q) := by
  obtain ⟨h1, h2, h3, h4⟩ := h
  refine ⟨rfl, rfl, ?_, ?_⟩
  · simp [scopedPop, h3, scopedPush_mirror, List.take_left]
  · simp [scopedPop, h4, scopedPush_rel, List.take_left]

theorem traverseList_restores (step : Nat → TraversalPath → TraverseResult)
    (hstep : ∀ c p, restores p (step c p).finalPath) :
    ∀ (l : List (Nat × Variant)) (path : TraversalPath),
      restores path (traverseList step l path).finalPath := by
  intro l
  induction l with
  | nil => intro path; exact restores_refl path
  | cons cv rest ih =>
      intro path
      rw [traverseList_cons]
      exact restores_trans
        (restores_scopedPop cv.1 cv.2 (hstep cv.1 (scopedPush path cv.1 cv.2)))
        (ih _)

theorem traverseGen_restores (g : HierarchyGraph) (sel : ChildSel)
    (visitor : Visitor) :
    ∀ (fuel key : Nat) (path : TraversalPath),
      restores path (traverseGen g sel visitor fuel key path).finalPath := by
  intro fuel
  induction fuel with
  | zero => intro key path; exact restores_refl path
  | succ fuel ih =>
      intro key path
      cases h : getHierarchyFromId g key with
      | none => rw [traverseGen_succ_none g sel visitor fuel key path h]; exact restores_refl path
      | some node =>
          rw [traverseGen_succ_some g sel visitor fuel key path node h]
          simp only []
          split
          · exact restores_refl path
          · split
            · exact restores_refl path
            · exact traverseList_restores _ (fun c p => ih c p) (sel g node) path

theorem restores_eq_of_invalid {p q : TraversalPath} (h : restores p q)
    (h2 : q.invalidRelativeRootId = p.invalidRelativeRootId) : q = p := by
  obtain ⟨h1, h3, h4, h5⟩ := h
  cases p
  cases q
  simp_all

/-- C8: two traversal paths are equal under `TraversalPath::operator==`
exactly when their node ids and mirror-root stacks agree; the variant, the
relative-root stack and the duplicate marker do not participate in the
comparison. -/
theorem c8_path_equality :
    (∀ p q : TraversalPath,
      TraversalPath.eq p q = true ↔ p.id = q.id ∧ p.mirrorRootIds = q.mirrorRootIds)
    ∧ (∀ (p q : TraversalPath) (w : Variant) (l : List Nat) (i : Nat),
      TraversalPath.eq
        { p with variant := w, relativeRootIds := l, invalidRelativeRootId := i } q
      = TraversalPath.eq p q) := by
  constructor
  · intro p q
    simp [TraversalPath.eq]
  · intro p q w l i
    simp [TraversalPath.eq]

/-- Closed instantiation of the path-equality characterisation. -/
theorem c8_path_equality_witness :
    TraversalPath.eq ROOT_TRAVERSAL_ID ROOT_TRAVERSAL_ID = true :=
  (c8_path_equality.1 ROOT_TRAVERSAL_ID ROOT_TRAVERSAL_ID).mpr ⟨rfl, rfl⟩

/-- C9: every injection returns one of the five declared outcomes — the
result type is the closed set {pending, succeeded, permission denied, failed,
timed out}, whose numeric codes are exactly the header constants. -/
theorem c9_injection_closed_outcomes :
    (∀ (α : Type) (impl : InjectInputEventImpl α) (a : α),
      impl a ∈ [InputEventInjectionResult.pending,
                InputEventInjectionResult.succeeded,
                InputEventInjectionResult.permissionDenied,
                InputEventInjectionResult.failed,
                InputEventInjectionResult.timedOut])
    ∧ (∀ r : InputEventInjectionResult,
      r.toCode ∈ ([-1, 0, 1, 2, 3] : List Int)) := by
  constructor
  · intro α impl a
    cases impl a <;> simp
  · intro r
    cases r <;> simp [InputEventInjectionResult.toCode]

/-- C10: the parent back-references are single nullable references — a node
determines at most one structural parent and at most one relative parent —
and a freshly constructed node has neither. -/
theorem c10_single_parent_backrefs :
    (∀ (n : LayerHierarchy) (p q : Nat),
      n.mParent = some p → n.mParent = some q → p = q)
    ∧ (∀ (n : LayerHierarchy) (p q : Nat),
      n.mRelativeParent = some p → n.mRelativeParent = some q → p = q)
    ∧ (∀ r : Option RequestedLayerState,
      (LayerHierarchy.mk0 r).mParent = none
      ∧ (LayerHierarchy.mk0 r).mRelativeParent = none) := by
  refine ⟨?_, ?_, ?_⟩
  · intro n p q h1 h2
    rw [h1] at h2
    exact Option.some.inj h2
  · intro n p q h1 h2
    rw [h1] at h2
    exact Option.some.inj h2
  · intro r
    exact ⟨rfl, rfl⟩

/-- Closed instantiation of the back-reference uniqueness. -/
theorem c10_single_parent_backrefs_witness :
    (7 : Nat) = 7 ∧ (8 : Nat) = 8 :=
  ⟨c10_single_parent_backrefs.1
      { layer := none, mChildren := [], mParent := some 7, mRelativeParent := none }
      7 7 rfl rfl,
    c10_single_parent_backrefs.2.1
      { layer := none, mChildren := [], mParent := none, mRelativeParent := some 8 }
      8 8 rfl rfl⟩

/-- C4 counterexample: on the relative-parent cycle the walk completes but the
threaded path is not left structurally identical by value — the duplicate
marker set during the walk persists after the final pop. -/
theorem c4_path_restoration_counterexample :
    (LayerHierarchy.traverse loopGraph ROOT_KEY visitTrue).completed = true
    ∧ (LayerHierarchy.traverse loopGraph ROOT_KEY visitTrue).finalPath
        ≠ ROOT_TRAVERSAL_ID := by
  constructor
  · decide
  · decide

/-- C4 (amended): after any traversal call, every scoped push was matched by a
pop on every exit path, restoring the previous id, the previous variant and
both root-stack lengths — the threaded path agrees with its initial value on
all four of those components; it is fully identical by value exactly when the
duplicate-relative-root marker was left unchanged by the walk. -/
theorem c4_path_restoration (g : HierarchyGraph) (sel : ChildSel)
    (visitor : Visitor) (fuel key : Nat) (p : TraversalPath) :
    restores p (traverseGen g sel visitor fuel key p).finalPath
    ∧ ((traverseGen g sel visitor fuel key p).finalPath.invalidRelativeRootId
          = p.invalidRelativeRootId →
        (traverseGen g sel visitor fuel key p).finalPath = p) := by
  refine ⟨traverseGen_restores g sel visitor fuel key p, ?_⟩
  intro h2
  exact restores_eq_of_invalid (traverseGen_restores g sel visitor fuel key p) h2

/-- Closed instantiation of path restoration on a loop-free graph. -/
theorem c4_path_restoration_witness :
    (traverseGen relPosGraph selAll visitTrue (defaultFuel relPosGraph)
        ROOT_KEY ROOT_TRAVERSAL_ID).finalPath = ROOT_TRAVERSAL_ID :=
  (c4_path_restoration relPosGraph selAll visitTrue (defaultFuel relPosGraph)
      ROOT_KEY ROOT_TRAVERSAL_ID).2 (by decide)

theorem attCycle_node2 :
    getHierarchyFromId attCycleGraph 2 =
      some { layer := some { id := 2, parentId := some 3, relativeParentId := some 1, mirrorId := none, z := 0 },
             mChildren := [(3, Variant.Attached)],
             mParent := some 3,
             mRelativeParent := some 1 } := by decide

theorem attCycle_node3 :
    getHierarchyFromId attCycleGraph 3 =
      some { layer := some { id := 3, parentId := some 2, relativeParentId := none, mirrorId := none, z := 0 },
             mChildren := [(2, Variant.Detached)],
             mParent := some 2,
             mRelativeParent := none } := by decide

theorem attCycle_node1 :
    getHierarchyFromId attCycleGraph 1 =
      some { layer := some { id := 1, parentId := none, relativeParentId := none, mirrorId := none, z := 0 },
             mChildren := [(2, Variant.Relative)],
             mParent := some ROOT_KEY,
             mRelativeParent := none } := by decide

theorem attCycle_nodeRoot :
    getHierarchyFromId attCycleGraph ROOT_KEY =
      some { layer := none,
             mChildren := [(1, Variant.Attached)],
             mParent := none,
             mRelativeParent := none } := by decide

theorem hasRelZLoop_scopedPush_nonRel (p : TraversalPath) (c : Nat) (v : Variant)
    (hv : v ≠ Variant.Relative) (hp : p.hasRelZLoop = false) :
    (scopedPush p c v).hasRelZLoop = false := by
  simp only [TraversalPath.hasRelZLoop, scopedPush_invalid] at hp ⊢
  rw [if_neg]
  · exact hp
  · intro h
    exact hv h.1

theorem attCycle_spin :
    ∀ (fuel : Nat) (p : TraversalPath), p.hasRelZLoop = false →
      (traverseGen attCycleGraph selAll visitTrue fuel 2 p).completed = false
      ∧ (traverseGen attCycleGraph selAll visitTrue fuel 3 p).completed = false := by
  intro fuel
  induction fuel with
  | zero => intro p hp; exact ⟨rfl, rfl⟩
  | succ fuel ih =>
      intro p hp
      constructor
      · have hpush : (scopedPush p 3 Variant.Attached).hasRelZLoop = false :=
          hasRelZLoop_scopedPush_nonRel p 3 Variant.Attached (by simp) hp
        have h3 := (ih (scopedPush p 3 Variant.Attached) hpush).2
        simp [traverseGen, attCycle_node2, visitTrue, hp, traverseList, selAll, h3]
      · have hpush : (scopedPush p 2 Variant.Detached).hasRelZLoop = false :=
          hasRelZLoop_scopedPush_nonRel p 2 Variant.Detached (by simp) hp
        have h2 := (ih (scopedPush p 2 Variant.Detached) hpush).1
        simp [traverseGen, attCycle_node3, visitTrue, hp, traverseList, selAll, h2]

theorem attCycle_k1 :
    ∀ (fuel : Nat) (p : TraversalPath), p.hasRelZLoop = false →
      2 ∉ p.relativeRootIds →
      (traverseGen attCycleGraph selAll visitTrue fuel 1 p).completed = false := by
  intro fuel
  cases fuel with
  | zero => intro p hp hm; rfl
  | succ fuel =>
      intro p hp hm
      have hpush : (scopedPush p 2 Variant.Relative).hasRelZLoop = false := by
        simp only [TraversalPath.hasRelZLoop, scopedPush_invalid] at hp ⊢
        rw [if_neg]
        · exact hp
        · intro h
          exact hm h.2
      have h2 := (attCycle_spin fuel (scopedPush p 2 Variant.Relative) hpush).1
      simp [traverseGen, attCycle_node1, visitTrue, hp, traverseList, selAll, h2]

theorem attCycle_no_completion :
    ∀ fuel : Nat,
      (traverseGen attCycleGraph selAll visitTrue fuel ROOT_KEY ROOT_TRAVERSAL_ID).completed = false := by
  intro fuel
  cases fuel with
  | zero => rfl
  | succ fuel =>
      have h1 := attCycle_k1 fuel (scopedPush ROOT_TRAVERSAL_ID 1 Variant.Attached)
        (hasRelZLoop_scopedPush_nonRel _ 1 Variant.Attached (by simp) (by decide))
        (by simp [scopedPush_rel, ROOT_TRAVERSAL_ID])
      have hroot : ROOT_TRAVERSAL_ID.hasRelZLoop = false := by decide
      simp [traverseGen, attCycle_nodeRoot, visitTrue, traverseList, selAll, h1, hroot]

theorem length_filter_mono {α : Type} (l : List α) (P Q : α → Bool)
    (h : ∀ x, Q x = true → P x = true) :
    (l.filter Q).length ≤ (l.filter P).length := by
  induction l with
  | nil => simp
  | cons x xs ih =>
      simp only [List.filter_cons]
      by_cases hq : Q x = true
      · rw [if_pos hq, if_pos (h x hq)]
        simpa using ih
      · rw [if_neg hq]
        split
        · simp only [List.length_cons]
          omega
        · exact ih

theorem length_filter_lt {α : Type} (l : List α) (P Q : α → Bool)
    (h : ∀ x, Q x = true → P x = true) (c : α) (hc : c ∈ l) (hPc : P c = true)
    (hQc : Q c = false) :
    (l.filter Q).length < (l.filter P).length := by
  induction l with
  | nil => cases hc
  | cons x xs ih =>
      simp only [List.filter_cons]
      rcases List.mem_cons.1 hc with rfl | hmem
      · have hmono := length_filter_mono xs P Q h
        rw [if_pos hPc, if_neg (by simp [hQc])]
        simp only [List.length_cons]
        omega
      · have hlt := ih hmem
        by_cases hq : Q x = true
        · rw [if_pos hq, if_pos (h x hq)]
          simp only [List.length_cons]
          omega
        · rw [if_neg hq]
          split
          · simp only [List.length_cons]
            omega
          · exact hlt

theorem mem_keyList_of_get {g : HierarchyGraph} {k : Nat} {n : LayerHierarchy}
    (h : getHierarchyFromId g k = some n) : k ∈ keyList g := by
  unfold getHierarchyFromId at h
  cases hf : g.nodes.find? (fun kn => kn.1 == k) with
  | none => rw [hf] at h; cases h
  | some kn =>
      have hm := List.mem_of_find?_eq_some hf
      have hp := List.find?_some hf
      have hk : kn.1 = k := by simpa using hp
      unfold keyList
      exact List.mem_dedup.2 (hk ▸ List.mem_map_of_mem Prod.fst hm)

theorem get_none_of_not_mem {g : HierarchyGraph} {k : Nat}
    (h : k ∉ keyList g) : getHierarchyFromId g k = none := by
  cases hg : getHierarchyFromId g k with
  | none => rfl
  | some n => exact absurd (mem_keyList_of_get hg) h

theorem freshK_le (g : HierarchyGraph) (p : TraversalPath) :
    freshK g p ≤ numNodes g := by
  unfold freshK numNodes
  calc ((keyList g).filter _).length ≤ (keyList g).length :=
        List.length_filter_le _ _
    _ ≤ (g.nodes.map Prod.fst).length := List.Sublist.length_le (List.dedup_sublist _)
    _ = g.nodes.length := List.length_map _ _

theorem freshK_congr (g : HierarchyGraph) {p q : TraversalPath}
    (h : p.relativeRootIds = q.relativeRootIds) : freshK g p = freshK g q := by
  unfold freshK
  rw [h]

theorem freshK_push_nonRel (g : HierarchyGraph) (p : TraversalPath) (c : Nat)
    (v : Variant) (hv : v ≠ Variant.Relative) :
    freshK g (scopedPush p c v) = freshK g p := by
  apply freshK_congr
  rw [scopedPush_rel, if_neg hv, List.append_nil]

theorem contains_false_iff (l : List Nat) (x : Nat) :
    l.contains x = false ↔ x ∉ l := by
  rw [← Bool.not_eq_true, not_iff_not]
  exact List.elem_iff

theorem freshK_push_rel_fresh (g : HierarchyGraph) (p : TraversalPath) (c : Nat)
    (hck : c ∈ keyList g) (hmem : c ∉ p.relativeRootIds) :
    freshK g (scopedPush p c Variant.Relative) < freshK g p := by
  unfold freshK
  rw [scopedPush_rel, if_pos rfl]
  refine length_filter_lt (keyList g) _ _ ?_ c hck ?_ ?_
  · intro x hx
    simp only [Bool.not_eq_true', contains_false_iff, List.mem_append,
      List.mem_singleton] at hx ⊢
    intro hcon
    exact hx (Or.inl hcon)
  · simp only [Bool.not_eq_true', contains_false_iff]
    exact hmem
  · have hcm : (p.relativeRootIds ++ [c]).contains c = true :=
      List.elem_iff.mpr (by simp)
    rw [hcm]
    rfl

theorem traverseList_completed (step : Nat → TraversalPath → TraverseResult)
    (hres : ∀ c p, restores p (step c p).finalPath) :
    ∀ (l : List (Nat × Variant)) (path : TraversalPath),
      (∀ cv ∈ l, ∀ acc : TraversalPath,
        acc.relativeRootIds = path.relativeRootIds →
        (step cv.1 (scopedPush acc cv.1 cv.2)).completed = true) →
      (traverseList step l path).completed = true := by
  intro l
  induction l with
  | nil => intro path _; rfl
  | cons cv rest ih =>
      intro path h
      rw [traverseList_cons]
      simp only [Bool.and_eq_true]
      constructor
      · exact h cv (List.mem_cons_self cv rest) path rfl
      · have hpop : restores path
            (scopedPop path (step cv.1 (scopedPush path cv.1 cv.2)).finalPath) :=
          restores_scopedPop cv.1 cv.2 (hres cv.1 (scopedPush path cv.1 cv.2))
        apply ih
        intro cv2 hm acc hacc
        exact h cv2 (List.mem_cons_of_mem cv hm) acc (hacc.trans hpop.2.2.2)

theorem traverseGen_completes (g : HierarchyGraph) (sel : ChildSel)
    (visitor : Visitor) (rank : Nat → Nat)
    (hsel : ∀ node cv, cv ∈ sel g node → cv ∈ node.mChildren)
    (hrank : ∀ k node cv, getHierarchyFromId g k = some node →
      cv ∈ node.mChildren → cv.2 ≠ Variant.Relative → rank cv.1 < rank k)
    (hbound : ∀ k, rank k ≤ numNodes g)
    (hvalid : ∀ k node cv, getHierarchyFromId g k = some node →
      cv ∈ node.mChildren → cv.1 ≠ UNASSIGNED_LAYER_ID) :
    ∀ (fuel k : Nat) (p : TraversalPath), needFuel g rank k p ≤ fuel →
      (traverseGen g sel visitor fuel k p).completed = true := by
  intro fuel
  induction fuel with
  | zero =>
      intro k p h
      unfold needFuel at h
      split at h <;> omega
  | succ fuel ih =>
      intro k p h
      cases hku : getHierarchyFromId g k with
      | none => rw [traverseGen_succ_none _ _ _ _ _ _ hku]
      | some node =>
          rw [traverseGen_succ_some _ _ _ _ _ _ node hku]
          simp only []
          split
          · rfl
          · split
            · rfl
            · rename_i hfl
              simp only [Bool.not_eq_true] at hfl
              have hKbound : freshK g p * (numNodes g + 1) + rank k + 2 ≤ fuel + 1 := by
                unfold needFuel at h
                rw [if_neg (by simp [hfl])] at h
                exact h
              have hfuel1 : 1 ≤ fuel := by
                have := hbound k
                omega
              apply traverseList_completed _
                (fun c q => traverseGen_restores g sel visitor fuel c q)
              intro cv hm acc hacc
              by_cases hflag : (scopedPush acc cv.1 cv.2).hasRelZLoop = true
              · apply ih
                unfold needFuel
                rw [if_pos hflag]
                omega
              · simp only [Bool.not_eq_true] at hflag
                by_cases hck : cv.1 ∈ keyList g
                · apply ih
                  unfold needFuel
                  rw [if_neg (by simp [hflag])]
                  by_cases hv : cv.2 = Variant.Relative
                  · -- a fresh relative push: the fresh-root count decreases
                    have hcnm : cv.1 ∉ acc.relativeRootIds := by
                      intro hmracc
                      have hinv : (scopedPush acc cv.1 cv.2).invalidRelativeRootId = cv.1 := by
                        rw [scopedPush_invalid, if_pos ⟨hv, hmracc⟩]
                      have hne : cv.1 ≠ UNASSIGNED_LAYER_ID :=
                        hvalid k node cv hku (hsel node cv hm)
                      rw [TraversalPath.hasRelZLoop, hinv] at hflag
                      simp at hflag
                      exact hne hflag
                    have hdec : freshK g (scopedPush acc cv.1 cv.2) < freshK g p := by
                      have := freshK_push_rel_fresh g acc cv.1 hck hcnm
                      rw [hv]
                      calc freshK g (scopedPush acc cv.1 Variant.Relative)
                          < freshK g acc := freshK_push_rel_fresh g acc cv.1 hck hcnm
                        _ = freshK g p := freshK_congr g hacc
                    have hrc := hbound cv.1
                    have hKpos : 1 ≤ freshK g p := by omega
                    nlinarith [hdec, hrc, hKbound, hKpos]
                  · -- a non-relative edge: the rank decreases
                    have hKeq : freshK g (scopedPush acc cv.1 cv.2) = freshK g p := by
                      rw [freshK_push_nonRel g acc cv.1 cv.2 hv]
                      exact freshK_congr g hacc
                    have hrdec : rank cv.1 < rank k :=
                      hrank k node cv hku (hsel node cv hm) hv
                    rw [hKeq]
                    omega
                · obtain ⟨fuel2, rfl⟩ : ∃ m, fuel = m + 1 := ⟨fuel - 1, by omega⟩
                  rw [traverseGen_succ_none _ _ _ _ _ _ (get_none_of_not_mem hck)]


theorem mem_nodes_of_get {g : HierarchyGraph} {k : Nat} {n : LayerHierarchy}
    (h : getHierarchyFromId g k = some n) : (k, n) ∈ g.nodes := by
  unfold getHierarchyFromId at h
  cases hf : g.nodes.find? (fun kn => kn.1 == k) with
  | none => rw [hf] at h; cases h
  | some kn =>
      have hm := List.mem_of_find?_eq_some hf
      have hp := List.find?_some hf
      have hk : kn.1 = k := by simpa using hp
      rw [hf] at h
      simp only [Option.map_some'] at h
      have : kn = (k, n) := by
        cases kn
        simp_all
      rw [this] at hm
      exact hm

theorem hrank_of_rankOk {g : HierarchyGraph} {rank : Nat → Nat}
    (h : rankOk g rank = true) :
    ∀ k node cv, getHierarchyFromId g k = some node →
      cv ∈ node.mChildren → cv.2 ≠ Variant.Relative → rank cv.1 < rank k := by
  intro k node cv hk hm hv
  have hmem := mem_nodes_of_get hk
  unfold rankOk at h
  rw [List.all_eq_true] at h
  have h2 := h (k, node) hmem
  rw [List.all_eq_true] at h2
  have h3 := h2 cv hm
  simp only [Bool.or_eq_true, beq_iff_eq, decide_eq_true_eq] at h3
  rcases h3 with h3 | h3
  · exact absurd h3 hv
  · exact h3

theorem hvalid_of_edgesValidOk {g : HierarchyGraph}
    (h : edgesValidOk g = true) :
    ∀ k node cv, getHierarchyFromId g k = some node →
      cv ∈ node.mChildren → cv.1 ≠ UNASSIGNED_LAYER_ID := by
  intro k node cv hk hm
  have hmem := mem_nodes_of_get hk
  unfold edgesValidOk at h
  rw [List.all_eq_true] at h
  have h2 := h (k, node) hmem
  rw [List.all_eq_true] at h2
  have h3 := h2 cv hm
  simpa using h3

theorem insertByZ_perm (g : HierarchyGraph) (cv : Nat × Variant) :
    ∀ l : List (Nat × Variant), (insertByZ g cv l).Perm (cv :: l) := by
  intro l
  induction l with
  | nil => exact List.Perm.refl _
  | cons dv rest ih =>
      unfold insertByZ
      split
      · exact List.Perm.refl _
      · exact (ih.cons dv).trans (List.Perm.swap cv dv rest)

theorem sortChildrenByZOrder_perm (g : HierarchyGraph) :
    ∀ l : List (Nat × Variant), (sortChildrenByZOrder g l).Perm l := by
  intro l
  induction l with
  | nil => exact List.Perm.refl _
  | cons cv rest ih =>
      unfold sortChildrenByZOrder
      exact (insertByZ_perm g cv _).trans (ih.cons cv)

theorem selZ_subset (g : HierarchyGraph) (node : LayerHierarchy) :
    ∀ cv, cv ∈ selZ g node → cv ∈ node.mChildren := by
  intro cv h
  unfold selZ at h
  have h2 := (sortChildrenByZOrder_perm g _).mem_iff.1 h
  exact List.mem_of_mem_filter h2

theorem needFuel_le_defaultFuel (g : HierarchyGraph) (rank : Nat → Nat)
    (hbound : ∀ k, rank k ≤ numNodes g) (k : Nat) :
    needFuel g rank k ROOT_TRAVERSAL_ID ≤ defaultFuel g := by
  unfold needFuel defaultFuel
  rw [if_neg (by decide)]
  have h1 := freshK_le g ROOT_TRAVERSAL_ID
  have h2 := hbound k
  nlinarith

/-- C5 counterexample: on a graph whose structural parents form a cycle that
is reachable through a relative edge, `traverse` never completes at any
recursion depth (and in particular not at the default depth), refuting
termination on every graph. -/
theorem c5_termination_counterexample :
    (¬ ∃ fuel : Nat,
      (traverseGen attCycleGraph selAll visitTrue fuel ROOT_KEY
          ROOT_TRAVERSAL_ID).completed = true)
    ∧ (LayerHierarchy.traverse attCycleGraph ROOT_KEY visitTrue).completed = false := by
  constructor
  · rintro ⟨fuel, h⟩
    rw [attCycle_no_completion fuel] at h
    cases h
  · exact attCycle_no_completion (defaultFuel attCycleGraph)

/-- C5 (amended): on every graph whose non-`Relative` edges are acyclic
(witnessed by a rank function that such edges strictly decrease) — in
particular on every graph whose only cycles are relative-parent cycles — both
traversals complete within the default recursion budget: a duplicate relative
root does not prevent the push, but descent through relative parents is
depth-bounded by the total node count, so the walk neither crashes nor loops
forever. -/
theorem c5_termination (g : HierarchyGraph) (startKey : Nat) (visitor : Visitor)
    (rank : Nat → Nat)
    (hrank : ∀ k node cv, getHierarchyFromId g k = some node →
      cv ∈ node.mChildren → cv.2 ≠ Variant.Relative → rank cv.1 < rank k)
    (hbound : ∀ k, rank k ≤ numNodes g)
    (hvalid : ∀ k node cv, getHierarchyFromId g k = some node →
      cv ∈ node.mChildren → cv.1 ≠ UNASSIGNED_LAYER_ID) :
    (LayerHierarchy.traverse g startKey visitor).completed = true
    ∧ (LayerHierarchy.traverseInZOrder g startKey visitor).completed = true := by
  constructor
  · exact traverseGen_completes g selAll visitor rank (fun node cv h => h)
      hrank hbound hvalid (defaultFuel g) startKey ROOT_TRAVERSAL_ID
      (needFuel_le_defaultFuel g rank hbound startKey)
  · exact traverseGen_completes g selZ visitor rank (selZ_subset g)
      hrank hbound hvalid (defaultFuel g) startKey ROOT_TRAVERSAL_ID
      (needFuel_le_defaultFuel g rank hbound startKey)

/-- Closed instantiation: both traversals complete on the relative-parent
cycle graph. -/
theorem c5_termination_witness :
    (LayerHierarchy.traverse loopGraph ROOT_KEY visitTrue).completed = true
    ∧ (LayerHierarchy.traverseInZOrder loopGraph ROOT_KEY visitTrue).completed = true :=
  c5_termination loopGraph ROOT_KEY visitTrue
    (fun k => if k = ROOT_KEY then 1 else 0)
    (hrank_of_rankOk (show rankOk loopGraph
        (fun k => if k = ROOT_KEY then 1 else 0) = true by decide))
    (by
      intro k
      show (if k = ROOT_KEY then (1 : Nat) else 0) ≤ numNodes loopGraph
      have h4 : numNodes loopGraph = 4 := by decide
      rw [h4]
      split <;> omega)
    (hvalid_of_edgesValidOk (show edgesValidOk loopGraph = true by decide))

theorem insertByZ_sorted (g : HierarchyGraph) (cv : Nat × Variant) :
    ∀ l : List (Nat × Variant),
      l.Pairwise (fun a b => zOfKey g a.1 ≤ zOfKey g b.1) →
      (insertByZ g cv l).Pairwise (fun a b => zOfKey g a.1 ≤ zOfKey g b.1) := by
  intro l
  induction l with
  | nil => intro _; simp [insertByZ]
  | cons dv rest ih =>
      intro h
      rw [List.pairwise_cons] at h
      obtain ⟨hdv, hrest⟩ := h
      unfold insertByZ
      split
      · rename_i hle
        rw [List.pairwise_cons]
        refine ⟨?_, List.pairwise_cons.2 ⟨hdv, hrest⟩⟩
        intro b hb
        rcases List.mem_cons.1 hb with rfl | hb2
        · exact hle
        · exact le_trans hle (hdv b hb2)
      · rename_i hgt
        push_neg at hgt
        rw [List.pairwise_cons]
        refine ⟨?_, ih hrest⟩
        intro b hb
        have hb2 := (insertByZ_perm g cv rest).mem_iff.1 hb
        rcases List.mem_cons.1 hb2 with rfl | hb3
        · exact le_of_lt hgt
        · exact hdv b hb3

theorem sortChildrenByZOrder_sorted (g : HierarchyGraph) :
    ∀ l : List (Nat × Variant),
      (sortChildrenByZOrder g l).Pairwise (fun a b => zOfKey g a.1 ≤ zOfKey g b.1) := by
  intro l
  induction l with
  | nil => simp [sortChildrenByZOrder]
  | cons cv rest ih =>
      unfold sortChildrenByZOrder
      exact insertByZ_sorted g cv _ ih

theorem filter_insertByZ (g : HierarchyGraph) (cv : Nat × Variant) (z0 : Int) :
    ∀ l : List (Nat × Variant),
      (insertByZ g cv l).filter (fun dv => zOfKey g dv.1 == z0) =
        (if zOfKey g cv.1 == z0 then [cv] else [])
          ++ l.filter (fun dv => zOfKey g dv.1 == z0) := by
  intro l
  induction l with
  | nil => simp [insertByZ, List.filter_cons]
  | cons dv rest ih =>
      unfold insertByZ
      split
      · rename_i hle
        by_cases hc : zOfKey g cv.1 == z0
        · simp only [List.filter_cons, hc, if_pos rfl]
          simp
        · simp only [List.filter_cons, hc]
          simp [hc]
      · rename_i hgt
        push_neg at hgt
        by_cases hc : zOfKey g cv.1 == z0
        · have hdv : (zOfKey g dv.1 == z0) = false := by
            have h1 : zOfKey g cv.1 = z0 := by simpa using hc
            have : zOfKey g dv.1 ≠ z0 := by omega
            simpa using this
          simp only [List.filter_cons, hdv, ih, hc]
          simp [hdv]
        · simp only [List.filter_cons, ih, hc]
          simp [hc]

theorem sortChildrenByZOrder_stable (g : HierarchyGraph) (z0 : Int) :
    ∀ l : List (Nat × Variant),
      (sortChildrenByZOrder g l).filter (fun dv => zOfKey g dv.1 == z0) =
        l.filter (fun dv => zOfKey g dv.1 == z0) := by
  intro l
  induction l with
  | nil => rfl
  | cons cv rest ih =>
      unfold sortChildrenByZOrder
      rw [filter_insertByZ g cv z0 _, ih, List.filter_cons]
      split <;> simp_all

/-- C7: `traverseInZOrder` visits each visual sibling set in ascending
declared z value through `sortChildrenByZOrder`, which is a stable sort: its
output is z-sorted, a permutation of its input, and preserves the input order
of children with equal z; concretely, siblings declared with z values
3, 1, 2, 1 are visited in ascending z order 1, 1, 2, 3 with the tied pair in
insertion order. -/
theorem c7_z_order_sort :
    (∀ (g : HierarchyGraph) (l : List (Nat × Variant)),
      (sortChildrenByZOrder g l).Pairwise (fun a b => zOfKey g a.1 ≤ zOfKey g b.1))
    ∧ (∀ (g : HierarchyGraph) (l : List (Nat × Variant)),
      (sortChildrenByZOrder g l).Perm l)
    ∧ (∀ (g : HierarchyGraph) (l : List (Nat × Variant)) (z0 : Int),
      (sortChildrenByZOrder g l).filter (fun dv => zOfKey g dv.1 == z0) =
        l.filter (fun dv => zOfKey g dv.1 == z0))
    ∧ (LayerHierarchy.traverseInZOrder zGraph ROOT_KEY visitTrue).visits.map
        (fun v => v.1) = [1, 3, 5, 4, 2] := by
  refine ⟨?_, ?_, ?_, ?_⟩
  · intro g l
    exact sortChildrenByZOrder_sorted g l
  · intro g l
    exact sortChildrenByZOrder_perm g l
  · intro g l z0
    exact sortChildrenByZOrder_stable g z0 l
  · decide

theorem sumOver_append (a b : List (Nat × TraversalPath)) (f : Nat → Nat) :
    sumOver (a ++ b) f = sumOver a f + sumOver b f := by
  unfold sumOver
  rw [List.map_append, List.sum_append]

theorem sumOver_indicator (visits : List (Nat × TraversalPath)) (Y : Nat) :
    sumOver visits (fun m => if m == Y then 1 else 0) = countVisits visits Y := by
  unfold sumOver countVisits
  induction visits with
  | nil => rfl
  | cons v rest ih =>
      rw [List.map_cons, List.sum_cons, List.countP_cons, ih]
      split <;> rename_i h <;> simp_all <;> omega

theorem flagFree_append {a b : List (Nat × TraversalPath)} :
    flagFree (a ++ b) ↔ flagFree a ∧ flagFree b := by
  unfold flagFree
  constructor
  · intro h
    exact ⟨fun v hv => h v (List.mem_append_left b hv),
           fun v hv => h v (List.mem_append_right a hv)⟩
  · rintro ⟨h1, h2⟩ v hv
    rcases List.mem_append.1 hv with hv | hv
    · exact h1 v hv
    · exact h2 v hv

theorem traverseList_count (step : Nat → TraversalPath → TraverseResult)
    (X : Nat) (predB : Variant → Bool) (f : Nat → Nat)
    (hres : ∀ c p, restores p (step c p).finalPath) :
    ∀ (l : List (Nat × Variant)) (path : TraversalPath),
      (∀ cv ∈ l, ∀ acc : TraversalPath,
        acc.relativeRootIds = path.relativeRootIds →
        (step cv.1 (scopedPush acc cv.1 cv.2)).completed = true →
        flagFree (step cv.1 (scopedPush acc cv.1 cv.2)).visits →
        (step cv.1 (scopedPush acc cv.1 cv.2)).visits.countP
            (fun v => v.1 == X && predB v.2.variant)
          = (if cv.1 == X && predB cv.2 then 1 else 0)
            + sumOver (step cv.1 (scopedPush acc cv.1 cv.2)).visits f) →
      (traverseList step l path).completed = true →
      flagFree (traverseList step l path).visits →
      (traverseList step l path).visits.countP
          (fun v => v.1 == X && predB v.2.variant)
        = l.countP (fun cv => cv.1 == X && predB cv.2)
          + sumOver (traverseList step l path).visits f := by
  intro l
  induction l with
  | nil => intro path _ _ _; rfl
  | cons cv rest ih =>
      intro path hstep hcomp hff
      rw [traverseList_cons] at hcomp hff ⊢
      simp only [] at hcomp hff ⊢
      simp only [Bool.and_eq_true] at hcomp
      rw [flagFree_append] at hff
      rw [List.countP_append, sumOver_append, List.countP_cons]
      have hpop : restores path
          (scopedPop path (step cv.1 (scopedPush path cv.1 cv.2)).finalPath) :=
        restores_scopedPop cv.1 cv.2 (hres cv.1 (scopedPush path cv.1 cv.2))
      have hhead := hstep cv (List.mem_cons_self cv rest) path rfl hcomp.1 hff.1
      have htail := ih _ (fun cv2 hm acc hacc =>
          hstep cv2 (List.mem_cons_of_mem cv hm) acc (hacc.trans hpop.2.2.2))
        hcomp.2 hff.2
      omega

theorem headCount_some {g : HierarchyGraph} {k : Nat} {node : LayerHierarchy}
    (h : getHierarchyFromId g k = some node) (X : Nat) (predB : Variant → Bool)
    (p : TraversalPath) :
    headCount g X predB k p =
      if node.layer.isSome && (k == X) && predB p.variant then 1 else 0 := by
  unfold headCount
  rw [h]


theorem headCount_scopedPush (g : HierarchyGraph) (X : Nat)
    (predB : Variant → Bool) (nodeX : LayerHierarchy)
    (hX : getHierarchyFromId g X = some nodeX) (hXlayer : nodeX.layer.isSome = true)
    (c : Nat) (w : Variant) (acc : TraversalPath) :
    headCount g X predB c (scopedPush acc c w) =
      if c == X && predB w then 1 else 0 := by
  unfold headCount
  rw [scopedPush_variant]
  cases hc : getHierarchyFromId g c with
  | none =>
      have hcx : (c == X) = false := by
        by_cases h : c = X
        · subst h; rw [hc] at hX; cases hX
        · simpa using h
      rw [hcx]
      simp
  | some cnode =>
      by_cases h : c = X
      · subst h
        rw [hc] at hX
        injection hX with hX2
        subst hX2
        simp [hXlayer]
      · have hcx : (c == X) = false := by simpa using h
        rw [hcx]
        simp

theorem traverseGen_count (g : HierarchyGraph) (sel : ChildSel) (X : Nat)
    (predB : Variant → Bool) (f : Nat → Nat)
    (hf : ∀ k node, getHierarchyFromId g k = some node → node.layer.isSome = true →
      (sel g node).countP (fun cv => cv.1 == X && predB cv.2) = f k)
    (hzero : ∀ k node, getHierarchyFromId g k = some node → node.layer.isSome = false →
      (sel g node).countP (fun cv => cv.1 == X && predB cv.2) = 0)
    (nodeX : LayerHierarchy) (hX : getHierarchyFromId g X = some nodeX)
    (hXlayer : nodeX.layer.isSome = true) :
    ∀ (fuel k : Nat) (p : TraversalPath),
      (traverseGen g sel visitTrue fuel k p).completed = true →
      flagFree (traverseGen g sel visitTrue fuel k p).visits →
      (traverseGen g sel visitTrue fuel k p).visits.countP
          (fun v => v.1 == X && predB v.2.variant)
        = headCount g X predB k p
          + sumOver (traverseGen g sel visitTrue fuel k p).visits f := by
  intro fuel
  induction fuel with
  | zero =>
      intro k p hcomp _
      cases hcomp
  | succ fuel ih =>
      intro k p hcomp hff
      cases hku : getHierarchyFromId g k with
      | none =>
          rw [traverseGen_succ_none _ _ _ _ _ _ hku]
          unfold headCount
          rw [hku]
          rfl
      | some node =>
          rw [traverseGen_succ_some _ _ _ _ _ _ node hku] at hcomp hff ⊢
          simp only [visitTrue, Bool.not_true, Bool.and_false, Bool.false_eq_true,
            if_false] at hcomp hff ⊢
          by_cases hfl : p.hasRelZLoop = true
          · rw [if_pos hfl] at hcomp hff ⊢
            by_cases hl : node.layer.isSome = true
            · exfalso
              have := hff (k, p) (by rw [hl]; simp)
              rw [hfl] at this
              cases this
            · rw [Bool.not_eq_true] at hl
              rw [hl] at hff ⊢
              rw [headCount_some hku, hl]
              simp [sumOver]
          · rw [if_neg hfl] at hcomp hff ⊢
            simp only [Bool.not_eq_true] at hfl
            have hstep : ∀ cv ∈ sel g node, ∀ acc : TraversalPath,
                acc.relativeRootIds = p.relativeRootIds →
                (traverseGen g sel visitTrue fuel cv.1 (scopedPush acc cv.1 cv.2)).completed = true →
                flagFree (traverseGen g sel visitTrue fuel cv.1 (scopedPush acc cv.1 cv.2)).visits →
                (traverseGen g sel visitTrue fuel cv.1 (scopedPush acc cv.1 cv.2)).visits.countP
                    (fun v => v.1 == X && predB v.2.variant)
                  = (if cv.1 == X && predB cv.2 then 1 else 0)
                    + sumOver (traverseGen g sel visitTrue fuel cv.1 (scopedPush acc cv.1 cv.2)).visits f := by
              intro cv hm acc hacc hc2 hff2
              rw [← headCount_scopedPush g X predB nodeX hX hXlayer cv.1 cv.2 acc]
              exact ih cv.1 (scopedPush acc cv.1 cv.2) hc2 hff2
            by_cases hl : node.layer.isSome = true
            · rw [hl] at hcomp hff ⊢
              simp only [if_true] at hcomp hff ⊢
              rw [flagFree_append] at hff
              rw [List.countP_append, sumOver_append]
              have hfold := traverseList_count
                (traverseGen g sel visitTrue fuel) X predB f
                (fun c q => traverseGen_restores g sel visitTrue fuel c q)
                (sel g node) p hstep hcomp hff.2
              have hfk := hf k node hku hl
              rw [headCount_some hku, hl]
              have hsingle : sumOver [(k, p)] f = f k := by
                simp [sumOver]
              rw [hsingle, List.countP_cons, List.countP_nil]
              simp only [Bool.true_and, Nat.zero_add]
              split <;> omega
            · rw [Bool.not_eq_true] at hl
              rw [hl] at hcomp hff ⊢
              simp only [Bool.false_eq_true, if_false, List.nil_append] at hcomp hff ⊢
              have hfold := traverseList_count
                (traverseGen g sel visitTrue fuel) X predB f
                (fun c q => traverseGen_restores g sel visitTrue fuel c q)
                (sel g node) p hstep hcomp hff
              have hfk := hzero k node hku hl
              rw [headCount_some hku, hl]
              simp only [Bool.false_and, Bool.false_eq_true, if_false]
              omega

theorem traverseList_variant (step : Nat → TraversalPath → TraverseResult)
    (W : Variant → Prop)
    (hstep : ∀ c w acc, W w → ∀ v ∈ (step c (scopedPush acc c w)).visits, W v.2.variant) :
    ∀ (l : List (Nat × Variant)) (path : TraversalPath), (∀ cv ∈ l, W cv.2) →
      ∀ v ∈ (traverseList step l path).visits, W v.2.variant := by
  intro l
  induction l with
  | nil => intro path _ v hv; cases hv
  | cons cv rest ih =>
      intro path hW v hv
      rw [traverseList_cons] at hv
      rcases List.mem_append.1 hv with hv | hv
      · exact hstep cv.1 cv.2 path (hW cv (List.mem_cons_self cv rest)) v hv
      · exact ih _ (fun cv2 hm => hW cv2 (List.mem_cons_of_mem cv hm)) v hv

theorem traverseGen_variant (g : HierarchyGraph) (sel : ChildSel)
    (visitor : Visitor) (W : Variant → Prop)
    (hsel : ∀ node cv, cv ∈ sel g node → W cv.2) :
    ∀ (fuel k : Nat) (p : TraversalPath), W p.variant →
      ∀ v ∈ (traverseGen g sel visitor fuel k p).visits, W v.2.variant := by
  intro fuel
  induction fuel with
  | zero => intro k p _ v hv; cases hv
  | succ fuel ih =>
      intro k p hW v hv
      cases hku : getHierarchyFromId g k with
      | none =>
          rw [traverseGen_succ_none _ _ _ _ _ _ hku] at hv
          cases hv
      | some node =>
          rw [traverseGen_succ_some _ _ _ _ _ _ node hku] at hv
          simp only [] at hv
          have hvis : ∀ w ∈ (if node.layer.isSome then [(k, p)] else
              ([] : List (Nat × TraversalPath))), W w.2.variant := by
            intro w hw
            split at hw
            · rcases List.mem_singleton.1 hw with rfl
              exact hW
            · cases hw
          split at hv
          · exact hvis v hv
          · split at hv
            · exact hvis v hv
            · rcases List.mem_append.1 hv with hv | hv
              · exact hvis v hv
              · refine traverseList_variant _ W ?_ (sel g node) p (hsel node) v hv
                intro c w acc hw v2 hv2
                refine ih c (scopedPush acc c w) ?_ v2 hv2
                rw [scopedPush_variant]
                exact hw

theorem sumOver_add (visits : List (Nat × TraversalPath)) (f1 f2 : Nat → Nat) :
    sumOver visits (fun m => f1 m + f2 m) = sumOver visits f1 + sumOver visits f2 := by
  unfold sumOver
  induction visits with
  | nil => rfl
  | cons v rest ih =>
      simp only [List.map_cons, List.sum_cons, ih]
      omega

theorem headCount_ne (g : HierarchyGraph) (X : Nat) (predB : Variant → Bool)
    (k : Nat) (p : TraversalPath) (h : k ≠ X) :
    headCount g X predB k p = 0 := by
  unfold headCount
  cases getHierarchyFromId g k with
  | none => rfl
  | some node =>
      have : (k == X) = false := by simpa using h
      rw [this]
      simp

theorem selZ_not_detached (g : HierarchyGraph) (node : LayerHierarchy) :
    ∀ cv ∈ selZ g node, cv.2 ≠ Variant.Detached := by
  intro cv h
  unfold selZ at h
  have h2 := (sortChildrenByZOrder_perm g _).mem_iff.1 h
  have h3 := List.of_mem_filter h2
  simpa using h3

theorem all_nodes_prop (g : HierarchyGraph) (Pb : Nat × LayerHierarchy → Bool)
    (h : g.nodes.all Pb = true) :
    ∀ k node, getHierarchyFromId g k = some node → Pb (k, node) = true :=
  fun k node hk => (List.all_eq_true.1 h) (k, node) (mem_nodes_of_get hk)

/-- C2: a layer X with both a structural parent P (edge kind `Detached`) and a
relative parent R (edge kind `Relative`) is visited by `traverse` once from P
as `Detached` and once from R as `Relative` (so exactly twice when P and R are
each visited once), while `traverseInZOrder` skips `Detached` children
entirely — no visit of any node carries the `Detached` kind — and visits X
exactly as often as it visits R, always as `Relative` (so exactly once when R
is visited once). -/
theorem c2_detached_vs_relative_positions
    (g : HierarchyGraph) (startKey X P R : Nat)
    (hstart : startKey ≠ X)
    (nodeX nodeP nodeR : LayerHierarchy)
    (hX : getHierarchyFromId g X = some nodeX) (hXlayer : nodeX.layer.isSome = true)
    (hP : getHierarchyFromId g P = some nodeP) (hPlayer : nodeP.layer.isSome = true)
    (hR : getHierarchyFromId g R = some nodeR) (hRlayer : nodeR.layer.isSome = true)
    (hTDet : ∀ k node, getHierarchyFromId g k = some node →
      (selAll g node).countP (fun cv => cv.1 == X && (cv.2 == Variant.Detached)) =
        if k == P then 1 else 0)
    (hTRel : ∀ k node, getHierarchyFromId g k = some node →
      (selAll g node).countP (fun cv => cv.1 == X && (cv.2 == Variant.Relative)) =
        if k == R then 1 else 0)
    (hTAll : ∀ k node, getHierarchyFromId g k = some node →
      (selAll g node).countP (fun cv => cv.1 == X && true) =
        (if k == P then 1 else 0) + (if k == R then 1 else 0))
    (hZAll : ∀ k node, getHierarchyFromId g k = some node →
      (selZ g node).countP (fun cv => cv.1 == X && true) = if k == R then 1 else 0)
    (hZRel : ∀ k node, getHierarchyFromId g k = some node →
      (selZ g node).countP (fun cv => cv.1 == X && (cv.2 == Variant.Relative)) =
        if k == R then 1 else 0)
    (hTcomp : (LayerHierarchy.traverse g startKey visitTrue).completed = true)
    (hTff : flagFree (LayerHierarchy.traverse g startKey visitTrue).visits)
    (hZcomp : (LayerHierarchy.traverseInZOrder g startKey visitTrue).completed = true)
    (hZff : flagFree (LayerHierarchy.traverseInZOrder g startKey visitTrue).visits) :
    (countVisitsVar (LayerHierarchy.traverse g startKey visitTrue).visits X Variant.Detached
        = countVisits (LayerHierarchy.traverse g startKey visitTrue).visits P)
    ∧ (countVisitsVar (LayerHierarchy.traverse g startKey visitTrue).visits X Variant.Relative
        = countVisits (LayerHierarchy.traverse g startKey visitTrue).visits R)
    ∧ (countVisits (LayerHierarchy.traverse g startKey visitTrue).visits X
        = countVisits (LayerHierarchy.traverse g startKey visitTrue).visits P
          + countVisits (LayerHierarchy.traverse g startKey visitTrue).visits R)
    ∧ (∀ v ∈ (LayerHierarchy.traverseInZOrder g startKey visitTrue).visits,
        v.2.variant ≠ Variant.Detached)
    ∧ (countVisits (LayerHierarchy.traverseInZOrder g startKey visitTrue).visits X
        = countVisits (LayerHierarchy.traverseInZOrder g startKey visitTrue).visits R)
    ∧ (countVisitsVar (LayerHierarchy.traverseInZOrder g startKey visitTrue).visits X Variant.Relative
        = countVisits (LayerHierarchy.traverseInZOrder g startKey visitTrue).visits R) := by
  have hzDet : ∀ k node, getHierarchyFromId g k = some node →
      node.layer.isSome = false →
      (selAll g node).countP (fun cv => cv.1 == X && (cv.2 == Variant.Detached)) = 0 := by
    intro k node hk hlf
    rw [hTDet k node hk]
    have : (k == P) = false := by
      by_cases h : k = P
      · subst h; rw [hk] at hP; injection hP with h2; subst h2
        rw [hPlayer] at hlf; cases hlf
      · simpa using h
    rw [this]
    rfl
  have hzRel : ∀ k node, getHierarchyFromId g k = some node →
      node.layer.isSome = false →
      (selAll g node).countP (fun cv => cv.1 == X && (cv.2 == Variant.Relative)) = 0 := by
    intro k node hk hlf
    rw [hTRel k node hk]
    have : (k == R) = false := by
      by_cases h : k = R
      · subst h; rw [hk] at hR; injection hR with h2; subst h2
        rw [hRlayer] at hlf; cases hlf
      · simpa using h
    rw [this]
    rfl
  have hzAll : ∀ k node, getHierarchyFromId g k = some node →
      node.layer.isSome = false →
      (selAll g node).countP (fun cv => cv.1 == X && true) = 0 := by
    intro k node hk hlf
    rw [hTAll k node hk]
    have h1 : (k == P) = false := by
      by_cases h : k = P
      · subst h; rw [hk] at hP; injection hP with h2; subst h2
        rw [hPlayer] at hlf; cases hlf
      · simpa using h
    have h2 : (k == R) = false := by
      by_cases h : k = R
      · subst h; rw [hk] at hR; injection hR with h2; subst h2
        rw [hRlayer] at hlf; cases hlf
      · simpa using h
    rw [h1, h2]
    rfl
  have hzZAll : ∀ k node, getHierarchyFromId g k = some node →
      node.layer.isSome = false →
      (selZ g node).countP (fun cv => cv.1 == X && true) = 0 := by
    intro k node hk hlf
    rw [hZAll k node hk]
    have : (k == R) = false := by
      by_cases h : k = R
      · subst h; rw [hk] at hR; injection hR with h2; subst h2
        rw [hRlayer] at hlf; cases hlf
      · simpa using h
    rw [this]
    rfl
  have hzZRel : ∀ k node, getHierarchyFromId g k = some node →
      node.layer.isSome = false →
      (selZ g node).countP (fun cv => cv.1 == X && (cv.2 == Variant.Relative)) = 0 := by
    intro k node hk hlf
    rw [hZRel k node hk]
    have : (k == R) = false := by
      by_cases h : k = R
      · subst h; rw [hk] at hR; injection hR with h2; subst h2
        rw [hRlayer] at hlf; cases hlf
      · simpa using h
    rw [this]
    rfl
  have h1 := traverseGen_count g selAll X (fun u => u == Variant.Detached)
    (fun m => if m == P then 1 else 0) (fun k node hk _ => hTDet k node hk) hzDet nodeX hX hXlayer
    (defaultFuel g) startKey ROOT_TRAVERSAL_ID hTcomp hTff
  have h2 := traverseGen_count g selAll X (fun u => u == Variant.Relative)
    (fun m => if m == R then 1 else 0) (fun k node hk _ => hTRel k node hk) hzRel nodeX hX hXlayer
    (defaultFuel g) startKey ROOT_TRAVERSAL_ID hTcomp hTff
  have h3 := traverseGen_count g selAll X (fun _ => true)
    (fun m => (if m == P then 1 else 0) + (if m == R then 1 else 0))
    (fun k node hk _ => hTAll k node hk) hzAll nodeX hX hXlayer
    (defaultFuel g) startKey ROOT_TRAVERSAL_ID hTcomp hTff
  have h5 := traverseGen_count g selZ X (fun _ => true)
    (fun m => if m == R then 1 else 0) (fun k node hk _ => hZAll k node hk) hzZAll nodeX hX hXlayer
    (defaultFuel g) startKey ROOT_TRAVERSAL_ID hZcomp hZff
  have h6 := traverseGen_count g selZ X (fun u => u == Variant.Relative)
    (fun m => if m == R then 1 else 0) (fun k node hk _ => hZRel k node hk) hzZRel nodeX hX hXlayer
    (defaultFuel g) startKey ROOT_TRAVERSAL_ID hZcomp hZff
  rw [headCount_ne g X _ startKey _ hstart] at h1 h2 h3 h5 h6
  rw [sumOver_indicator] at h1 h2 h5 h6
  rw [sumOver_add, sumOver_indicator, sumOver_indicator] at h3
  simp only [Nat.zero_add] at h1 h2 h5 h6
  simp only [Bool.and_true, Nat.zero_add] at h3 h5
  refine ⟨?_, ?_, ?_, ?_, ?_, ?_⟩
  · exact h1
  · exact h2
  · exact h3
  · intro v hv
    exact traverseGen_variant g selZ visitTrue (fun w => w ≠ Variant.Detached)
      (selZ_not_detached g) (defaultFuel g) startKey ROOT_TRAVERSAL_ID
      (by simp [ROOT_TRAVERSAL_ID]) v hv
  · exact h5
  · exact h6

theorem forall_nodes_of_all (g : HierarchyGraph) (Q : Nat → LayerHierarchy → Prop)
    [inst : ∀ k n, Decidable (Q k n)]
    (h : g.nodes.all (fun kn => decide (Q kn.1 kn.2)) = true) :
    ∀ k node, getHierarchyFromId g k = some node → Q k node := by
  intro k node hk
  have h2 := (List.all_eq_true.1 h) (k, node) (mem_nodes_of_get hk)
  exact of_decide_eq_true h2

/-- Closed instantiation of the detached-exclusion property on the concrete
layer 3 with structural parent 1 and relative parent 2. -/
theorem c2_detached_vs_relative_positions_witness :
    (countVisitsVar (LayerHierarchy.traverse relPosGraph ROOT_KEY visitTrue).visits 3 Variant.Detached
        = countVisits (LayerHierarchy.traverse relPosGraph ROOT_KEY visitTrue).visits 1)
    ∧ (countVisitsVar (LayerHierarchy.traverse relPosGraph ROOT_KEY visitTrue).visits 3 Variant.Relative
        = countVisits (LayerHierarchy.traverse relPosGraph ROOT_KEY visitTrue).visits 2)
    ∧ (countVisits (LayerHierarchy.traverse relPosGraph ROOT_KEY visitTrue).visits 3
        = countVisits (LayerHierarchy.traverse relPosGraph ROOT_KEY visitTrue).visits 1
          + countVisits (LayerHierarchy.traverse relPosGraph ROOT_KEY visitTrue).visits 2)
    ∧ (∀ v ∈ (LayerHierarchy.traverseInZOrder relPosGraph ROOT_KEY visitTrue).visits,
        v.2.variant ≠ Variant.Detached)
    ∧ (countVisits (LayerHierarchy.traverseInZOrder relPosGraph ROOT_KEY visitTrue).visits 3
        = countVisits (LayerHierarchy.traverseInZOrder relPosGraph ROOT_KEY visitTrue).visits 2)
    ∧ (countVisitsVar (LayerHierarchy.traverseInZOrder relPosGraph ROOT_KEY visitTrue).visits 3 Variant.Relative
        = countVisits (LayerHierarchy.traverseInZOrder relPosGraph ROOT_KEY visitTrue).visits 2) :=
  c2_detached_vs_relative_positions relPosGraph ROOT_KEY 3 1 2 (by decide)
    { layer := some { id := 3, parentId := some 1, relativeParentId := some 2, mirrorId := none, z := 0 },
      mChildren := [], mParent := some 1, mRelativeParent := some 2 }
    { layer := some { id := 1, parentId := none, relativeParentId := none, mirrorId := none, z := 0 },
      mChildren := [(3, Variant.Detached)], mParent := some ROOT_KEY, mRelativeParent := none }
    { layer := some { id := 2, parentId := none, relativeParentId := none, mirrorId := none, z := 0 },
      mChildren := [(3, Variant.Relative)], mParent := some ROOT_KEY, mRelativeParent := none }
    (by decide) (by decide) (by decide) (by decide) (by decide) (by decide)
    (forall_nodes_of_all relPosGraph
      (fun k node => (selAll relPosGraph node).countP
        (fun cv => cv.1 == 3 && (cv.2 == Variant.Detached)) = if k == 1 then 1 else 0)
      (by decide))
    (forall_nodes_of_all relPosGraph
      (fun k node => (selAll relPosGraph node).countP
        (fun cv => cv.1 == 3 && (cv.2 == Variant.Relative)) = if k == 2 then 1 else 0)
      (by decide))
    (forall_nodes_of_all relPosGraph
      (fun k node => (selAll relPosGraph node).countP
        (fun cv => cv.1 == 3 && true) = (if k == 1 then 1 else 0) + (if k == 2 then 1 else 0))
      (by decide))
    (forall_nodes_of_all relPosGraph
      (fun k node => (selZ relPosGraph node).countP
        (fun cv => cv.1 == 3 && true) = if k == 2 then 1 else 0)
      (by decide))
    (forall_nodes_of_all relPosGraph
      (fun k node => (selZ relPosGraph node).countP
        (fun cv => cv.1 == 3 && (cv.2 == Variant.Relative)) = if k == 2 then 1 else 0)
      (by decide))
    (by decide) (by unfold flagFree; decide) (by decide) (by unfold flagFree; decide)

theorem hWK_of_childKeysHaveLayers {g : HierarchyGraph}
    (h : childKeysHaveLayers g = true) :
    ∀ k n cv, getHierarchyFromId g k = some n → cv ∈ n.mChildren →
      ∃ cn, getHierarchyFromId g cv.1 = some cn ∧ cn.layer.isSome = true := by
  intro k n cv hk hm
  unfold childKeysHaveLayers at h
  rw [List.all_eq_true] at h
  have h2 := h (k, n) (mem_nodes_of_get hk)
  rw [List.all_eq_true] at h2
  have h3 := h2 cv hm
  cases hc : getHierarchyFromId g cv.1 with
  | none => rw [hc] at h3; cases h3
  | some cn =>
      rw [hc] at h3
      exact ⟨cn, rfl, h3⟩

theorem unflagged_invalid {p : TraversalPath} (h : p.hasRelZLoop = false) :
    p.invalidRelativeRootId = UNASSIGNED_LAYER_ID := by
  unfold TraversalPath.hasRelZLoop at h
  simpa using h

theorem self_visit (g : HierarchyGraph) (sel : ChildSel) :
    ∀ (fuel c : Nat) (q : TraversalPath) (cn : LayerHierarchy),
      getHierarchyFromId g c = some cn → cn.layer.isSome = true →
      (traverseGen g sel visitTrue fuel c q).completed = true →
      (c, q) ∈ (traverseGen g sel visitTrue fuel c q).visits := by
  intro fuel c q cn hc hl hcomp
  cases fuel with
  | zero => cases hcomp
  | succ fuel =>
      rw [traverseGen_succ_some _ _ _ _ _ _ cn hc]
      simp only [visitTrue, Bool.not_true, Bool.and_false, Bool.false_eq_true,
        if_false]
      rw [hl]
      simp only [if_true]
      split
      · exact List.mem_singleton.2 rfl
      · exact List.mem_append_left _ (List.mem_singleton.2 rfl)

theorem traverseList_stable (step : Nat → TraversalPath → TraverseResult)
    (hres : ∀ c p, restores p (step c p).finalPath) :
    ∀ (l : List (Nat × Variant)) (path : TraversalPath),
      (∀ cv ∈ l, ∀ acc : TraversalPath,
        (step cv.1 (scopedPush acc cv.1 cv.2)).completed = true →
        flagFree (step cv.1 (scopedPush acc cv.1 cv.2)).visits →
        (step cv.1 (scopedPush acc cv.1 cv.2)).finalPath.invalidRelativeRootId
          = (scopedPush acc cv.1 cv.2).invalidRelativeRootId) →
      (∀ cv ∈ l, ∀ acc : TraversalPath,
        (scopedPush acc cv.1 cv.2).hasRelZLoop = true →
        (step cv.1 (scopedPush acc cv.1 cv.2)).completed = true →
        ∃ v ∈ (step cv.1 (scopedPush acc cv.1 cv.2)).visits, v.2.hasRelZLoop = true) →
      (traverseList step l path).completed = true →
      flagFree (traverseList step l path).visits →
      path.hasRelZLoop = false →
      (traverseList step l path).finalPath.invalidRelativeRootId
          = path.invalidRelativeRootId
      ∧ ∀ cv ∈ l,
          (step cv.1 (scopedPush path cv.1 cv.2)).visits
              ⊆ (traverseList step l path).visits
          ∧ (step cv.1 (scopedPush path cv.1 cv.2)).completed = true := by
  intro l
  induction l with
  | nil =>
      intro path _ _ _ _ _
      exact ⟨rfl, fun cv hcv => absurd hcv (List.not_mem_nil cv)⟩
  | cons cv rest ih =>
      intro path hM hFV hcomp hff hpf
      rw [traverseList_cons] at hcomp hff ⊢
      simp only [] at hcomp hff ⊢
      simp only [Bool.and_eq_true] at hcomp
      rw [flagFree_append] at hff
      have hpushf : (scopedPush path cv.1 cv.2).hasRelZLoop = false := by
        by_cases hfl : (scopedPush path cv.1 cv.2).hasRelZLoop = true
        · obtain ⟨v, hv, hvf⟩ := hFV cv (List.mem_cons_self cv rest) path hfl hcomp.1
          rw [hff.1 v hv] at hvf
          cases hvf
        · simpa using hfl
      have hstepinv := hM cv (List.mem_cons_self cv rest) path hcomp.1 hff.1
      have hpop : scopedPop path (step cv.1 (scopedPush path cv.1 cv.2)).finalPath
          = path := by
        apply restores_eq_of_invalid
        · exact restores_scopedPop cv.1 cv.2 (hres cv.1 (scopedPush path cv.1 cv.2))
        · show (scopedPop path _).invalidRelativeRootId = _
          unfold scopedPop
          simp only []
          rw [hstepinv, unflagged_invalid hpushf, unflagged_invalid hpf]
      rw [hpop] at hcomp hff ⊢
      have hihres := ih path
        (fun cv2 hm acc => hM cv2 (List.mem_cons_of_mem cv hm) acc)
        (fun cv2 hm acc => hFV cv2 (List.mem_cons_of_mem cv hm) acc)
        hcomp.2 hff.2 hpf
      refine ⟨hihres.1, ?_⟩
      intro cv2 hm
      rcases List.mem_cons.1 hm with rfl | hm2
      · exact ⟨fun w hw => List.mem_append_left _ hw, hcomp.1⟩
      · obtain ⟨hsub, hc2⟩ := hihres.2 cv2 hm2
        exact ⟨fun w hw => List.mem_append_right _ (hsub hw), hc2⟩

theorem traverseGen_marker_stable (g : HierarchyGraph) (sel : ChildSel)
    (hsel : ∀ node cv, cv ∈ sel g node → cv ∈ node.mChildren)
    (hWK : ∀ k n cv, getHierarchyFromId g k = some n → cv ∈ n.mChildren →
      ∃ cn, getHierarchyFromId g cv.1 = some cn ∧ cn.layer.isSome = true) :
    ∀ (fuel k : Nat) (p : TraversalPath),
      (traverseGen g sel visitTrue fuel k p).completed = true →
      flagFree (traverseGen g sel visitTrue fuel k p).visits →
      (traverseGen g sel visitTrue fuel k p).finalPath.invalidRelativeRootId
        = p.invalidRelativeRootId := by
  intro fuel
  induction fuel with
  | zero => intro k p hcomp _; cases hcomp
  | succ fuel ih =>
      intro k p hcomp hff
      cases hku : getHierarchyFromId g k with
      | none => rw [traverseGen_succ_none _ _ _ _ _ _ hku]
      | some node =>
          rw [traverseGen_succ_some _ _ _ _ _ _ node hku] at hcomp hff ⊢
          simp only [visitTrue, Bool.not_true, Bool.and_false, Bool.false_eq_true,
            if_false] at hcomp hff ⊢
          by_cases hfl : p.hasRelZLoop = true
          · rw [if_pos hfl]
          · rw [if_neg hfl] at hcomp hff ⊢
            simp only [Bool.not_eq_true] at hfl
            have hffl : flagFree (traverseList (traverseGen g sel visitTrue fuel)
                (sel g node) p).visits := by
              intro v hv
              apply hff
              split
              · exact List.mem_append_right _ hv
              · exact hv
            exact (traverseList_stable (traverseGen g sel visitTrue fuel)
              (fun c q => traverseGen_restores g sel visitTrue fuel c q)
              (sel g node) p
              (fun cv hm acc => ih cv.1 (scopedPush acc cv.1 cv.2))
              (fun cv hm acc hflag hc2 => by
                obtain ⟨cn, hc, hl⟩ := hWK k node cv hku (hsel node cv hm)
                exact ⟨(cv.1, scopedPush acc cv.1 cv.2),
                  self_visit g sel fuel cv.1 (scopedPush acc cv.1 cv.2) cn hc hl hc2,
                  hflag⟩)
              hcomp hffl hfl).1

theorem ChainFrom.snoc {g : HierarchyGraph} {k : Nat} {p : TraversalPath}
    {es : List (Nat × Variant)} {x : Nat} {q : TraversalPath}
    (hchain : ChainFrom g k p es x q) :
    ∀ (nx : LayerHierarchy) (c : Nat) (v : Variant),
      getHierarchyFromId g x = some nx → (c, v) ∈ nx.mChildren →
      q.hasRelZLoop = false →
      ChainFrom g k p (es ++ [(c, v)]) c (scopedPush q c v) := by
  induction hchain with
  | nil k p =>
      intro nx c v hx hm hq
      exact ChainFrom.cons nx hx hm hq (ChainFrom.nil c (scopedPush p c v))
  | cons n hk hm hp hrest ih =>
      intro nx c v hx hm2 hq
      exact ChainFrom.cons n hk hm hp (ih nx c v hx hm2 hq)

theorem traverseGen_chain_visit (g : HierarchyGraph)
    (hWK : ∀ k n cv, getHierarchyFromId g k = some n → cv ∈ n.mChildren →
      ∃ cn, getHierarchyFromId g cv.1 = some cn ∧ cn.layer.isSome = true) :
    ∀ (es : List (Nat × Variant)) (fuel k : Nat) (p : TraversalPath)
      (x : Nat) (q : TraversalPath) (nodeX : LayerHierarchy),
      ChainFrom g k p es x q →
      getHierarchyFromId g x = some nodeX → nodeX.layer.isSome = true →
      (traverseGen g selAll visitTrue fuel k p).completed = true →
      flagFree (traverseGen g selAll visitTrue fuel k p).visits →
      (x, q) ∈ (traverseGen g selAll visitTrue fuel k p).visits := by
  intro es
  induction es with
  | nil =>
      intro fuel k p x q nodeX hchain hx hxl hcomp hff
      cases hchain
      exact self_visit g selAll fuel _ _ nodeX hx hxl hcomp
  | cons e rest ih =>
      intro fuel k p x q nodeX hchain hx hxl hcomp hff
      cases hchain with
      | cons n hk hm hp hrest =>
          cases fuel with
          | zero => cases hcomp
          | succ fuel =>
              rw [traverseGen_succ_some _ _ _ _ _ _ n hk] at hcomp hff ⊢
              simp only [visitTrue, Bool.not_true, Bool.and_false,
                Bool.false_eq_true, if_false] at hcomp hff ⊢
              rw [if_neg (by rw [hp]; simp)] at hcomp hff ⊢
              have hffl : flagFree (traverseList (traverseGen g selAll visitTrue fuel)
                  (selAll g n) p).visits := by
                intro v hv
                apply hff
                split
                · exact List.mem_append_right _ hv
                · exact hv
              have hstable := traverseList_stable (traverseGen g selAll visitTrue fuel)
                (fun c q => traverseGen_restores g selAll visitTrue fuel c q)
                (selAll g n) p
                (fun cv hm2 acc => traverseGen_marker_stable g selAll
                  (fun node cv h => h) hWK fuel cv.1 (scopedPush acc cv.1 cv.2))
                (fun cv hm2 acc hflag hc2 => by
                  obtain ⟨cn, hc, hl⟩ := hWK k n cv hk hm2
                  exact ⟨(cv.1, scopedPush acc cv.1 cv.2),
                    self_visit g selAll fuel cv.1 (scopedPush acc cv.1 cv.2) cn hc hl hc2,
                    hflag⟩)
                hcomp hffl hp
              obtain ⟨hsub, hc2⟩ := hstable.2 _ hm
              have hffsub : flagFree (traverseGen g selAll visitTrue fuel _
                  (scopedPush p _ _)).visits := fun w hw => hffl w (hsub hw)
              have hmem := ih fuel _ (scopedPush p _ _) x q nodeX hrest hx hxl hc2 hffsub
              have hmem2 := hsub hmem
              split
              · exact List.mem_append_right _ hmem2
              · exact hmem2

theorem hasRelZLoop_true_of_visit {g : HierarchyGraph} {startKey : Nat}
    (h : ∃ v ∈ (LayerHierarchy.traverse g startKey visitTrue).visits,
      v.2.hasRelZLoop = true) :
    (LayerHierarchy.hasRelZLoop g startKey).1 = true
    ∧ (LayerHierarchy.hasRelZLoop g startKey).2 ≠ UNASSIGNED_LAYER_ID := by
  obtain ⟨v, hv, hflag⟩ := h
  unfold LayerHierarchy.hasRelZLoop
  simp only []
  cases hfind : (LayerHierarchy.traverse g startKey visitTrue).visits.find?
      (fun v => v.2.hasRelZLoop) with
  | none =>
      exfalso
      have := List.find?_eq_none.1 hfind v hv
      rw [hflag] at this
      exact this rfl
  | some w =>
      have hw := List.find?_some hfind
      constructor
      · rfl
      · show w.2.invalidRelativeRootId ≠ UNASSIGNED_LAYER_ID
        unfold TraversalPath.hasRelZLoop at hw
        simpa using hw

theorem scopedPush_flag_shape (p : TraversalPath) (c : Nat) (v : Variant)
    (hp : p.hasRelZLoop = false)
    (hf : (scopedPush p c v).hasRelZLoop = true) :
    (scopedPush p c v).invalidRelativeRootId = c
    ∧ 2 ≤ (scopedPush p c v).relativeRootIds.count c := by
  by_cases hcond : v = Variant.Relative ∧ c ∈ p.relativeRootIds
  · refine ⟨by rw [scopedPush_invalid, if_pos hcond], ?_⟩
    rw [scopedPush_rel, if_pos hcond.1, List.count_append,
      List.count_singleton_self]
    have h1 := List.one_le_count_iff.2 hcond.2
    omega
  · exfalso
    unfold TraversalPath.hasRelZLoop at hf
    rw [scopedPush_invalid, if_neg hcond, unflagged_invalid hp] at hf
    simp at hf

theorem traverseGen_flagged_start (g : HierarchyGraph) (sel : ChildSel)
    (fuel c : Nat) (q : TraversalPath) (cn : LayerHierarchy)
    (hc : getHierarchyFromId g c = some cn) (hl : cn.layer.isSome = true)
    (hq : q.hasRelZLoop = true)
    (hcomp : (traverseGen g sel visitTrue fuel c q).completed = true) :
    (traverseGen g sel visitTrue fuel c q).visits = [(c, q)] := by
  cases fuel with
  | zero => cases hcomp
  | succ fuel =>
      rw [traverseGen_succ_some _ _ _ _ _ _ cn hc]
      simp only [visitTrue, Bool.not_true, Bool.and_false, Bool.false_eq_true,
        if_false]
      rw [hl]
      simp only [if_true]
      rw [if_pos hq]

theorem traverseGen_first_flag (g : HierarchyGraph) (sel : ChildSel)
    (hsel : ∀ node cv, cv ∈ sel g node → cv ∈ node.mChildren)
    (hWK : ∀ k n cv, getHierarchyFromId g k = some n → cv ∈ n.mChildren →
      ∃ cn, getHierarchyFromId g cv.1 = some cn ∧ cn.layer.isSome = true) :
    ∀ (fuel k : Nat) (p : TraversalPath),
      p.hasRelZLoop = false →
      (traverseGen g sel visitTrue fuel k p).completed = true →
      ∀ w, (traverseGen g sel visitTrue fuel k p).visits.find?
          (fun v => v.2.hasRelZLoop) = some w →
        w.2.invalidRelativeRootId = w.1
        ∧ 2 ≤ w.2.relativeRootIds.count w.1 := by
  intro fuel
  induction fuel with
  | zero => intro k p _ hcomp; cases hcomp
  | succ fuel ih =>
      intro k p hpf hcomp w hfind
      cases hku : getHierarchyFromId g k with
      | none =>
          rw [traverseGen_succ_none _ _ _ _ _ _ hku] at hfind
          simp at hfind
      | some node =>
          rw [traverseGen_succ_some _ _ _ _ _ _ node hku] at hfind hcomp
          simp only [visitTrue, Bool.not_true, Bool.and_false, Bool.false_eq_true,
            if_false] at hfind hcomp
          rw [if_neg (by rw [hpf]; simp)] at hfind hcomp
          simp only [] at hfind hcomp
          rw [List.find?_append] at hfind
          have hv : (if node.layer.isSome = true
              then [(k, p)] else ([] : List (Nat × TraversalPath))).find?
              (fun v => v.2.hasRelZLoop) = none := by
            split
            · rw [List.find?_cons_of_neg _ (by simp [hpf])]
              rfl
            · rfl
          rw [hv, Option.none_or] at hfind
          have haux : ∀ (l : List (Nat × Variant)),
              (∀ cv ∈ l, cv ∈ node.mChildren) →
              ∀ (acc : TraversalPath), acc.hasRelZLoop = false →
              (traverseList (traverseGen g sel visitTrue fuel) l acc).completed
                = true →
              ∀ w2, (traverseList (traverseGen g sel visitTrue fuel) l
                  acc).visits.find? (fun v => v.2.hasRelZLoop) = some w2 →
                w2.2.invalidRelativeRootId = w2.1
                ∧ 2 ≤ w2.2.relativeRootIds.count w2.1 := by
            intro l
            induction l with
            | nil =>
                intro _ acc _ _ w2 hw2
                rw [traverseList_nil] at hw2
                simp at hw2
            | cons cv rest ihl =>
                intro hmem acc haccf hcompl w2 hw2
                rw [traverseList_cons] at hcompl hw2
                simp only [] at hcompl hw2
                simp only [Bool.and_eq_true] at hcompl
                rw [List.find?_append] at hw2
                by_cases hpush : (scopedPush acc cv.1 cv.2).hasRelZLoop = true
                · obtain ⟨cn, hc, hl⟩ := hWK k node cv hku
                    (hmem cv (List.mem_cons_self cv rest))
                  have hvis := traverseGen_flagged_start g sel fuel cv.1
                    (scopedPush acc cv.1 cv.2) cn hc hl hpush hcompl.1
                  rw [hvis, List.find?_cons_of_pos _ (by simpa using hpush),
                    Option.or_some] at hw2
                  have hww : (cv.1, scopedPush acc cv.1 cv.2) = w2 :=
                    Option.some.inj hw2
                  rw [← hww]
                  exact scopedPush_flag_shape acc cv.1 cv.2 haccf hpush
                · rw [Bool.not_eq_true] at hpush
                  cases hsub : (traverseGen g sel visitTrue fuel cv.1
                      (scopedPush acc cv.1 cv.2)).visits.find?
                      (fun v => v.2.hasRelZLoop) with
                  | some w1 =>
                      rw [hsub, Option.or_some] at hw2
                      have hww : w1 = w2 := Option.some.inj hw2
                      rw [← hww]
                      exact ih cv.1 (scopedPush acc cv.1 cv.2) hpush hcompl.1 w1 hsub
                  | none =>
                      rw [hsub, Option.none_or] at hw2
                      have hffsub : flagFree (traverseGen g sel visitTrue fuel cv.1
                          (scopedPush acc cv.1 cv.2)).visits := by
                        intro v hv
                        have h2 := List.find?_eq_none.1 hsub v hv
                        simpa using h2
                      have hstab := traverseGen_marker_stable g sel hsel hWK fuel
                        cv.1 (scopedPush acc cv.1 cv.2) hcompl.1 hffsub
                      have hpopf : (scopedPop acc ((traverseGen g sel visitTrue fuel
                          cv.1 (scopedPush acc cv.1 cv.2)).finalPath)).hasRelZLoop
                          = false := by
                        unfold TraversalPath.hasRelZLoop scopedPop
                        simp only []
                        rw [hstab, unflagged_invalid hpush]
                        simp
                      exact ihl (fun c2 h2 => hmem c2 (List.mem_cons_of_mem cv h2))
                        (scopedPop acc _) hpopf hcompl.2 w2 hw2
          exact haux (sel g node) (fun cv h => hsel node cv h) p hpf hcomp w hfind

/-- C1: a relative-parent cycle is detected. If layers a and b are each
other's relative children (a mutual relative-parent cycle) and a is reachable
from the traversal start by a chain of child edges with no flagged prefix,
then `hasRelZLoop` reports true and its out-parameter is the node id of the
first flagged visit — the first relative root pushed while already on the
path's relative-root stack, so that id occurs at least twice on that stack and
is a valid id; and, per path, pushing a `Relative` edge whose id is already on
the current path's relative-root stack records that id as the duplicate marker
and makes the path's own `hasRelZLoop()` predicate true. The out id belongs to
whichever relative cycle the walk flags first, which need not be the
hypothesised one (see the counterexample). -/
theorem c1_has_rel_z_loop
    (g : HierarchyGraph) (startKey a b : Nat)
    (hWK : ∀ k n cv, getHierarchyFromId g k = some n → cv ∈ n.mChildren →
      ∃ cn, getHierarchyFromId g cv.1 = some cn ∧ cn.layer.isSome = true)
    (na nb : LayerHierarchy)
    (ha : getHierarchyFromId g a = some na) (hal : na.layer.isSome = true)
    (hb : getHierarchyFromId g b = some nb) (hbl : nb.layer.isSome = true)
    (hab : (b, Variant.Relative) ∈ na.mChildren)
    (hba : (a, Variant.Relative) ∈ nb.mChildren)
    (hbU : b ≠ UNASSIGNED_LAYER_ID)
    (es : List (Nat × Variant)) (qa : TraversalPath)
    (hchain : ChainFrom g startKey ROOT_TRAVERSAL_ID es a qa)
    (hqa : qa.hasRelZLoop = false)
    (hcomp : (LayerHierarchy.traverse g startKey visitTrue).completed = true) :
    ((LayerHierarchy.hasRelZLoop g startKey).1 = true
      ∧ ∃ w, (LayerHierarchy.traverse g startKey visitTrue).visits.find?
            (fun v => v.2.hasRelZLoop) = some w
          ∧ (LayerHierarchy.hasRelZLoop g startKey).2 = w.1
          ∧ w.2.invalidRelativeRootId = w.1
          ∧ 2 ≤ w.2.relativeRootIds.count w.1
          ∧ (LayerHierarchy.hasRelZLoop g startKey).2 ≠ UNASSIGNED_LAYER_ID)
    ∧ (∀ (p : TraversalPath) (c : Nat), c ∈ p.relativeRootIds →
        c ≠ UNASSIGNED_LAYER_ID →
        (scopedPush p c Variant.Relative).invalidRelativeRootId = c
        ∧ (scopedPush p c Variant.Relative).hasRelZLoop = true) := by
  constructor
  · have hfindsome : ∃ w,
        (LayerHierarchy.traverse g startKey visitTrue).visits.find?
          (fun v => v.2.hasRelZLoop) = some w := by
      by_cases hff : flagFree (LayerHierarchy.traverse g startKey visitTrue).visits
      · -- the walk is flag free: walk the cycle to force a duplicate push
        exfalso
        have hpush1 : ∀ (q : TraversalPath) (c : Nat), c ∈ q.relativeRootIds →
            c ≠ UNASSIGNED_LAYER_ID →
            (scopedPush q c Variant.Relative).hasRelZLoop = true := by
          intro q c hmem hne
          unfold TraversalPath.hasRelZLoop
          rw [scopedPush_invalid, if_pos ⟨rfl, hmem⟩]
          simpa using hne
        have hchain1 := hchain.snoc na b Variant.Relative ha hab hqa
        by_cases hf1 : (scopedPush qa b Variant.Relative).hasRelZLoop = true
        · have hmem := traverseGen_chain_visit g hWK _ (defaultFuel g) startKey
            ROOT_TRAVERSAL_ID b _ nb hchain1 hb hbl hcomp hff
          have := hff _ hmem
          rw [hf1] at this
          cases this
        · rw [Bool.not_eq_true] at hf1
          have hchain2 := hchain1.snoc nb a Variant.Relative hb hba hf1
          by_cases hf2 : (scopedPush (scopedPush qa b Variant.Relative) a
              Variant.Relative).hasRelZLoop = true
          · have hmem := traverseGen_chain_visit g hWK _ (defaultFuel g) startKey
              ROOT_TRAVERSAL_ID a _ na hchain2 ha hal hcomp hff
            have := hff _ hmem
            rw [hf2] at this
            cases this
          · rw [Bool.not_eq_true] at hf2
            have hchain3 := hchain2.snoc na b Variant.Relative ha hab hf2
            have hbmem : b ∈ (scopedPush (scopedPush qa b Variant.Relative) a
                Variant.Relative).relativeRootIds := by
              rw [scopedPush_rel, scopedPush_rel]
              simp
            have hf3 := hpush1 _ b hbmem hbU
            have hmem := traverseGen_chain_visit g hWK _ (defaultFuel g) startKey
              ROOT_TRAVERSAL_ID b _ nb hchain3 hb hbl hcomp hff
            have := hff _ hmem
            rw [hf3] at this
            cases this
      · -- some visited path is already flagged, so the search finds one
        unfold flagFree at hff
        push_neg at hff
        obtain ⟨v, hv, hvf⟩ := hff
        cases hfind : (LayerHierarchy.traverse g startKey visitTrue).visits.find?
            (fun v => v.2.hasRelZLoop) with
        | none =>
            exfalso
            have h2 := List.find?_eq_none.1 hfind v hv
            cases hb2 : v.2.hasRelZLoop with
            | false => exact hvf hb2
            | true => exact h2 (by simpa using hb2)
        | some w => exact ⟨w, rfl⟩
    obtain ⟨w, hw⟩ := hfindsome
    have hcore := traverseGen_first_flag g selAll (fun node cv h => h) hWK
      (defaultFuel g) startKey ROOT_TRAVERSAL_ID (by decide) hcomp w hw
    have hfl := List.find?_some hw
    have hone : (LayerHierarchy.hasRelZLoop g startKey).1 = true := by
      unfold LayerHierarchy.hasRelZLoop
      simp only []
      rw [hw]
    have htwo : (LayerHierarchy.hasRelZLoop g startKey).2
        = w.2.invalidRelativeRootId := by
      unfold LayerHierarchy.hasRelZLoop
      simp only []
      rw [hw]
    have hval : w.2.invalidRelativeRootId ≠ UNASSIGNED_LAYER_ID := by
      unfold TraversalPath.hasRelZLoop at hfl
      simpa using hfl
    refine ⟨hone, w, hw, ?_, hcore.1, hcore.2, ?_⟩
    · rw [htwo, hcore.1]
    · rw [htwo]
      exact hval
  · intro p c hmem hne
    constructor
    · rw [scopedPush_invalid, if_pos ⟨rfl, hmem⟩]
    · unfold TraversalPath.hasRelZLoop
      rw [scopedPush_invalid, if_pos ⟨rfl, hmem⟩]
      simpa using hne

/-- Closed instantiation: on the two-layer relative cycle, `hasRelZLoop`
reports true and identifies layer 2 — a member of the cycle — as the
duplicate id. -/
theorem c1_has_rel_z_loop_witness :
    (LayerHierarchy.hasRelZLoop loopGraph ROOT_KEY).1 = true
    ∧ LayerHierarchy.hasRelZLoop loopGraph ROOT_KEY = (true, 2) :=
  ⟨(c1_has_rel_z_loop loopGraph ROOT_KEY 1 2
      (hWK_of_childKeysHaveLayers (show childKeysHaveLayers loopGraph = true by decide))
      { layer := some { id := 1, parentId := none, relativeParentId := some 2, mirrorId := none, z := 0 },
        mChildren := [(2, Variant.Relative)], mParent := some ROOT_KEY, mRelativeParent := some 2 }
      { layer := some { id := 2, parentId := none, relativeParentId := some 1, mirrorId := none, z := 0 },
        mChildren := [(1, Variant.Relative)], mParent := some ROOT_KEY, mRelativeParent := some 1 }
      (by decide) (by decide) (by decide) (by decide) (by decide) (by decide)
      (by decide)
      [(1, Variant.Detached)] (scopedPush ROOT_TRAVERSAL_ID 1 Variant.Detached)
      (ChainFrom.cons
        { layer := none, mChildren := [(1, Variant.Detached), (2, Variant.Detached)],
          mParent := none, mRelativeParent := none }
        (by decide) (by decide) (by decide)
        (ChainFrom.nil 1 (scopedPush ROOT_TRAVERSAL_ID 1 Variant.Detached)))
      (by decide) (by decide)).1.1,
    by decide⟩

/-- C1 counterexample to the literal claim: with two disjoint mutual relative
cycles (1, 2) and (3, 4), layers 3 and 4 are each other's relative children
and are reached by an unflagged chain, yet the walk flags the (1, 2) cycle
first, so the single out id is 2 — not a member of the hypothesised (3, 4)
cycle. -/
theorem c1_has_rel_z_loop_counterexample :
    (getHierarchyFromId twoCycleGraph 3 = some
      { layer := some { id := 3, parentId := none, relativeParentId := some 4, mirrorId := none, z := 0 },
        mChildren := [(4, Variant.Relative)], mParent := some ROOT_KEY, mRelativeParent := some 4 }
     ∧ getHierarchyFromId twoCycleGraph 4 = some
      { layer := some { id := 4, parentId := none, relativeParentId := some 3, mirrorId := none, z := 0 },
        mChildren := [(3, Variant.Relative)], mParent := some ROOT_KEY, mRelativeParent := some 3 })
    ∧ getHierarchyFromId twoCycleGraph ROOT_KEY = some
      { layer := none,
        mChildren := [(1, Variant.Detached), (2, Variant.Detached),
          (3, Variant.Detached), (4, Variant.Detached)],
        mParent := none, mRelativeParent := none }
    ∧ (LayerHierarchy.traverse twoCycleGraph ROOT_KEY visitTrue).completed = true
    ∧ LayerHierarchy.hasRelZLoop twoCycleGraph ROOT_KEY = (true, 2)
    ∧ (LayerHierarchy.hasRelZLoop twoCycleGraph ROOT_KEY).2 ≠ 3
    ∧ (LayerHierarchy.hasRelZLoop twoCycleGraph ROOT_KEY).2 ≠ 4 :=
  ⟨⟨by decide, by decide⟩, by decide, by decide, by decide, by decide, by decide⟩

/-! Builder invariant: basic graph-operation lemmas. -/

theorem find?_map_of_pred_comm {α : Type} (l : List α) (h : α → α)
    (p : α → Bool) (hp : ∀ x, p (h x) = p x) :
    (l.map h).find? p = (l.find? p).map h := by
  induction l with
  | nil => rfl
  | cons x rest ih =>
      simp only [List.map_cons, List.find?_cons, hp x]
      split
      · rfl
      · exact ih

theorem getHierarchyFromId_modifyNode (g : HierarchyGraph) (k : Nat)
    (f : LayerHierarchy → LayerHierarchy) (key : Nat) :
    getHierarchyFromId (modifyNode g k f) key =
      if key = k then (getHierarchyFromId g key).map f
      else getHierarchyFromId g key := by
  unfold getHierarchyFromId modifyNode
  simp only []
  rw [find?_map_of_pred_comm g.nodes
    (fun kn => if kn.1 == k then (kn.1, f kn.2) else kn)
    (fun kn => kn.1 == key) (fun x => by simp only []; split <;> rfl)]
  cases hf : g.nodes.find? (fun kn => kn.1 == key) with
  | none => split <;> rfl
  | some kn =>
      have hk : kn.1 = key := by simpa using List.find?_some hf
      simp only [Option.map_map, Option.map_some']
      by_cases hkey : key = k
      · rw [if_pos hkey]
        have : (kn.1 == k) = true := by simp [hk, hkey]
        simp [this]
      · rw [if_neg hkey]
        have : (kn.1 == k) = false := by simp [hk, hkey]
        simp [this]

theorem keys_modifyNode (g : HierarchyGraph) (k : Nat)
    (f : LayerHierarchy → LayerHierarchy) :
    (modifyNode g k f).nodes.map Prod.fst = g.nodes.map Prod.fst := by
  unfold modifyNode
  simp only [List.map_map]
  apply List.map_congr_left
  intro kn _
  simp only [Function.comp]
  split <;> rfl

theorem getHierarchyFromId_deleteNode (g : HierarchyGraph) (d key : Nat) :
    getHierarchyFromId { nodes := g.nodes.filter (fun kn => kn.1 != d) } key =
      if key = d then none else getHierarchyFromId g key := by
  unfold getHierarchyFromId
  simp only []
  by_cases hkd : key = d
  · subst hkd
    rw [if_pos rfl]
    cases hf : (g.nodes.filter (fun kn => kn.1 != key)).find? (fun kn => kn.1 == key) with
    | none => rfl
    | some kn =>
        exfalso
        have hm := List.mem_of_find?_eq_some hf
        have hp := List.find?_some hf
        have hq := (List.mem_filter.1 hm).2
        rw [show kn.1 = key by simpa using hp] at hq
        simp at hq
  · rw [if_neg hkd]
    induction g.nodes with
    | nil => rfl
    | cons kn rest ih =>
        by_cases hknd : kn.1 = d
        · have h1 : (kn.1 != d) = false := by simpa using hknd
          have h2 : (kn.1 == key) = false := by
            simp only [beq_eq_false_iff_ne, ne_eq]
            intro h3
            exact hkd (h3 ▸ hknd ▸ rfl)
          simp only [List.filter_cons, h1, Bool.false_eq_true, if_false,
            List.find?_cons, h2]
          exact ih
        · have h1 : (kn.1 != d) = true := by simpa using hknd
          simp only [List.filter_cons, h1, if_true, List.find?_cons]
          split
          · rfl
          · exact ih

theorem keys_deleteNode (g : HierarchyGraph) (d : Nat) :
    ({ nodes := g.nodes.filter (fun kn => kn.1 != d) } : HierarchyGraph).nodes.map
        Prod.fst = (g.nodes.map Prod.fst).filter (fun k => k != d) := by
  simp only []
  induction g.nodes with
  | nil => rfl
  | cons kn rest ih =>
      rw [List.filter_cons, List.map_cons, List.filter_cons]
      by_cases h : (kn.1 != d) = true
      · rw [if_pos h, if_pos h, List.map_cons, ih]
      · rw [if_neg h, if_neg h]
        exact ih

theorem getHierarchyFromId_appendNode (g : HierarchyGraph) (k0 : Nat)
    (n0 : LayerHierarchy) (key : Nat) :
    getHierarchyFromId { nodes := g.nodes ++ [(k0, n0)] } key =
      match getHierarchyFromId g key with
      | some n => some n
      | none => if key = k0 then some n0 else none := by
  unfold getHierarchyFromId
  simp only [List.find?_append]
  cases hf : g.nodes.find? (fun kn => kn.1 == key) with
  | some kn => simp
  | none =>
      simp only [Option.none_or, Option.map_none']
      by_cases hk : key = k0
      · subst hk
        simp [List.find?_cons]
      · have : (k0 == key) = false := by
          simp only [beq_eq_false_iff_ne, ne_eq]
          exact fun h => hk h.symm
        simp [List.find?_cons, this, hk]

theorem keys_appendNode (g : HierarchyGraph) (k0 : Nat) (n0 : LayerHierarchy) :
    ({ nodes := g.nodes ++ [(k0, n0)] } : HierarchyGraph).nodes.map Prod.fst =
      g.nodes.map Prod.fst ++ [k0] := by
  simp

theorem containsNode_iff_mem_keys (g : HierarchyGraph) (q : Nat) :
    containsNode g q = true ↔ q ∈ g.nodes.map Prod.fst := by
  unfold containsNode getHierarchyFromId
  constructor
  · intro h
    cases hf : g.nodes.find? (fun kn => kn.1 == q) with
    | none => rw [hf] at h; cases h
    | some kn =>
        have hm := List.mem_of_find?_eq_some hf
        have hp : kn.1 = q := by simpa using List.find?_some hf
        exact hp ▸ List.mem_map_of_mem Prod.fst hm
  · intro h
    obtain ⟨kn, hkn, hfst⟩ := List.mem_map.1 h
    have : ∃ x, x ∈ g.nodes ∧ (fun kn => kn.1 == q) x = true :=
      ⟨kn, hkn, by simpa using hfst⟩
    rw [← List.find?_isSome] at this
    cases hf : g.nodes.find? (fun kn => kn.1 == q) with
    | none => rw [hf] at this; cases this
    | some kn2 => simp [hf]

/-! Builder invariant: canonical child-list lemmas. -/

theorem canonicalChildrenOn_append (rs att : List RequestedLayerState)
    (r : RequestedLayerState) (key : Nat) :
    canonicalChildrenOn rs (att ++ [r]) key =
      canonicalChildrenOn rs att key ++ contribOf rs r key := by
  unfold canonicalChildrenOn
  rw [List.flatMap_append]
  simp

theorem filter_flatMap {α β : Type} (l : List α) (f : α → List β) (p : β → Bool) :
    (l.flatMap f).filter p = l.flatMap (fun a => (f a).filter p) := by
  induction l with
  | nil => rfl
  | cons x rest ih =>
      simp only [List.flatMap_cons, List.filter_append, ih]

theorem flatMap_filter_base {α β : Type} (l : List α) (q : α → Bool)
    (f : α → List β) :
    (l.filter q).flatMap f = l.flatMap (fun a => if q a then f a else []) := by
  induction l with
  | nil => rfl
  | cons x rest ih =>
      rw [List.filter_cons]
      by_cases h : q x = true
      · rw [if_pos h, List.flatMap_cons, List.flatMap_cons, if_pos h, ih]
      · rw [if_neg h, List.flatMap_cons, if_neg h, ih]
        simp

theorem perm_flatMap {α β : Type} {l1 l2 : List α} (h : l1.Perm l2)
    (f : α → List β) : (l1.flatMap f).Perm (l2.flatMap f) :=
  List.Perm.flatMap_right f h

theorem contribOf_entry_nonMirror {rs att : List RequestedLayerState}
    {key c : Nat} {v : Variant}
    (h : (c, v) ∈ canonicalChildrenOn rs att key) (hv : v ≠ Variant.Mirror) :
    ∃ r ∈ att, r.id = c ∧
      ((isStructuralVariant v = true ∧ key = resolveParentOf rs r
          ∧ v = structuralVariantOf rs r)
        ∨ (v = Variant.Relative ∧ r.relativeParentId = some key
          ∧ (aliveIds rs).contains key = true)) := by
  unfold canonicalChildrenOn at h
  rw [List.mem_flatMap] at h
  obtain ⟨r, hr, hmem⟩ := h
  refine ⟨r, hr, ?_⟩
  unfold contribOf at hmem
  rw [List.mem_append, List.mem_append] at hmem
  rcases hmem with (hmem | hmem) | hmem
  · split at hmem
    · rename_i hres
      have h2 := List.mem_singleton.1 hmem
      injection h2 with h3 h4
      refine ⟨h3.symm, Or.inl ⟨?_, hres.symm, h4⟩⟩
      rw [h4]
      unfold structuralVariantOf isStructuralVariant
      split <;> rfl
    · cases hmem
  · split at hmem
    · rename_i q hq
      split at hmem
      · rename_i hcond
        have h2 := List.mem_singleton.1 hmem
        injection h2 with h3 h4
        refine ⟨h3.symm, Or.inr ⟨h4, ?_, ?_⟩⟩
        · rw [hq, hcond.1]
        · rw [← hcond.1]
          exact hcond.2
      · cases hmem
    · cases hmem
  · split at hmem
    · split at hmem
      · have h2 := List.mem_singleton.1 hmem
        injection h2 with h3 h4
        exact absurd h4 hv
      · cases hmem
    · cases hmem

theorem contains_true_iff (l : List Nat) (x : Nat) :
    l.contains x = true ↔ x ∈ l :=
  List.elem_iff

theorem resolveParentOf_eq_of_resolved (rs N : List RequestedLayerState)
    (u : RequestedLayerState) (hu1 : u ∈ rs) (hu2 : u ∈ N)
    (h1 : resolvedRecords rs) (h2 : resolvedRecords N) :
    resolveParentOf rs u = resolveParentOf N u := by
  unfold resolveParentOf
  cases hp : u.parentId with
  | none => rfl
  | some p =>
      have e1 : (aliveIds rs).contains p = true :=
        (contains_true_iff _ _).2 ((h1 u hu1).1 p (by rw [hp]; rfl))
      have e2 : (aliveIds N).contains p = true :=
        (contains_true_iff _ _).2 ((h2 u hu2).1 p (by rw [hp]; rfl))
      simp only [e1, e2]

theorem relResolvesOf_eq_of_resolved (rs N : List RequestedLayerState)
    (u : RequestedLayerState) (hu1 : u ∈ rs) (hu2 : u ∈ N)
    (h1 : resolvedRecords rs) (h2 : resolvedRecords N) :
    relResolvesOf rs u = relResolvesOf N u := by
  unfold relResolvesOf
  cases hq : u.relativeParentId with
  | none => rfl
  | some q =>
      have e1 : (aliveIds rs).contains q = true :=
        (contains_true_iff _ _).2 ((h1 u hu1).2.1 q (by rw [hq]; rfl))
      have e2 : (aliveIds N).contains q = true :=
        (contains_true_iff _ _).2 ((h2 u hu2).2.1 q (by rw [hq]; rfl))
      simp only [e1, e2]

theorem resolveRelativeOf_eq_of_resolved (rs N : List RequestedLayerState)
    (u : RequestedLayerState) (hu1 : u ∈ rs) (hu2 : u ∈ N)
    (h1 : resolvedRecords rs) (h2 : resolvedRecords N) :
    resolveRelativeOf rs u = resolveRelativeOf N u := by
  unfold resolveRelativeOf
  cases hq : u.relativeParentId with
  | none => rfl
  | some q =>
      have e1 : (aliveIds rs).contains q = true :=
        (contains_true_iff _ _).2 ((h1 u hu1).2.1 q (by rw [hq]; rfl))
      have e2 : (aliveIds N).contains q = true :=
        (contains_true_iff _ _).2 ((h2 u hu2).2.1 q (by rw [hq]; rfl))
      simp only [e1, e2]

theorem contribOf_eq_of_resolved (rs N : List RequestedLayerState)
    (u : RequestedLayerState) (hu1 : u ∈ rs) (hu2 : u ∈ N)
    (h1 : resolvedRecords rs) (h2 : resolvedRecords N) (key : Nat) :
    contribOf rs u key = contribOf N u key := by
  unfold contribOf
  rw [resolveParentOf_eq_of_resolved rs N u hu1 hu2 h1 h2]
  unfold structuralVariantOf
  rw [relResolvesOf_eq_of_resolved rs N u hu1 hu2 h1 h2]
  congr 1
  congr 1
  · cases hq : u.relativeParentId with
    | none => rfl
    | some q =>
        have e1 : (aliveIds rs).contains q = true :=
          (contains_true_iff _ _).2 ((h1 u hu1).2.1 q (by rw [hq]; rfl))
        have e2 : (aliveIds N).contains q = true :=
          (contains_true_iff _ _).2 ((h2 u hu2).2.1 q (by rw [hq]; rfl))
        simp only [e1, e2]
  · cases hs : u.mirrorId with
    | none => rfl
    | some s =>
        have e1 : (aliveIds rs).contains s = true :=
          (contains_true_iff _ _).2 ((h1 u hu1).2.2 s (by rw [hs]; rfl))
        have e2 : (aliveIds N).contains s = true :=
          (contains_true_iff _ _).2 ((h2 u hu2).2.2 s (by rw [hs]; rfl))
        simp only [e1, e2]

/-! Builder invariant: record-list utilities. -/

theorem mem_aliveIds {rs : List RequestedLayerState} {i : Nat} :
    i ∈ aliveIds rs ↔ ∃ r ∈ rs, r.id = i := by
  unfold aliveIds
  exact List.mem_map

theorem id_inj_of_nodup {rs : List RequestedLayerState}
    (hnd : (aliveIds rs).Nodup) {u v : RequestedLayerState}
    (hu : u ∈ rs) (hv : v ∈ rs) (h : u.id = v.id) : u = v :=
  List.inj_on_of_nodup_map hnd hu hv h

theorem nodup_records_of_nodup_ids {rs : List RequestedLayerState}
    (hnd : (aliveIds rs).Nodup) : rs.Nodup :=
  List.Nodup.of_map RequestedLayerState.id hnd

theorem aliveIds_append (a b : List RequestedLayerState) :
    aliveIds (a ++ b) = aliveIds a ++ aliveIds b := by
  unfold aliveIds
  exact List.map_append _ a b

theorem aliveIds_filter_by_id (rs : List RequestedLayerState) (p : Nat → Bool) :
    aliveIds (rs.filter (fun r => p r.id)) = (aliveIds rs).filter p := by
  unfold aliveIds
  induction rs with
  | nil => rfl
  | cons r rest ih =>
      rw [List.filter_cons, List.map_cons, List.filter_cons]
      by_cases h : p r.id = true
      · rw [if_pos h, if_pos h, List.map_cons, ih]
      · rw [if_neg h, if_neg h, ih]

theorem contains_append_single (l : List Nat) (x y : Nat) :
    (l ++ [x]).contains y = (l.contains y || y == x) := by
  induction l with
  | nil =>
      show (y == x || false) = (false || (y == x))
      cases y == x <;> rfl
  | cons a rest ih =>
      simp only [List.cons_append, List.contains_cons, ih]
      rw [Bool.or_assoc]

theorem lookup_removeChildVariant (g : HierarchyGraph) (pk x : Nat)
    (pred : Variant → Bool) (k : Nat) :
    getHierarchyFromId (removeChildVariant g pk x pred) k =
      if k = pk then
        (getHierarchyFromId g k).map (fun n =>
          { n with
              mChildren := n.mChildren.filter (fun cv => !(cv.1 == x && pred cv.2)) })
      else getHierarchyFromId g k :=
  getHierarchyFromId_modifyNode g pk _ k

theorem lookup_addChild (g : HierarchyGraph) (pk c : Nat) (v : Variant)
    (k : Nat) :
    getHierarchyFromId (addChild g pk c v) k =
      if k = pk then
        (getHierarchyFromId g k).map (fun n =>
          { n with mChildren := n.mChildren ++ [(c, v)] })
      else getHierarchyFromId g k :=
  getHierarchyFromId_modifyNode g pk _ k

theorem lookup_detachMirrorChild (g : HierarchyGraph) (x k : Nat) :
    getHierarchyFromId (detachMirrorChild g x) k =
      if k = x then
        (getHierarchyFromId g k).map (fun n =>
          { n with mChildren := n.mChildren.filter keepNonMirror })
      else getHierarchyFromId g k :=
  getHierarchyFromId_modifyNode g x _ k

/-! Builder invariant: structure of one record-collection delta. -/

theorem find?_layer_eq_none {layers : List RequestedLayerState} {i : Nat}
    (h : i ∉ aliveIds layers) :
    layers.find? (fun l => l.id == i) = none := by
  rw [List.find?_eq_none]
  intro l hl hba
  exact h (mem_aliveIds.2 ⟨l, hl, by simpa using hba⟩)

theorem find?_layer_eq_some {layers : List RequestedLayerState}
    (hnd : (aliveIds layers).Nodup) {l : RequestedLayerState} (hl : l ∈ layers) :
    layers.find? (fun m => m.id == l.id) = some l := by
  cases hf : layers.find? (fun m => m.id == l.id) with
  | none =>
      rw [List.find?_eq_none] at hf
      exact absurd (by simp) (hf l hl)
  | some m =>
      have hm := List.mem_of_find?_eq_some hf
      have hp : m.id = l.id := by simpa using List.find?_some hf
      rw [id_inj_of_nodup hnd hm hl hp]

theorem replace_id (layers : List RequestedLayerState)
    (u : RequestedLayerState) :
    (match layers.find? (fun (l : RequestedLayerState) => l.id == u.id) with
      | some l => l
      | none => u).id = u.id := by
  cases hf : layers.find? (fun (l : RequestedLayerState) => l.id == u.id) with
  | none => rfl
  | some l => simpa using List.find?_some hf

theorem aliveIds_applyDelta (rs layers : List RequestedLayerState)
    (D : List Nat) :
    aliveIds (applyDelta rs layers D) =
      (aliveIds rs).filter (fun i => !(D.contains i))
        ++ aliveIds (layers.filter (fun l => !((aliveIds rs).contains l.id))) := by
  unfold applyDelta
  rw [aliveIds_append]
  congr 1
  rw [← aliveIds_filter_by_id rs (fun i => !(D.contains i))]
  unfold aliveIds
  rw [List.map_map]
  apply List.map_congr_left
  intro u _
  exact replace_id layers u

theorem mem_applyDelta_old {rs layers : List RequestedLayerState}
    {D : List Nat} {u : RequestedLayerState} (hu : u ∈ rs) (hd : u.id ∉ D)
    (hl : u.id ∉ aliveIds layers) : u ∈ applyDelta rs layers D := by
  unfold applyDelta
  rw [List.mem_append]
  left
  rw [List.mem_map]
  refine ⟨u, List.mem_filter.2 ⟨hu, by rw [(contains_false_iff D u.id).2 hd]; rfl⟩, ?_⟩
  rw [find?_layer_eq_none hl]

theorem mem_applyDelta_layer {rs layers : List RequestedLayerState}
    {D : List Nat} {l : RequestedLayerState} (hl : l ∈ layers)
    (hndl : (aliveIds layers).Nodup) (_hnds : (aliveIds rs).Nodup)
    (hd : l.id ∉ D) : l ∈ applyDelta rs layers D := by
  unfold applyDelta
  rw [List.mem_append]
  by_cases hin : l.id ∈ aliveIds rs
  · left
    obtain ⟨u, hu, huid⟩ := mem_aliveIds.1 hin
    rw [List.mem_map]
    refine ⟨u, List.mem_filter.2 ⟨hu, by rw [(contains_false_iff D u.id).2 (huid ▸ hd)]; rfl⟩, ?_⟩
    rw [show (fun (m : RequestedLayerState) => m.id == u.id)
        = (fun (m : RequestedLayerState) => m.id == l.id) by rw [huid],
      find?_layer_eq_some hndl hl]
  · right
    exact List.mem_filter.2 ⟨hl, by rw [(contains_false_iff _ _).2 hin]; rfl⟩

theorem mem_applyDelta_cases {rs layers : List RequestedLayerState}
    {D : List Nat} {r : RequestedLayerState}
    (h : r ∈ applyDelta rs layers D) :
    (r ∈ rs ∧ r.id ∉ D ∧ r.id ∉ aliveIds layers) ∨ r ∈ layers := by
  unfold applyDelta at h
  rw [List.mem_append] at h
  rcases h with h | h
  · rw [List.mem_map] at h
    obtain ⟨u, hu, hr⟩ := h
    have hu1 := (List.mem_filter.1 hu).1
    have hu2 := (List.mem_filter.1 hu).2
    cases hf : layers.find? (fun l => l.id == u.id) with
    | some l =>
        right
        rw [hf] at hr
        rw [← hr]
        exact List.mem_of_find?_eq_some hf
    | none =>
        left
        rw [hf] at hr
        rw [List.find?_eq_none] at hf
        refine ⟨hr ▸ hu1, ?_, ?_⟩
        · rw [← hr]
          intro hmem
          rw [(contains_true_iff D u.id).2 hmem] at hu2
          cases hu2
        · rw [← hr]
          intro hmem
          obtain ⟨m, hm, hmid⟩ := mem_aliveIds.1 hmem
          exact hf m hm (by simpa using hmid)
  · right
    exact (List.mem_filter.1 h).1

theorem applyDelta_nil_left (rs : List RequestedLayerState) :
    applyDelta [] rs [] = rs := by
  unfold applyDelta
  rw [List.filter_nil, List.map_nil, List.nil_append]
  induction rs with
  | nil => rfl
  | cons r rest ih =>
      rw [List.filter_cons]
      simp only [show ((aliveIds ([] : List RequestedLayerState)).contains r.id) = false from rfl,
        Bool.not_false, if_pos]
      rw [ih]

/-! Builder invariant: pruning-predicate lemmas. -/

theorem prunedChildren_eq (rs att : List RequestedLayerState)
    (dead cleaned : List Nat) (key : Nat) :
    prunedChildren rs att dead cleaned key =
      (canonicalChildrenOn rs att key).filter (prunedPredB dead cleaned key) :=
  rfl

theorem prunedChildren_nil_nil (rs att : List RequestedLayerState) (key : Nat) :
    prunedChildren rs att [] [] key = canonicalChildrenOn rs att key := by
  rw [prunedChildren_eq]
  apply List.filter_eq_self.2
  intro cv _
  unfold prunedPredB
  split <;> rfl

theorem canonical_at_fresh {rs att : List RequestedLayerState} {k : Nat}
    (hatt : ∀ r ∈ att, r ∈ rs) (hk : k ∉ aliveIds rs)
    (hroot : k ≠ ROOT_KEY) (hoff : k ≠ OFFSCREEN_KEY) :
    canonicalChildrenOn rs att k = [] := by
  unfold canonicalChildrenOn
  rw [List.flatMap_eq_nil_iff]
  intro r hr
  unfold contribOf
  rw [if_neg, List.nil_append]
  · have h2 : (match r.relativeParentId with
        | some q =>
            if q = k ∧ (aliveIds rs).contains q then [(r.id, Variant.Relative)]
            else []
        | none => []) = ([] : List (Nat × Variant)) := by
      cases hq : r.relativeParentId with
      | none => rfl
      | some q =>
          exact if_neg (by
            rintro ⟨hq1, hq2⟩
            exact hk (hq1 ▸ (contains_true_iff _ _).1 hq2))
    have h3 : (match r.mirrorId with
        | some s =>
            if r.id = k ∧ (aliveIds rs).contains s then [(s, Variant.Mirror)]
            else []
        | none => []) = ([] : List (Nat × Variant)) := by
      cases hs : r.mirrorId with
      | none => rfl
      | some s =>
          exact if_neg (by
            rintro ⟨hs1, _⟩
            exact hk (hs1 ▸ mem_aliveIds.2 ⟨r, hatt r hr, rfl⟩))
    rw [h2, h3]
    rfl
  · intro hres
    unfold resolveParentOf at hres
    cases hp : r.parentId with
    | none => rw [hp] at hres; exact hroot hres.symm
    | some p =>
        rw [hp] at hres
        have h' : (if (aliveIds rs).contains p = true then p else OFFSCREEN_KEY)
            = k := hres
        by_cases hc : ((aliveIds rs).contains p) = true
        · rw [if_pos hc] at h'
          exact hk (h' ▸ (contains_true_iff _ _).1 hc)
        · rw [if_neg hc] at h'
          exact hoff h'.symm

theorem prunedPredB_dead_absorb (D cleaned : List Nat) (x key : Nat)
    (cv : Nat × Variant) :
    prunedPredB (D ++ [x]) (cleaned ++ [x]) key cv =
      prunedPredB D (cleaned ++ [x]) key cv := by
  unfold prunedPredB
  split
  · rfl
  · rw [contains_append_single D, contains_append_single cleaned]
    cases hD : D.contains cv.1 <;> cases hcl : cleaned.contains cv.1 <;>
      cases hx : cv.1 == x <;> rfl

theorem isStructural_att : isStructuralVariant Variant.Attached = true := rfl

theorem isStructural_det : isStructuralVariant Variant.Detached = true := rfl

theorem isStructural_rel : isStructuralVariant Variant.Relative = false := rfl

theorem isStructural_mir : isStructuralVariant Variant.Mirror = false := rfl

theorem resolveRelativeOf_eq_some {rs : List RequestedLayerState}
    {u : RequestedLayerState} {key : Nat} (hrp : u.relativeParentId = some key)
    (hcont : (aliveIds rs).contains key = true) :
    resolveRelativeOf rs u = some key := by
  unfold resolveRelativeOf
  rw [hrp]
  exact if_pos hcont

theorem vbeq_ma : (Variant.Mirror == Variant.Attached) = false := rfl

theorem vbeq_md : (Variant.Mirror == Variant.Detached) = false := rfl

theorem vbeq_mr : (Variant.Mirror == Variant.Relative) = false := rfl

theorem vbeq_mm : (Variant.Mirror == Variant.Mirror) = true := rfl

theorem vbeq_ar : (Variant.Attached == Variant.Relative) = false := rfl

theorem vbeq_am : (Variant.Attached == Variant.Mirror) = false := rfl

theorem vbeq_dr : (Variant.Detached == Variant.Relative) = false := rfl

theorem vbeq_dm : (Variant.Detached == Variant.Mirror) = false := rfl

theorem vbeq_rr : (Variant.Relative == Variant.Relative) = true := rfl

theorem vbeq_rm : (Variant.Relative == Variant.Mirror) = false := rfl

theorem vbne_am : (Variant.Attached != Variant.Mirror) = true := rfl

theorem vbne_dm : (Variant.Detached != Variant.Mirror) = true := rfl

theorem vbne_rm : (Variant.Relative != Variant.Mirror) = true := rfl

theorem vbne_mm : (Variant.Mirror != Variant.Mirror) = false := rfl

theorem prunedPredB_snoc {rs att : List RequestedLayerState}
    (hatt : ∀ r ∈ att, r ∈ rs) (hnd : (aliveIds rs).Nodup)
    {u : RequestedLayerState} (hu : u ∈ rs)
    (D cleaned : List Nat) (key : Nat) (cv : Nat × Variant)
    (hcv : cv ∈ canonicalChildrenOn rs att key) :
    prunedPredB D (cleaned ++ [u.id]) key cv =
      (((prunedPredB D cleaned key cv
        && (if key = resolveParentOf rs u then stripStructOf u.id cv else true))
        && (if resolveRelativeOf rs u = some key then stripRelOf u.id cv else true))
        && (if key = u.id then keepNonMirror cv else true)) := by
  obtain ⟨c, v⟩ := cv
  have hchar : v ≠ Variant.Mirror → c = u.id →
      (v ≠ Variant.Relative → key = resolveParentOf rs u ∧ isStructuralVariant v = true)
      ∧ (v = Variant.Relative → resolveRelativeOf rs u = some key) := by
    intro hv hc
    obtain ⟨r, hr, hrid, hcase⟩ := contribOf_entry_nonMirror hcv hv
    have hru : r = u := id_inj_of_nodup hnd (hatt r hr) hu (by rw [hrid, hc])
    subst hru
    rcases hcase with ⟨hsv, hkey, _⟩ | ⟨hvrel, hrp, hcont⟩
    · refine ⟨fun _ => ⟨hkey, hsv⟩, fun hrel => ?_⟩
      rw [hrel] at hsv
      rw [isStructural_rel] at hsv
      cases hsv
    · refine ⟨fun hnrel => absurd hvrel hnrel, fun _ => ?_⟩
      exact resolveRelativeOf_eq_some hrp hcont
  cases v with
  | Mirror =>
      by_cases hk : key = u.id
      · subst hk
        simp [prunedPredB, stripStructOf, stripRelOf, keepNonMirror,
          isStructural_mir, contains_append_single, vbeq_ma, vbeq_md, vbeq_mr, vbeq_mm, vbeq_ar, vbeq_am, vbeq_dr, vbeq_dm, vbeq_rr, vbeq_rm, vbne_am, vbne_dm, vbne_rm, vbne_mm]
      · have hb : (key == u.id) = false := by simpa using hk
        simp [prunedPredB, stripStructOf, stripRelOf, keepNonMirror,
          isStructural_mir, contains_append_single, hk, hb, vbeq_ma, vbeq_md, vbeq_mr, vbeq_mm, vbeq_ar, vbeq_am, vbeq_dr, vbeq_dm, vbeq_rr, vbeq_rm, vbne_am, vbne_dm, vbne_rm, vbne_mm]
  | Attached =>
      by_cases hc : c = u.id
      · obtain ⟨hkey, _⟩ := (hchar (by simp) hc).1 (by simp)
        subst hc
        simp [prunedPredB, stripStructOf, stripRelOf, keepNonMirror,
          isStructural_att, contains_append_single, if_pos hkey, vbeq_ma, vbeq_md, vbeq_mr, vbeq_mm, vbeq_ar, vbeq_am, vbeq_dr, vbeq_dm, vbeq_rr, vbeq_rm, vbne_am, vbne_dm, vbne_rm, vbne_mm]
      · have hb : (c == u.id) = false := by simpa using hc
        simp [prunedPredB, stripStructOf, stripRelOf, keepNonMirror,
          isStructural_att, contains_append_single, hb, vbeq_ma, vbeq_md, vbeq_mr, vbeq_mm, vbeq_ar, vbeq_am, vbeq_dr, vbeq_dm, vbeq_rr, vbeq_rm, vbne_am, vbne_dm, vbne_rm, vbne_mm, hc]
  | Detached =>
      by_cases hc : c = u.id
      · obtain ⟨hkey, _⟩ := (hchar (by simp) hc).1 (by simp)
        subst hc
        simp [prunedPredB, stripStructOf, stripRelOf, keepNonMirror,
          isStructural_det, contains_append_single, if_pos hkey, vbeq_ma, vbeq_md, vbeq_mr, vbeq_mm, vbeq_ar, vbeq_am, vbeq_dr, vbeq_dm, vbeq_rr, vbeq_rm, vbne_am, vbne_dm, vbne_rm, vbne_mm]
      · have hb : (c == u.id) = false := by simpa using hc
        simp [prunedPredB, stripStructOf, stripRelOf, keepNonMirror,
          isStructural_det, contains_append_single, hb, vbeq_ma, vbeq_md, vbeq_mr, vbeq_mm, vbeq_ar, vbeq_am, vbeq_dr, vbeq_dm, vbeq_rr, vbeq_rm, vbne_am, vbne_dm, vbne_rm, vbne_mm, hc]
  | Relative =>
      by_cases hc : c = u.id
      · have hrel := (hchar (by simp) hc).2 rfl
        subst hc
        simp [prunedPredB, stripStructOf, stripRelOf, keepNonMirror,
          isStructural_rel, contains_append_single, if_pos hrel, vbeq_ma, vbeq_md, vbeq_mr, vbeq_mm, vbeq_ar, vbeq_am, vbeq_dr, vbeq_dm, vbeq_rr, vbeq_rm, vbne_am, vbne_dm, vbne_rm, vbne_mm]
      · have hb : (c == u.id) = false := by simpa using hc
        simp [prunedPredB, stripStructOf, stripRelOf, keepNonMirror,
          isStructural_rel, contains_append_single, hb, vbeq_ma, vbeq_md, vbeq_mr, vbeq_mm, vbeq_ar, vbeq_am, vbeq_dr, vbeq_dm, vbeq_rr, vbeq_rm, vbne_am, vbne_dm, vbne_rm, vbne_mm, hc]

/-! Builder invariant: effect of destroying one node. -/

theorem onLayerDestroyed_desc (g : HierarchyGraph) (x pk : Nat)
    (ro : Option Nat) (n : LayerHierarchy)
    (hn : getHierarchyFromId g x = some n) (hp : n.mParent = some pk)
    (hr : n.mRelativeParent = ro) :
    getHierarchyFromId (onLayerDestroyed g x) x = none
    ∧ ∀ k, k ≠ x →
        getHierarchyFromId (onLayerDestroyed g x) k =
          (getHierarchyFromId g k).map (fun m =>
            { m with mChildren :=
                if ro = some k then
                  (if k = pk then m.mChildren.filter (stripStructOf x)
                   else m.mChildren).filter (stripRelOf x)
                else
                  (if k = pk then m.mChildren.filter (stripStructOf x)
                   else m.mChildren) }) := by
  have e1 : detachFromParent g x =
      modifyNode (removeChildVariant g pk x isStructuralVariant) x
        (fun m => { m with mParent := none }) := by
    simp only [detachFromParent, hn, hp]
  have hg1 : ∀ k, k ≠ x →
      getHierarchyFromId (detachFromParent g x) k =
        if k = pk then
          (getHierarchyFromId g k).map (fun m =>
            { m with mChildren := m.mChildren.filter (stripStructOf x) })
        else getHierarchyFromId g k := by
    intro k hk
    rw [e1, getHierarchyFromId_modifyNode, if_neg hk, lookup_removeChildVariant]
    rfl
  obtain ⟨n1, hg1x, hn1rel⟩ : ∃ n1,
      getHierarchyFromId (detachFromParent g x) x = some n1
        ∧ n1.mRelativeParent = ro := by
    rw [e1, getHierarchyFromId_modifyNode, if_pos rfl, lookup_removeChildVariant]
    by_cases hxpk : x = pk
    · rw [if_pos hxpk, hn]
      exact ⟨_, rfl, hr⟩
    · rw [if_neg hxpk, hn]
      exact ⟨_, rfl, hr⟩
  cases hro : ro with
  | none =>
      rw [hro] at hn1rel
      have e2 : detachFromRelativeParent (detachFromParent g x) x =
          detachFromParent g x := by
        simp only [detachFromRelativeParent, hg1x, hn1rel]
      constructor
      · unfold onLayerDestroyed
        simp only [e2]
        rw [getHierarchyFromId_deleteNode, if_pos rfl]
      · intro k hk
        unfold onLayerDestroyed
        simp only [e2]
        rw [getHierarchyFromId_deleteNode, if_neg hk, hg1 k hk]
        have hne : ((none : Option Nat) = some k) → False := fun h =>
          Option.noConfusion h
        by_cases hkpk : k = pk
        · simp only [if_pos hkpk, if_neg hne]
        · simp only [if_neg hkpk, if_neg hne]
          cases getHierarchyFromId g k <;> rfl
  | some qk =>
      rw [hro] at hn1rel
      have e2 : detachFromRelativeParent (detachFromParent g x) x =
          modifyNode (removeChildVariant (detachFromParent g x) qk x
              (fun v => v == Variant.Relative)) x
            (fun m => { m with mRelativeParent := none }) := by
        simp only [detachFromRelativeParent, hg1x, hn1rel]
      constructor
      · unfold onLayerDestroyed
        simp only [e2]
        rw [getHierarchyFromId_deleteNode, if_pos rfl]
      · intro k hk
        unfold onLayerDestroyed
        simp only [e2]
        rw [getHierarchyFromId_deleteNode, if_neg hk, getHierarchyFromId_modifyNode,
          if_neg hk, lookup_removeChildVariant]
        rw [hg1 k hk]
        by_cases hkqk : k = qk
        · have hqe : (some qk = some k) := by rw [hkqk]
          by_cases hkpk : k = pk
          · simp only [if_pos hkqk, if_pos hkpk, if_pos hqe]
            cases getHierarchyFromId g k <;> rfl
          · simp only [if_pos hkqk, if_neg hkpk, if_pos hqe]
            cases getHierarchyFromId g k <;> rfl
        · have hqe : (some qk = some k) → False := fun h =>
            hkqk (Option.some.inj h).symm
          by_cases hkpk : k = pk
          · simp only [if_neg hkqk, if_pos hkpk, if_neg hqe]
          · simp only [if_neg hkqk, if_neg hkpk, if_neg hqe]
            cases getHierarchyFromId g k <;> rfl

theorem keys_detachFromParent (g : HierarchyGraph) (x : Nat) :
    (detachFromParent g x).nodes.map Prod.fst = g.nodes.map Prod.fst := by
  unfold detachFromParent
  split
  · rfl
  · split
    · rfl
    · rw [keys_modifyNode]
      exact keys_modifyNode _ _ _

theorem keys_detachFromRelativeParent (g : HierarchyGraph) (x : Nat) :
    (detachFromRelativeParent g x).nodes.map Prod.fst = g.nodes.map Prod.fst := by
  unfold detachFromRelativeParent
  split
  · rfl
  · split
    · rfl
    · rw [keys_modifyNode]
      exact keys_modifyNode _ _ _

theorem onLayerDestroyed_keys (g : HierarchyGraph) (x : Nat) :
    (onLayerDestroyed g x).nodes.map Prod.fst =
      (g.nodes.map Prod.fst).filter (fun k => k != x) := by
  simp only [onLayerDestroyed]
  rw [keys_deleteNode, keys_detachFromRelativeParent, keys_detachFromParent]

theorem midInv_destroy {rs att : List RequestedLayerState} {d : List Nat}
    {g : HierarchyGraph} {x : Nat}
    (hatt : ∀ r ∈ att, r ∈ rs) (hnd : (aliveIds rs).Nodup)
    (hwf : ∀ r ∈ rs, wfRecord r)
    (hx : x ∈ aliveIds rs) (hxd : x ∉ d)
    (hI : MidInv rs att d [] [] g) :
    MidInv rs att (d ++ [x]) [] [] (onLayerDestroyed g x) := by
  obtain ⟨u, hu, huid⟩ := mem_aliveIds.1 hx
  subst huid
  obtain ⟨n, hn, hlay, hpar, hrel⟩ := hI.recOld u hu hxd (by simp [aliveIds])
  obtain ⟨hdel, hoth⟩ := onLayerDestroyed_desc g u.id (resolveParentOf rs u)
    (resolveRelativeOf rs u) n hn hpar hrel
  have hvalid : u.id < UNASSIGNED_LAYER_ID := (hwf u hu).1
  have hroot_ne : ROOT_KEY ≠ u.id := Ne.symm (Nat.ne_of_lt hvalid)
  have hoff_ne : OFFSCREEN_KEY ≠ u.id :=
    Ne.symm (Nat.ne_of_lt (Nat.lt_trans hvalid (by decide)))
  have hnil : aliveIds ([] : List RequestedLayerState) = [] := rfl
  refine ⟨?_, ?_, ?_, ?_, ?_, ?_, ?_⟩
  · rw [onLayerDestroyed_keys]
    have hperm := hI.keys.filter (fun k => k != u.id)
    refine hperm.trans ?_
    rw [hnil, List.append_nil, List.append_nil]
    rw [List.filter_cons, List.filter_cons]
    rw [if_pos (show (ROOT_KEY != u.id) = true by simpa using hroot_ne)]
    rw [if_pos (show (OFFSCREEN_KEY != u.id) = true by simpa using hoff_ne)]
    rw [List.filter_filter]
    have heq : (aliveIds rs).filter (fun a => (a != u.id) && !(d.contains a)) =
        (aliveIds rs).filter (fun i => !((d ++ [u.id]).contains i)) := by
      apply List.filter_congr
      intro a _
      rw [contains_append_single]
      cases hda : d.contains a <;> cases hau : a == u.id <;>
        simp [hda, hau, bne]
    rw [heq]
  · obtain ⟨nr, hnr, p1, p2, p3⟩ := hI.rootN
    rw [hoth ROOT_KEY hroot_ne, hnr, Option.map_some']
    exact ⟨_, rfl, p1, p2, p3⟩
  · obtain ⟨nr, hnr, p1, p2, p3⟩ := hI.offN
    rw [hoth OFFSCREEN_KEY hoff_ne, hnr, Option.map_some']
    exact ⟨_, rfl, p1, p2, p3⟩
  · intro v hv hvd hvc
    have hvdold : v.id ∉ d := fun h => hvd (List.mem_append_left _ h)
    have hvne : v.id ≠ u.id := fun h =>
      hvd (List.mem_append_right _ (by rw [h]; exact List.mem_singleton_self _))
    obtain ⟨m, hm, q1, q2, q3⟩ := hI.recOld v hv hvdold hvc
    rw [hoth v.id hvne, hm, Option.map_some']
    exact ⟨_, rfl, q1, q2, q3⟩
  · intro r hr
    exact absurd hr (List.not_mem_nil r)
  · intro r hr
    exact absurd hr (List.not_mem_nil r)
  · intro key m' hm'
    by_cases hkey : key = u.id
    · rw [hkey, hdel] at hm'
      cases hm'
    · rw [hoth key hkey] at hm'
      cases hg : getHierarchyFromId g key with
      | none => rw [hg] at hm'; cases hm'
      | some m =>
          rw [hg, Option.map_some'] at hm'
          have hm'' : m' = _ := (Option.some.inj hm').symm
          subst hm''
          simp only []
          have hch := hI.childrenN key m hg
          rw [prunedChildren_eq] at hch
          rw [hnil, List.append_nil] at hch
          rw [prunedChildren_eq, hnil, List.append_nil]
          have hpt : ∀ cv ∈ canonicalChildrenOn rs att key,
              prunedPredB (d ++ [u.id]) (d ++ [u.id]) key cv =
                ((prunedPredB d d key cv
                  && (if key = resolveParentOf rs u then stripStructOf u.id cv
                      else true))
                  && (if resolveRelativeOf rs u = some key then stripRelOf u.id cv
                      else true)) := by
            intro cv hcv
            rw [prunedPredB_dead_absorb,
              prunedPredB_snoc hatt hnd hu d d key cv hcv,
              if_neg hkey, Bool.and_true]
          rw [hch]
          by_cases hpkk : key = resolveParentOf rs u
          · by_cases hrok : resolveRelativeOf rs u = some key
            · simp only [if_pos hpkk, if_pos hrok]
              rw [List.filter_filter, List.filter_filter]
              apply List.filter_congr
              intro cv hcv
              rw [hpt cv hcv, if_pos hpkk, if_pos hrok]
              cases prunedPredB d d key cv <;> cases stripStructOf u.id cv <;>
                cases stripRelOf u.id cv <;> rfl
            · simp only [if_pos hpkk, if_neg hrok]
              rw [List.filter_filter]
              apply List.filter_congr
              intro cv hcv
              rw [hpt cv hcv, if_pos hpkk, if_neg hrok]
              cases prunedPredB d d key cv <;> cases stripStructOf u.id cv <;> rfl
          · by_cases hrok : resolveRelativeOf rs u = some key
            · simp only [if_neg hpkk, if_pos hrok]
              rw [List.filter_filter]
              apply List.filter_congr
              intro cv hcv
              rw [hpt cv hcv, if_neg hpkk, if_pos hrok]
              cases prunedPredB d d key cv <;> cases stripRelOf u.id cv <;> rfl
            · simp only [if_neg hpkk, if_neg hrok]
              apply List.filter_congr
              intro cv hcv
              rw [hpt cv hcv, if_neg hpkk, if_neg hrok]
              cases prunedPredB d d key cv <;> rfl

theorem midInv_of_BInv {rs att : List RequestedLayerState} {g : HierarchyGraph}
    (hB : BInv rs att g) : MidInv rs att [] [] [] g := by
  refine ⟨?_, hB.rootN, hB.offN, ?_, ?_, ?_, ?_⟩
  · refine hB.keys.trans ?_
    have heq : (aliveIds rs).filter (fun i => !(([] : List Nat).contains i))
        ++ aliveIds ([] : List RequestedLayerState) = aliveIds rs := by
      rw [show aliveIds ([] : List RequestedLayerState) = [] from rfl,
        List.append_nil]
      apply List.filter_eq_self.2
      intro a _
      rfl
    rw [heq]
  · intro u hu _ _
    exact hB.recN u hu
  · intro r hr
    exact absurd hr (List.not_mem_nil r)
  · intro r hr
    exact absurd hr (List.not_mem_nil r)
  · intro key m hm
    rw [hB.childrenN key m hm]
    rw [show ([] : List Nat) ++ aliveIds ([] : List RequestedLayerState)
        = ([] : List Nat) from rfl]
    exact (prunedChildren_nil_nil rs att key).symm

theorem midInv_destroyFold {rs att : List RequestedLayerState}
    (hatt : ∀ r ∈ att, r ∈ rs) (hnd : (aliveIds rs).Nodup)
    (hwf : ∀ r ∈ rs, wfRecord r) (ds : List Nat) :
    ∀ (d : List Nat) (g : HierarchyGraph),
      (∀ x ∈ ds, x ∈ aliveIds rs) → (∀ x ∈ ds, x ∉ d) → ds.Nodup →
      MidInv rs att d [] [] g →
      MidInv rs att (d ++ ds) [] [] (ds.foldl onLayerDestroyed g) := by
  induction ds with
  | nil =>
      intro d g _ _ _ hI
      rw [List.append_nil]
      exact hI
  | cons x ds ih =>
      intro d g hmem hdis hnd2 hI
      rw [List.foldl_cons]
      have h1 := midInv_destroy hatt hnd hwf (hmem x (List.mem_cons_self x ds))
        (hdis x (List.mem_cons_self x ds)) hI
      have h2 := ih (d ++ [x]) (onLayerDestroyed g x)
        (fun y hy => hmem y (List.mem_cons_of_mem x hy))
        (fun y hy hc => by
          rcases List.mem_append.1 hc with h | h
          · exact hdis y (List.mem_cons_of_mem x hy) h
          · have hyx : y = x := List.mem_singleton.1 h
            exact (List.nodup_cons.1 hnd2).1 (hyx ▸ hy))
        (List.Nodup.of_cons hnd2) h1
      rw [show d ++ x :: ds = d ++ [x] ++ ds from (List.append_assoc d [x] ds).symm]
      exact h2

/-! Builder invariant: effect of re-adding a changed record. -/

theorem detach2_desc (g : HierarchyGraph) (x pk : Nat)
    (ro : Option Nat) (n : LayerHierarchy)
    (hn : getHierarchyFromId g x = some n) (hp : n.mParent = some pk)
    (hr : n.mRelativeParent = ro) :
    (∃ n2, getHierarchyFromId
          (detachFromRelativeParent (detachFromParent g x) x) x = some n2
        ∧ n2.layer = n.layer ∧ n2.mParent = none ∧ n2.mRelativeParent = none
        ∧ n2.mChildren =
            (if ro = some x then
              (if x = pk then n.mChildren.filter (stripStructOf x)
               else n.mChildren).filter (stripRelOf x)
             else
              (if x = pk then n.mChildren.filter (stripStructOf x)
               else n.mChildren)))
    ∧ ∀ k, k ≠ x →
        getHierarchyFromId
            (detachFromRelativeParent (detachFromParent g x) x) k =
          (getHierarchyFromId g k).map (fun m =>
            { m with mChildren :=
                if ro = some k then
                  (if k = pk then m.mChildren.filter (stripStructOf x)
                   else m.mChildren).filter (stripRelOf x)
                else
                  (if k = pk then m.mChildren.filter (stripStructOf x)
                   else m.mChildren) }) := by
  have e1 : detachFromParent g x =
      modifyNode (removeChildVariant g pk x isStructuralVariant) x
        (fun m => { m with mParent := none }) := by
    simp only [detachFromParent, hn, hp]
  have hg1 : ∀ k, k ≠ x →
      getHierarchyFromId (detachFromParent g x) k =
        if k = pk then
          (getHierarchyFromId g k).map (fun m =>
            { m with mChildren := m.mChildren.filter (stripStructOf x) })
        else getHierarchyFromId g k := by
    intro k hk
    rw [e1, getHierarchyFromId_modifyNode, if_neg hk, lookup_removeChildVariant]
    rfl
  have hg1x : getHierarchyFromId (detachFromParent g x) x =
      some { layer := n.layer
           , mChildren := (if x = pk then n.mChildren.filter (stripStructOf x)
                           else n.mChildren)
           , mParent := none
           , mRelativeParent := ro } := by
    rw [e1, getHierarchyFromId_modifyNode, if_pos rfl, lookup_removeChildVariant]
    by_cases hxpk : x = pk
    · rw [if_pos hxpk, if_pos hxpk, hn, Option.map_some', Option.map_some']
      rw [← hr]
      rfl
    · rw [if_neg hxpk, if_neg hxpk, hn, Option.map_some']
      rw [← hr]
  cases hro : ro with
  | none =>
      have e2 : detachFromRelativeParent (detachFromParent g x) x =
          detachFromParent g x := by
        simp only [detachFromRelativeParent, hg1x, hro]
      constructor
      · rw [e2, hg1x, hro]
        exact ⟨_, rfl, rfl, rfl, rfl, by
          rw [if_neg (show ((none : Option Nat) = some x) → False from
            fun h => Option.noConfusion h)]⟩
      · intro k hk
        rw [e2, hg1 k hk]
        have hne : ((none : Option Nat) = some k) → False := fun h =>
          Option.noConfusion h
        by_cases hkpk : k = pk
        · simp only [if_pos hkpk, if_neg hne]
        · simp only [if_neg hkpk, if_neg hne]
          cases getHierarchyFromId g k <;> rfl
  | some qk =>
      have e2 : detachFromRelativeParent (detachFromParent g x) x =
          modifyNode (removeChildVariant (detachFromParent g x) qk x
              (fun v => v == Variant.Relative)) x
            (fun m => { m with mRelativeParent := none }) := by
        simp only [detachFromRelativeParent, hg1x, hro]
      constructor
      · rw [e2, getHierarchyFromId_modifyNode, if_pos rfl,
          lookup_removeChildVariant]
        by_cases hxqk : x = qk
        · rw [if_pos hxqk, hg1x, hro, Option.map_some', Option.map_some']
          refine ⟨_, rfl, rfl, rfl, rfl, ?_⟩
          rw [if_pos (show (some qk = some x) from by rw [hxqk])]
          rfl
        · rw [if_neg hxqk, hg1x, hro, Option.map_some']
          refine ⟨_, rfl, rfl, rfl, rfl, ?_⟩
          rw [if_neg (show (some qk = some x) → False from
            fun h => hxqk (Option.some.inj h).symm)]
      · intro k hk
        rw [e2, getHierarchyFromId_modifyNode, if_neg hk,
          lookup_removeChildVariant, hg1 k hk]
        by_cases hkqk : k = qk
        · have hqe : (some qk = some k) := by rw [hkqk]
          by_cases hkpk : k = pk
          · simp only [if_pos hkqk, if_pos hkpk, if_pos hqe]
            cases getHierarchyFromId g k <;> rfl
          · simp only [if_pos hkqk, if_neg hkpk, if_pos hqe]
            cases getHierarchyFromId g k <;> rfl
        · have hqe : (some qk = some k) → False := fun h =>
            hkqk (Option.some.inj h).symm
          by_cases hkpk : k = pk
          · simp only [if_neg hkqk, if_pos hkpk, if_neg hqe]
          · simp only [if_neg hkqk, if_neg hkpk, if_neg hqe]
            cases getHierarchyFromId g k <;> rfl

theorem keys_detachMirrorChild (g : HierarchyGraph) (x : Nat) :
    (detachMirrorChild g x).nodes.map Prod.fst = g.nodes.map Prod.fst :=
  keys_modifyNode _ _ _

theorem onLayerAdded_changed_keys (g : HierarchyGraph)
    (l : RequestedLayerState) (hc : containsNode g l.id = true) :
    (onLayerAdded g l).nodes.map Prod.fst = g.nodes.map Prod.fst := by
  simp only [onLayerAdded, if_pos hc]
  rw [keys_modifyNode, keys_detachMirrorChild, keys_detachFromRelativeParent,
    keys_detachFromParent]

theorem onLayerAdded_changed_desc (g : HierarchyGraph) (pk : Nat)
    (ro : Option Nat) (n : LayerHierarchy) (l : RequestedLayerState)
    (hn : getHierarchyFromId g l.id = some n) (hp : n.mParent = some pk)
    (hr : n.mRelativeParent = ro) :
    (∃ m, getHierarchyFromId (onLayerAdded g l) l.id = some m
      ∧ m.layer = some l ∧ m.mParent = none ∧ m.mRelativeParent = none
      ∧ m.mChildren =
          (if ro = some l.id then
            (if l.id = pk then n.mChildren.filter (stripStructOf l.id)
             else n.mChildren).filter (stripRelOf l.id)
           else
            (if l.id = pk then n.mChildren.filter (stripStructOf l.id)
             else n.mChildren)).filter keepNonMirror)
    ∧ ∀ k, k ≠ l.id →
        getHierarchyFromId (onLayerAdded g l) k =
          (getHierarchyFromId g k).map (fun m =>
            { m with mChildren :=
                if ro = some k then
                  (if k = pk then m.mChildren.filter (stripStructOf l.id)
                   else m.mChildren).filter (stripRelOf l.id)
                else
                  (if k = pk then m.mChildren.filter (stripStructOf l.id)
                   else m.mChildren) }) := by
  have hc : containsNode g l.id = true := by
    unfold containsNode
    rw [hn]
    rfl
  have e0 : onLayerAdded g l =
      modifyNode (detachMirrorChild
          (detachFromRelativeParent (detachFromParent g l.id) l.id) l.id) l.id
        (fun m => { m with layer := some l }) := by
    simp only [onLayerAdded, if_pos hc]
  obtain ⟨⟨n2, hn2, hl2, hp2, hr2, hch2⟩, hoth2⟩ :=
    detach2_desc g l.id pk ro n hn hp hr
  constructor
  · rw [e0, getHierarchyFromId_modifyNode, if_pos rfl, lookup_detachMirrorChild,
      if_pos rfl, hn2, Option.map_some', Option.map_some']
    exact ⟨_, rfl, rfl, hp2, hr2, congrArg (List.filter keepNonMirror) hch2⟩
  · intro k hk
    rw [e0, getHierarchyFromId_modifyNode, if_neg hk, lookup_detachMirrorChild,
      if_neg hk, hoth2 k hk]

theorem midInv_changed {rs att : List RequestedLayerState} {D : List Nat}
    {c nw : List RequestedLayerState} {g : HierarchyGraph}
    {l : RequestedLayerState}
    (hatt : ∀ r ∈ att, r ∈ rs) (hnd : (aliveIds rs).Nodup)
    (hwf : ∀ r ∈ rs, wfRecord r)
    (hlin : l.id ∈ aliveIds rs) (hld : l.id ∉ D)
    (hlc : l.id ∉ aliveIds c) (hln : l.id ∉ aliveIds nw)
    (hI : MidInv rs att D c nw g) :
    MidInv rs att D (c ++ [l]) nw (onLayerAdded g l) := by
  obtain ⟨u, hu, huid⟩ := mem_aliveIds.1 hlin
  obtain ⟨n, hn, hlay, hpar, hrel⟩ :=
    hI.recOld u hu (huid ▸ hld) (huid ▸ hlc)
  have hn' : getHierarchyFromId g l.id = some n := huid ▸ hn
  have hc : containsNode g l.id = true := by
    unfold containsNode
    rw [hn']
    rfl
  obtain ⟨⟨m0, hm0, hm0lay, hm0par, hm0rel, hm0ch⟩, hoth⟩ :=
    onLayerAdded_changed_desc g (resolveParentOf rs u)
      (resolveRelativeOf rs u) n l hn' hpar hrel
  have hvalid : u.id < UNASSIGNED_LAYER_ID := (hwf u hu).1
  have hroot_ne : ROOT_KEY ≠ l.id :=
    huid ▸ Ne.symm (Nat.ne_of_lt hvalid)
  have hoff_ne : OFFSCREEN_KEY ≠ l.id :=
    huid ▸ Ne.symm (Nat.ne_of_lt (Nat.lt_trans hvalid (by decide)))
  have halive : aliveIds (c ++ [l]) = aliveIds c ++ [l.id] := aliveIds_append c [l]
  refine ⟨?_, ?_, ?_, ?_, ?_, ?_, ?_⟩
  · rw [onLayerAdded_changed_keys g l hc]
    exact hI.keys
  · obtain ⟨nr, hnr, p1, p2, p3⟩ := hI.rootN
    rw [hoth ROOT_KEY hroot_ne, hnr, Option.map_some']
    exact ⟨_, rfl, p1, p2, p3⟩
  · obtain ⟨nr, hnr, p1, p2, p3⟩ := hI.offN
    rw [hoth OFFSCREEN_KEY hoff_ne, hnr, Option.map_some']
    exact ⟨_, rfl, p1, p2, p3⟩
  · intro v hv hvd hvc
    rw [halive] at hvc
    have hvc0 : v.id ∉ aliveIds c := fun h => hvc (List.mem_append_left _ h)
    have hvne : v.id ≠ l.id := fun h =>
      hvc (List.mem_append_right _ (by rw [h]; exact List.mem_singleton_self _))
    obtain ⟨m, hm, q1, q2, q3⟩ := hI.recOld v hv hvd hvc0
    rw [hoth v.id hvne, hm, Option.map_some']
    exact ⟨_, rfl, q1, q2, q3⟩
  · intro r hr
    rcases List.mem_append.1 hr with hr | hr
    · have hrne : r.id ≠ l.id := fun h =>
        hlc (h ▸ mem_aliveIds.2 ⟨r, hr, rfl⟩)
      obtain ⟨m, hm, q1, q2, q3⟩ := hI.recChg r hr
      rw [hoth r.id hrne, hm, Option.map_some']
      exact ⟨_, rfl, q1, q2, q3⟩
    · have hrl : r = l := List.mem_singleton.1 hr
      subst hrl
      exact ⟨m0, hm0, hm0lay, hm0par, hm0rel⟩
  · intro r hr
    have hrne : r.id ≠ l.id := fun h =>
      hln (h ▸ mem_aliveIds.2 ⟨r, hr, rfl⟩)
    obtain ⟨m, hm, q1, q2, q3⟩ := hI.recNew r hr
    rw [hoth r.id hrne, hm, Option.map_some']
    exact ⟨_, rfl, q1, q2, q3⟩
  · intro key m' hm'
    rw [prunedChildren_eq]
    have hclean : D ++ aliveIds (c ++ [l]) = (D ++ aliveIds c) ++ [u.id] := by
      rw [halive, ← List.append_assoc, huid]
    rw [hclean]
    have hpt : ∀ cv ∈ canonicalChildrenOn rs att key,
        prunedPredB D ((D ++ aliveIds c) ++ [u.id]) key cv =
          (((prunedPredB D (D ++ aliveIds c) key cv
            && (if key = resolveParentOf rs u then stripStructOf u.id cv
                else true))
            && (if resolveRelativeOf rs u = some key then stripRelOf u.id cv
                else true))
            && (if key = u.id then keepNonMirror cv else true)) := by
      intro cv hcv
      exact prunedPredB_snoc hatt hnd hu D (D ++ aliveIds c) key cv hcv
    by_cases hkey : key = l.id
    · subst hkey
      rw [hm0] at hm'
      have hm'' : m' = m0 := (Option.some.inj hm').symm
      subst hm''
      rw [hm0ch]
      have hch := hI.childrenN l.id n hn'
      rw [prunedChildren_eq] at hch
      rw [hch]
      have hss : stripStructOf l.id = stripStructOf u.id := by rw [huid]
      have hsr : stripRelOf l.id = stripRelOf u.id := by rw [huid]
      have hkeyu : l.id = u.id := huid.symm
      by_cases hpkk : l.id = resolveParentOf rs u
      · by_cases hrok : resolveRelativeOf rs u = some l.id
        · rw [if_pos hrok, if_pos hpkk, hss, hsr]
          rw [List.filter_filter, List.filter_filter, List.filter_filter]
          apply List.filter_congr
          intro cv hcv
          rw [hpt cv hcv, if_pos hpkk, if_pos hrok, if_pos hkeyu]
          cases prunedPredB D (D ++ aliveIds c) l.id cv <;>
            cases stripStructOf u.id cv <;> cases stripRelOf u.id cv <;>
            cases keepNonMirror cv <;> rfl
        · rw [if_neg hrok, if_pos hpkk, hss]
          rw [List.filter_filter, List.filter_filter]
          apply List.filter_congr
          intro cv hcv
          rw [hpt cv hcv, if_pos hpkk, if_neg hrok, if_pos hkeyu, Bool.and_true]
          cases prunedPredB D (D ++ aliveIds c) l.id cv <;>
            cases stripStructOf u.id cv <;> cases keepNonMirror cv <;> rfl
      · by_cases hrok : resolveRelativeOf rs u = some l.id
        · rw [if_pos hrok, if_neg hpkk, hsr]
          rw [List.filter_filter, List.filter_filter]
          apply List.filter_congr
          intro cv hcv
          rw [hpt cv hcv, if_neg hpkk, if_pos hrok, if_pos hkeyu, Bool.and_true]
          cases prunedPredB D (D ++ aliveIds c) l.id cv <;>
            cases stripRelOf u.id cv <;> cases keepNonMirror cv <;> rfl
        · rw [if_neg hrok, if_neg hpkk]
          rw [List.filter_filter]
          apply List.filter_congr
          intro cv hcv
          rw [hpt cv hcv, if_neg hpkk, if_neg hrok, if_pos hkeyu,
            Bool.and_true, Bool.and_true]
          cases prunedPredB D (D ++ aliveIds c) l.id cv <;>
            cases keepNonMirror cv <;> rfl
    · rw [hoth key hkey] at hm'
      cases hg : getHierarchyFromId g key with
      | none => rw [hg] at hm'; cases hm'
      | some m =>
          rw [hg, Option.map_some'] at hm'
          have hm'' : m' = _ := (Option.some.inj hm').symm
          subst hm''
          simp only []
          have hch := hI.childrenN key m hg
          rw [prunedChildren_eq] at hch
          rw [hch]
          have hkeyu : key ≠ u.id := fun h => hkey (h.trans huid)
          by_cases hpkk : key = resolveParentOf rs u
          · by_cases hrok : resolveRelativeOf rs u = some key
            · rw [if_pos hrok, if_pos hpkk,
                show stripStructOf l.id = stripStructOf u.id by rw [huid],
                show stripRelOf l.id = stripRelOf u.id by rw [huid]]
              rw [List.filter_filter, List.filter_filter]
              apply List.filter_congr
              intro cv hcv
              rw [hpt cv hcv, if_pos hpkk, if_pos hrok, if_neg hkeyu,
                Bool.and_true]
              cases prunedPredB D (D ++ aliveIds c) key cv <;>
                cases stripStructOf u.id cv <;> cases stripRelOf u.id cv <;> rfl
            · rw [if_neg hrok, if_pos hpkk,
                show stripStructOf l.id = stripStructOf u.id by rw [huid]]
              rw [List.filter_filter]
              apply List.filter_congr
              intro cv hcv
              rw [hpt cv hcv, if_pos hpkk, if_neg hrok, if_neg hkeyu,
                Bool.and_true, Bool.and_true]
              cases prunedPredB D (D ++ aliveIds c) key cv <;>
                cases stripStructOf u.id cv <;> rfl
          · by_cases hrok : resolveRelativeOf rs u = some key
            · rw [if_pos hrok, if_neg hpkk,
                show stripRelOf l.id = stripRelOf u.id by rw [huid]]
              rw [List.filter_filter]
              apply List.filter_congr
              intro cv hcv
              rw [hpt cv hcv, if_neg hpkk, if_pos hrok, if_neg hkeyu,
                Bool.and_true]
              rw [show (prunedPredB D (D ++ aliveIds c) key cv && true)
                  = prunedPredB D (D ++ aliveIds c) key cv from Bool.and_true _]
              cases prunedPredB D (D ++ aliveIds c) key cv <;>
                cases stripRelOf u.id cv <;> rfl
            · rw [if_neg hrok, if_neg hpkk]
              apply List.filter_congr
              intro cv hcv
              rw [hpt cv hcv, if_neg hpkk, if_neg hrok, if_neg hkeyu,
                Bool.and_true, Bool.and_true, Bool.and_true]

theorem midInv_new {rs att : List RequestedLayerState} {D : List Nat}
    {c nw : List RequestedLayerState} {g : HierarchyGraph}
    {l : RequestedLayerState}
    (hatt : ∀ r ∈ att, r ∈ rs)
    (hlnew : l.id ∉ aliveIds rs) (hlnw : l.id ∉ aliveIds nw)
    (hlval : validId l.id)
    (hI : MidInv rs att D c nw g) :
    MidInv rs att D c (nw ++ [l]) (onLayerAdded g l) := by
  have hlroot : l.id ≠ ROOT_KEY := Nat.ne_of_lt hlval
  have hloff : l.id ≠ OFFSCREEN_KEY :=
    Nat.ne_of_lt (Nat.lt_trans hlval (by decide))
  have hc : containsNode g l.id = false := by
    cases hcc : containsNode g l.id with
    | false => rfl
    | true =>
        exfalso
        have hmem := (containsNode_iff_mem_keys g l.id).1 hcc
        have hmem2 := hI.keys.mem_iff.1 hmem
        rcases List.mem_cons.1 hmem2 with h | h2
        · exact hlroot h
        rcases List.mem_cons.1 h2 with h | h3
        · exact hloff h
        rcases List.mem_append.1 h3 with h | h
        · exact hlnew (List.mem_filter.1 h).1
        · exact hlnw h
  have hnone : getHierarchyFromId g l.id = none := by
    unfold containsNode at hc
    cases hg : getHierarchyFromId g l.id with
    | none => rfl
    | some m => rw [hg] at hc; cases hc
  have e0 : onLayerAdded g l =
      { nodes := g.nodes ++ [(l.id, LayerHierarchy.mk0 (some l))] } := by
    unfold onLayerAdded
    rw [if_neg (fun h => by rw [hc] at h; exact Bool.false_ne_true h)]
  have hlook : ∀ k, getHierarchyFromId (onLayerAdded g l) k =
      match getHierarchyFromId g k with
      | some m => some m
      | none => if k = l.id then some (LayerHierarchy.mk0 (some l)) else none := by
    intro k
    rw [e0]
    exact getHierarchyFromId_appendNode g l.id (LayerHierarchy.mk0 (some l)) k
  refine ⟨?_, ?_, ?_, ?_, ?_, ?_, ?_⟩
  · rw [e0]
    have hk := keys_appendNode g l.id (LayerHierarchy.mk0 (some l))
    rw [hk]
    refine (hI.keys.append (List.Perm.refl [l.id])).trans ?_
    rw [List.cons_append, List.cons_append, List.append_assoc,
      aliveIds_append]
    exact List.Perm.refl _
  · obtain ⟨nr, hnr, p1, p2, p3⟩ := hI.rootN
    rw [hlook ROOT_KEY, hnr]
    exact ⟨nr, rfl, p1, p2, p3⟩
  · obtain ⟨nr, hnr, p1, p2, p3⟩ := hI.offN
    rw [hlook OFFSCREEN_KEY, hnr]
    exact ⟨nr, rfl, p1, p2, p3⟩
  · intro v hv hvd hvc
    obtain ⟨m, hm, q1, q2, q3⟩ := hI.recOld v hv hvd hvc
    rw [hlook v.id, hm]
    exact ⟨m, rfl, q1, q2, q3⟩
  · intro r hr
    obtain ⟨m, hm, q1, q2, q3⟩ := hI.recChg r hr
    rw [hlook r.id, hm]
    exact ⟨m, rfl, q1, q2, q3⟩
  · intro r hr
    rcases List.mem_append.1 hr with hr | hr
    · obtain ⟨m, hm, q1, q2, q3⟩ := hI.recNew r hr
      rw [hlook r.id, hm]
      exact ⟨m, rfl, q1, q2, q3⟩
    · have hrl : r = l := List.mem_singleton.1 hr
      subst hrl
      rw [hlook r.id, hnone]
      rw [if_pos rfl]
      exact ⟨_, rfl, rfl, rfl, rfl⟩
  · intro key m' hm'
    rw [hlook key] at hm'
    cases hg : getHierarchyFromId g key with
    | some m =>
        rw [hg] at hm'
        have hm2 : some m = some m' := hm'
        have hmm : m' = m := (Option.some.inj hm2).symm
        rw [hmm]
        exact hI.childrenN key m hg
    | none =>
        rw [hg] at hm'
        by_cases hkl : key = l.id
        · rw [if_pos hkl] at hm'
          have hm2 : some (LayerHierarchy.mk0 (some l)) = some m' := hm'
          have hmm : m' = LayerHierarchy.mk0 (some l) := (Option.some.inj hm2).symm
          subst hmm
          rw [prunedChildren_eq]
          rw [hkl]
          rw [canonical_at_fresh hatt hlnew hlroot hloff]
          rfl
        · rw [if_neg hkl] at hm'
          have hm2 : (none : Option LayerHierarchy) = some m' := hm'
          exact Option.noConfusion hm2

theorem midInv_addFold {rs att : List RequestedLayerState} {D : List Nat}
    (hatt : ∀ r ∈ att, r ∈ rs) (hnd : (aliveIds rs).Nodup)
    (hwf : ∀ r ∈ rs, wfRecord r) (ls : List RequestedLayerState) :
    ∀ (c nw : List RequestedLayerState) (g : HierarchyGraph),
      (∀ x ∈ ls, x.id ∉ D) → (∀ x ∈ ls, validId x.id) →
      (aliveIds ls).Nodup →
      (∀ x ∈ ls, x.id ∉ aliveIds c) → (∀ x ∈ ls, x.id ∉ aliveIds nw) →
      MidInv rs att D c nw g →
      MidInv rs att D
        (c ++ ls.filter (fun x => (aliveIds rs).contains x.id))
        (nw ++ ls.filter (fun x => !((aliveIds rs).contains x.id)))
        (ls.foldl onLayerAdded g) := by
  induction ls with
  | nil =>
      intro c nw g _ _ _ _ _ hI
      rw [List.filter_nil, List.filter_nil, List.append_nil, List.append_nil]
      exact hI
  | cons l ls ih =>
      intro c nw g hD hval hnodup hc hnw hI
      have hmeml : l ∈ l :: ls := List.mem_cons_self l ls
      have hnodup' : (aliveIds ls).Nodup :=
        (List.nodup_cons.1 (show (l.id :: aliveIds ls).Nodup from hnodup)).2
      have hheadout : l.id ∉ aliveIds ls :=
        (List.nodup_cons.1 (show (l.id :: aliveIds ls).Nodup from hnodup)).1
      rw [List.foldl_cons, List.filter_cons, List.filter_cons]
      by_cases hin : l.id ∈ aliveIds rs
      · have hct : ((aliveIds rs).contains l.id) = true :=
          (contains_true_iff _ _).2 hin
        rw [if_pos hct, if_neg (by rw [hct]; exact Bool.false_ne_true)]
        have h1 := midInv_changed hatt hnd hwf hin (hD l hmeml)
          (hc l hmeml) (hnw l hmeml) hI
        have h2 := ih (c ++ [l]) nw (onLayerAdded g l)
          (fun x hx => hD x (List.mem_cons_of_mem l hx))
          (fun x hx => hval x (List.mem_cons_of_mem l hx))
          hnodup'
          (fun x hx hmem => by
            rw [aliveIds_append] at hmem
            rcases List.mem_append.1 hmem with h | h
            · exact hc x (List.mem_cons_of_mem l hx) h
            · have : x.id = l.id := List.mem_singleton.1 h
              exact hheadout (this ▸ mem_aliveIds.2 ⟨x, hx, rfl⟩))
          (fun x hx => hnw x (List.mem_cons_of_mem l hx))
          h1
        rw [show c ++ l :: List.filter (fun x => (aliveIds rs).contains x.id) ls
            = c ++ [l] ++ List.filter (fun x => (aliveIds rs).contains x.id) ls
          from (List.append_assoc c [l] _).symm]
        exact h2
      · have hcf : ((aliveIds rs).contains l.id) = false :=
          (contains_false_iff _ _).2 hin
        rw [if_neg (by rw [hcf]; exact Bool.false_ne_true), if_pos (by rw [hcf]; rfl)]
        have h1 := midInv_new hatt hin (hnw l hmeml) (hval l hmeml) hI
        have h2 := ih c (nw ++ [l]) (onLayerAdded g l)
          (fun x hx => hD x (List.mem_cons_of_mem l hx))
          (fun x hx => hval x (List.mem_cons_of_mem l hx))
          hnodup'
          (fun x hx => hc x (List.mem_cons_of_mem l hx))
          (fun x hx hmem => by
            rw [aliveIds_append] at hmem
            rcases List.mem_append.1 hmem with h | h
            · exact hnw x (List.mem_cons_of_mem l hx) h
            · have : x.id = l.id := List.mem_singleton.1 h
              exact hheadout (this ▸ mem_aliveIds.2 ⟨x, hx, rfl⟩))
          h1
        rw [show nw ++ l :: List.filter (fun x => !((aliveIds rs).contains x.id)) ls
            = nw ++ [l] ++ List.filter (fun x => !((aliveIds rs).contains x.id)) ls
          from (List.append_assoc nw [l] _).symm]
        exact h2

/-! Builder invariant: the bridge from the middle phase to the attach phase. -/

theorem structuralVariantOf_ne_mirror (rs : List RequestedLayerState)
    (u : RequestedLayerState) :
    (structuralVariantOf rs u == Variant.Mirror) = false := by
  unfold structuralVariantOf
  split <;> rfl

theorem prunedPredB_nonMirror (D cleaned : List Nat) (key c : Nat) (v : Variant)
    (hv : (v == Variant.Mirror) = false) :
    prunedPredB D cleaned key (c, v) =
      (!(D.contains c) && !(cleaned.contains c)) := by
  unfold prunedPredB
  rw [show ((c, v).2 == Variant.Mirror) = false from hv]
  rw [if_neg Bool.false_ne_true]

theorem prunedPredB_mirror (D cleaned : List Nat) (key c : Nat) :
    prunedPredB D cleaned key (c, Variant.Mirror) = !(cleaned.contains key) :=
  rfl

theorem filter_const {α : Type} (p : α → Bool) (b : Bool) (l : List α)
    (h : ∀ x ∈ l, p x = b) : l.filter p = if b then l else [] := by
  induction l with
  | nil => cases b <;> rfl
  | cons x xs ih =>
      rw [List.filter_cons, h x (List.mem_cons_self x xs),
        ih (fun y hy => h y (List.mem_cons_of_mem x hy))]
      cases b <;> rfl

theorem mem_contribOf {rs : List RequestedLayerState}
    {u : RequestedLayerState} {key : Nat} {cv : Nat × Variant}
    (h : cv ∈ contribOf rs u key) :
    (cv.1 = u.id ∧ (cv.2 == Variant.Mirror) = false)
    ∨ (cv.2 = Variant.Mirror ∧ u.id = key) := by
  unfold contribOf at h
  rw [List.mem_append, List.mem_append] at h
  rcases h with (h | h) | h
  · split at h
    · have hcv := List.mem_singleton.1 h
      left
      rw [hcv]
      exact ⟨rfl, structuralVariantOf_ne_mirror rs u⟩
    · cases h
  · split at h
    · split at h
      · have hcv := List.mem_singleton.1 h
        left
        rw [hcv]
        exact ⟨rfl, rfl⟩
      · cases h
    · cases h
  · split at h
    · split at h
      · rename_i hcond
        have hcv := List.mem_singleton.1 h
        right
        rw [hcv]
        exact ⟨rfl, hcond.1⟩
      · cases h
    · cases h

theorem contribOf_filter_dead (rs : List RequestedLayerState)
    (u : RequestedLayerState) (D cleaned : List Nat) (key : Nat)
    (hcl : cleaned.contains u.id = true) :
    (contribOf rs u key).filter (prunedPredB D cleaned key) = [] := by
  rw [filter_const _ false _ ?_]
  · rfl
  · intro cv hcv
    rcases mem_contribOf hcv with ⟨h1, h2⟩ | ⟨h1, h2⟩
    · obtain ⟨c, v⟩ := cv
      rw [prunedPredB_nonMirror D cleaned key c v h2]
      rw [show c = u.id from h1, hcl]
      exact Bool.and_false _
    · obtain ⟨c, v⟩ := cv
      have hv : v = Variant.Mirror := h1
      subst hv
      rw [prunedPredB_mirror, ← h2, hcl]
      rfl

theorem contribOf_filter_live (rs : List RequestedLayerState)
    (u : RequestedLayerState) (D cleaned : List Nat) (key : Nat)
    (hD : D.contains u.id = false) (hcl : cleaned.contains u.id = false) :
    (contribOf rs u key).filter (prunedPredB D cleaned key) =
      contribOf rs u key := by
  rw [filter_const _ true _ ?_]
  · rfl
  · intro cv hcv
    rcases mem_contribOf hcv with ⟨h1, h2⟩ | ⟨h1, h2⟩
    · obtain ⟨c, v⟩ := cv
      rw [prunedPredB_nonMirror D cleaned key c v h2]
      rw [show c = u.id from h1, hD, hcl]
      rfl
    · obtain ⟨c, v⟩ := cv
      have hv : v = Variant.Mirror := h1
      subst hv
      rw [prunedPredB_mirror, ← h2, hcl]
      rfl

theorem flatMap_congr_mem {α β : Type} {l : List α} {f g : α → List β}
    (h : ∀ a ∈ l, f a = g a) : l.flatMap f = l.flatMap g := by
  induction l with
  | nil => rfl
  | cons x xs ih =>
      rw [List.flatMap_cons, List.flatMap_cons, h x (List.mem_cons_self x xs),
        ih (fun a ha => h a (List.mem_cons_of_mem x ha))]

theorem attachInv_of_midInv {rs att layers : List RequestedLayerState}
    {D : List Nat} {g : HierarchyGraph}
    (hattp : att.Perm rs) (_hnd : (aliveIds rs).Nodup)
    (hres : resolvedRecords rs)
    (_hDdis : ∀ x ∈ D, x ∉ aliveIds layers)
    (hNres : resolvedRecords (applyDelta rs layers D))
    (hI : MidInv rs att D
      (layers.filter (fun x => (aliveIds rs).contains x.id))
      (layers.filter (fun x => !((aliveIds rs).contains x.id))) g) :
    AttachInv (applyDelta rs layers D)
      (att.filter (fun u =>
        !((D ++ aliveIds (layers.filter
            (fun x => (aliveIds rs).contains x.id))).contains u.id)))
      g := by
  have hatt : ∀ r ∈ att, r ∈ rs := fun r hr => hattp.mem_iff.1 hr
  have hchg_layer : ∀ i, i ∈ aliveIds (layers.filter
      (fun x => (aliveIds rs).contains x.id)) → i ∈ aliveIds layers := by
    intro i hi
    obtain ⟨l, hl, hlid⟩ := mem_aliveIds.1 hi
    exact mem_aliveIds.2 ⟨l, (List.mem_filter.1 hl).1, hlid⟩
  have hlayer_chg : ∀ i, i ∈ aliveIds rs → i ∈ aliveIds layers →
      i ∈ aliveIds (layers.filter (fun x => (aliveIds rs).contains x.id)) := by
    intro i hirs hil
    obtain ⟨l, hl, hlid⟩ := mem_aliveIds.1 hil
    refine mem_aliveIds.2 ⟨l, List.mem_filter.2 ⟨hl, ?_⟩, hlid⟩
    rw [(contains_true_iff _ _).2 (hlid ▸ hirs)]
  refine ⟨?_, hI.rootN, hI.offN, ?_, ?_⟩
  · rw [aliveIds_applyDelta]
    exact hI.keys
  · intro r hr
    rcases mem_applyDelta_cases hr with ⟨hrrs, hrD, hrlay⟩ | hrl
    · have hrchg : r.id ∉ aliveIds (layers.filter
          (fun x => (aliveIds rs).contains x.id)) :=
        fun h => hrlay (hchg_layer r.id h)
      obtain ⟨n, hn, h1, h2, h3⟩ := hI.recOld r hrrs hrD hrchg
      have hattmem : r ∈ att.filter (fun u =>
          !((D ++ aliveIds (layers.filter
              (fun x => (aliveIds rs).contains x.id))).contains u.id)) := by
        refine List.mem_filter.2 ⟨hattp.mem_iff.2 hrrs, ?_⟩
        rw [(contains_false_iff _ _).2 (fun hc => ?_)]
        · rfl
        · rcases List.mem_append.1 hc with h | h
          · exact hrD h
          · exact hrchg h
      have hidmem : r.id ∈ aliveIds (att.filter (fun u =>
          !((D ++ aliveIds (layers.filter
              (fun x => (aliveIds rs).contains x.id))).contains u.id))) :=
        mem_aliveIds.2 ⟨r, hattmem, rfl⟩
      refine ⟨n, hn, h1, fun _ => ⟨?_, ?_⟩, fun hnot => absurd hidmem hnot⟩
      · rw [h2, resolveParentOf_eq_of_resolved rs (applyDelta rs layers D)
          r hrrs hr hres hNres]
      · rw [h3, resolveRelativeOf_eq_of_resolved rs (applyDelta rs layers D)
          r hrrs hr hres hNres]
    · have hnotatt : r.id ∉ aliveIds (att.filter (fun u =>
          !((D ++ aliveIds (layers.filter
              (fun x => (aliveIds rs).contains x.id))).contains u.id))) := by
        intro hmem
        obtain ⟨a, ha, haid⟩ := mem_aliveIds.1 hmem
        have ha1 := (List.mem_filter.1 ha).1
        have ha2 := (List.mem_filter.1 ha).2
        have hars : a.id ∈ aliveIds rs := mem_aliveIds.2 ⟨a, hatt a ha1, rfl⟩
        by_cases hin : r.id ∈ aliveIds rs
        · have : a.id ∈ aliveIds (layers.filter
              (fun x => (aliveIds rs).contains x.id)) :=
            hlayer_chg a.id hars (haid ▸ mem_aliveIds.2 ⟨r, hrl, rfl⟩)
          rw [(contains_true_iff _ _).2 (List.mem_append_right D this)] at ha2
          cases ha2
        · exact hin (haid ▸ hars)
      by_cases hin : r.id ∈ aliveIds rs
      · have hrchg : r ∈ layers.filter
            (fun x => (aliveIds rs).contains x.id) :=
          List.mem_filter.2 ⟨hrl, (contains_true_iff _ _).2 hin⟩
        obtain ⟨n, hn, h1, h2, h3⟩ := hI.recChg r hrchg
        exact ⟨n, hn, h1, fun hmem => absurd hmem hnotatt, fun _ => ⟨h2, h3⟩⟩
      · have hrnw : r ∈ layers.filter
            (fun x => !((aliveIds rs).contains x.id)) :=
          List.mem_filter.2 ⟨hrl, by rw [(contains_false_iff _ _).2 hin]; rfl⟩
        obtain ⟨n, hn, h1, h2, h3⟩ := hI.recNew r hrnw
        exact ⟨n, hn, h1, fun hmem => absurd hmem hnotatt, fun _ => ⟨h2, h3⟩⟩
  · intro key n hn
    have hch := hI.childrenN key n hn
    rw [prunedChildren_eq] at hch
    rw [hch]
    unfold canonicalChildrenOn
    rw [filter_flatMap, flatMap_filter_base]
    apply flatMap_congr_mem
    intro u hu
    by_cases hq : (!((D ++ aliveIds (layers.filter
        (fun x => (aliveIds rs).contains x.id))).contains u.id)) = true
    · rw [if_pos hq]
      have hnc : (D ++ aliveIds (layers.filter
          (fun x => (aliveIds rs).contains x.id))).contains u.id = false := by
        cases hc : (D ++ aliveIds (layers.filter
            (fun x => (aliveIds rs).contains x.id))).contains u.id
        · rfl
        · rw [hc] at hq; cases hq
      have hnotmem := (contains_false_iff _ _).1 hnc
      have hD0 : u.id ∉ D := fun h => hnotmem (List.mem_append_left _ h)
      have hchg0 : u.id ∉ aliveIds (layers.filter
          (fun x => (aliveIds rs).contains x.id)) :=
        fun h => hnotmem (List.mem_append_right _ h)
      have hDc : D.contains u.id = false := (contains_false_iff _ _).2 hD0
      have hlay0 : u.id ∉ aliveIds layers := fun h =>
        hchg0 (hlayer_chg u.id (mem_aliveIds.2 ⟨u, hatt u hu, rfl⟩) h)
      rw [contribOf_filter_live rs u D _ key hDc hnc]
      exact contribOf_eq_of_resolved rs (applyDelta rs layers D) u
        (hatt u hu) (mem_applyDelta_old (hatt u hu) hD0 hlay0) hres hNres key
    · rw [if_neg hq]
      have hcc : (D ++ aliveIds (layers.filter
          (fun x => (aliveIds rs).contains x.id))).contains u.id = true := by
        cases hc : (D ++ aliveIds (layers.filter
            (fun x => (aliveIds rs).contains x.id))).contains u.id
        · rw [hc] at hq; exact absurd rfl hq
        · rfl
      exact contribOf_filter_dead rs u D _ key hcc

/-! Builder invariant: effect of attaching one record. -/

theorem containsNode_modifyNode (g : HierarchyGraph) (key : Nat)
    (f : LayerHierarchy → LayerHierarchy) (i : Nat) :
    containsNode (modifyNode g key f) i = containsNode g i := by
  unfold containsNode
  rw [getHierarchyFromId_modifyNode]
  split
  · cases getHierarchyFromId g i <;> rfl
  · rfl

theorem attachToParent_desc {N : List RequestedLayerState}
    (g : HierarchyGraph) (r : RequestedLayerState)
    (hpar : ∀ p ∈ r.parentId, p ∈ aliveIds N)
    (hrelp : ∀ q ∈ r.relativeParentId, q ∈ aliveIds N)
    (hcont : ∀ i ∈ aliveIds N, containsNode g i = true) :
    ∀ k, getHierarchyFromId (attachToParent g r) k =
      (getHierarchyFromId g k).map (fun m =>
        { m with
            mChildren := m.mChildren ++
              (if resolveParentOf N r = k
               then [(r.id, structuralVariantOf N r)] else [])
            , mParent := if k = r.id then some (resolveParentOf N r)
                         else m.mParent }) := by
  have hpk : resolveParentKey g r = resolveParentOf N r := by
    unfold resolveParentKey resolveParentOf
    cases hp : r.parentId with
    | none => rfl
    | some p =>
        have hmem : p ∈ aliveIds N := hpar p (by rw [hp]; rfl)
        show (if containsNode g p = true then p else OFFSCREEN_KEY)
          = (if (aliveIds N).contains p = true then p else OFFSCREEN_KEY)
        rw [hcont p hmem, (contains_true_iff _ _).2 hmem]
  have hsv : structuralVariant g r = structuralVariantOf N r := by
    unfold structuralVariant structuralVariantOf relResolves relResolvesOf
    cases hq : r.relativeParentId with
    | none => rfl
    | some q =>
        have hmem : q ∈ aliveIds N := hrelp q (by rw [hq]; rfl)
        show (if containsNode g q = true then Variant.Detached
              else Variant.Attached)
          = (if (aliveIds N).contains q = true then Variant.Detached
              else Variant.Attached)
        rw [hcont q hmem, (contains_true_iff _ _).2 hmem]
  intro k
  unfold attachToParent
  simp only []
  rw [hpk, hsv, getHierarchyFromId_modifyNode, lookup_addChild]
  by_cases hkr : k = r.id
  · simp only [if_pos hkr]
    by_cases hkp : k = resolveParentOf N r
    · simp only [if_pos hkp, if_pos hkp.symm]
      cases getHierarchyFromId g k <;> rfl
    · simp only [if_neg hkp, if_neg (show ¬(resolveParentOf N r = k) from
        fun h => hkp h.symm)]
      cases getHierarchyFromId g k <;> simp [List.append_nil]
  · simp only [if_neg hkr]
    by_cases hkp : k = resolveParentOf N r
    · simp only [if_pos hkp, if_pos hkp.symm]
    · simp only [if_neg hkp, if_neg (show ¬(resolveParentOf N r = k) from
        fun h => hkp h.symm)]
      cases getHierarchyFromId g k <;> simp [List.append_nil]

theorem containsNode_congr {g g' : HierarchyGraph}
    {F : Nat → LayerHierarchy → LayerHierarchy}
    (h : ∀ k, getHierarchyFromId g' k =
      (getHierarchyFromId g k).map (F k)) (i : Nat) :
    containsNode g' i = containsNode g i := by
  unfold containsNode
  rw [h i]
  cases getHierarchyFromId g i <;> rfl

theorem attachToRelativeParent_none (g : HierarchyGraph)
    (r : RequestedLayerState) (hq : r.relativeParentId = none) :
    attachToRelativeParent g r = g := by
  unfold attachToRelativeParent
  rw [hq]

theorem attachToRelativeParent_some {N : List RequestedLayerState}
    (g : HierarchyGraph) (r : RequestedLayerState) (q : Nat)
    (hq : r.relativeParentId = some q) (hmem : q ∈ aliveIds N)
    (hcont : ∀ i ∈ aliveIds N, containsNode g i = true) :
    ∀ k, getHierarchyFromId (attachToRelativeParent g r) k =
      (getHierarchyFromId g k).map (fun m =>
        { m with
            mChildren := m.mChildren ++
              (if q = k then [(r.id, Variant.Relative)] else [])
            , mRelativeParent := if k = r.id then some q
                                 else m.mRelativeParent }) := by
  have e : attachToRelativeParent g r =
      modifyNode (addChild g q r.id Variant.Relative) r.id
        (fun m => { m with mRelativeParent := some q }) := by
    unfold attachToRelativeParent
    simp only [hq]
    rw [if_pos (hcont q hmem)]
  intro k
  rw [e, getHierarchyFromId_modifyNode, lookup_addChild]
  by_cases hkr : k = r.id
  · simp only [if_pos hkr]
    by_cases hkq : k = q
    · simp only [if_pos hkq, if_pos hkq.symm]
      cases getHierarchyFromId g k <;> rfl
    · simp only [if_neg hkq, if_neg (show ¬(q = k) from fun h => hkq h.symm)]
      cases getHierarchyFromId g k <;> simp [List.append_nil]
  · simp only [if_neg hkr]
    by_cases hkq : k = q
    · simp only [if_pos hkq, if_pos hkq.symm]
    · simp only [if_neg hkq, if_neg (show ¬(q = k) from fun h => hkq h.symm)]
      cases getHierarchyFromId g k <;> simp [List.append_nil]

theorem updateMirrorLayer_none (g : HierarchyGraph)
    (r : RequestedLayerState) (hs : r.mirrorId = none) :
    updateMirrorLayer g r = g := by
  unfold updateMirrorLayer
  rw [hs]

theorem updateMirrorLayer_some {N : List RequestedLayerState}
    (g : HierarchyGraph) (r : RequestedLayerState) (s : Nat)
    (hs : r.mirrorId = some s) (hmem : s ∈ aliveIds N)
    (hcont : ∀ i ∈ aliveIds N, containsNode g i = true) :
    ∀ k, getHierarchyFromId (updateMirrorLayer g r) k =
      (getHierarchyFromId g k).map (fun m =>
        { m with
            mChildren := m.mChildren ++
              (if r.id = k then [(s, Variant.Mirror)] else []) }) := by
  have e : updateMirrorLayer g r = addChild g r.id s Variant.Mirror := by
    unfold updateMirrorLayer
    simp only [hs]
    rw [if_pos (hcont s hmem)]
  intro k
  rw [e, lookup_addChild]
  by_cases hkr : k = r.id
  · simp only [if_pos hkr, if_pos hkr.symm]
  · simp only [if_neg hkr, if_neg (show ¬(r.id = k) from fun h => hkr h.symm)]
    cases getHierarchyFromId g k <;> simp [List.append_nil]

theorem attachAll_desc {N : List RequestedLayerState}
    (g : HierarchyGraph) (r : RequestedLayerState)
    (hpar : ∀ p ∈ r.parentId, p ∈ aliveIds N)
    (hrelp : ∀ q ∈ r.relativeParentId, q ∈ aliveIds N)
    (hmir : ∀ s ∈ r.mirrorId, s ∈ aliveIds N)
    (hcont : ∀ i ∈ aliveIds N, containsNode g i = true)
    (hprior : ∀ m, getHierarchyFromId g r.id = some m →
      m.mRelativeParent = none) :
    ∀ k, getHierarchyFromId (attachAll g r) k =
      (getHierarchyFromId g k).map (fun m =>
        { m with
            mChildren := m.mChildren ++ contribOf N r k
            , mParent := if k = r.id then some (resolveParentOf N r)
                         else m.mParent
            , mRelativeParent := if k = r.id then resolveRelativeOf N r
                                 else m.mRelativeParent }) := by
  have L1 := attachToParent_desc g r hpar hrelp hcont
  have hcont1 : ∀ i ∈ aliveIds N, containsNode (attachToParent g r) i = true :=
    fun i hi => by rw [containsNode_congr L1 i]; exact hcont i hi
  intro k
  unfold attachAll
  cases hqq : r.relativeParentId with
  | none =>
      have e2 := attachToRelativeParent_none (attachToParent g r) r hqq
      rw [e2]
      have hro : resolveRelativeOf N r = none := by
        unfold resolveRelativeOf
        rw [hqq]
      cases hss : r.mirrorId with
      | none =>
          have e3 := updateMirrorLayer_none (attachToParent g r) r hss
          rw [e3, L1 k]
          cases hlk : getHierarchyFromId g k with
          | none => rfl
          | some m =>
              simp only [contribOf, hqq, hss, List.append_nil, hro,
                Option.map_some']
              by_cases hkr : k = r.id
              · simp only [if_pos hkr]
                rw [hprior m (hkr ▸ hlk)]
              · simp only [if_neg hkr]
      | some s =>
          have hsmem : s ∈ aliveIds N := hmir s (by rw [hss]; rfl)
          have L3 := updateMirrorLayer_some (attachToParent g r) r s hss
            hsmem hcont1
          rw [L3 k, L1 k]
          have hMc : (if r.id = k ∧ (aliveIds N).contains s = true
              then [(s, Variant.Mirror)] else ([] : List (Nat × Variant))) =
              (if r.id = k then [(s, Variant.Mirror)] else []) := by
            by_cases h : r.id = k
            · rw [if_pos ⟨h, (contains_true_iff _ _).2 hsmem⟩, if_pos h]
            · rw [if_neg (fun hh => h hh.1), if_neg h]
          cases hlk : getHierarchyFromId g k with
          | none => rfl
          | some m =>
              simp only [contribOf, hqq, hss, List.append_nil, hro, hMc,
                Option.map_some', List.append_assoc]
              by_cases hkr : k = r.id
              · simp only [if_pos hkr]
                rw [hprior m (hkr ▸ hlk)]
              · simp only [if_neg hkr]
  | some q =>
      have hqmem : q ∈ aliveIds N := hrelp q (by rw [hqq]; rfl)
      have L2 := attachToRelativeParent_some (attachToParent g r) r q hqq
        hqmem hcont1
      have hcont2 : ∀ i ∈ aliveIds N,
          containsNode (attachToRelativeParent (attachToParent g r) r) i
            = true :=
        fun i hi => by rw [containsNode_congr L2 i]; exact hcont1 i hi
      have hro : resolveRelativeOf N r = some q :=
        resolveRelativeOf_eq_some hqq ((contains_true_iff _ _).2 hqmem)
      have hRc : (if q = k ∧ (aliveIds N).contains q = true
          then [(r.id, Variant.Relative)] else ([] : List (Nat × Variant))) =
          (if q = k then [(r.id, Variant.Relative)] else []) := by
        by_cases h : q = k
        · rw [if_pos ⟨h, (contains_true_iff _ _).2 hqmem⟩, if_pos h]
        · rw [if_neg (fun hh => h hh.1), if_neg h]
      cases hss : r.mirrorId with
      | none =>
          have e3 := updateMirrorLayer_none
            (attachToRelativeParent (attachToParent g r) r) r hss
          rw [e3, L2 k, L1 k]
          cases hlk : getHierarchyFromId g k with
          | none => rfl
          | some m =>
              simp only [contribOf, hqq, hss, List.append_nil, hro, hRc,
                Option.map_some', List.append_assoc]
      | some s =>
          have hsmem : s ∈ aliveIds N := hmir s (by rw [hss]; rfl)
          have L3 := updateMirrorLayer_some
            (attachToRelativeParent (attachToParent g r) r) r s hss
            hsmem hcont2
          have hMc : (if r.id = k ∧ (aliveIds N).contains s = true
              then [(s, Variant.Mirror)] else ([] : List (Nat × Variant))) =
              (if r.id = k then [(s, Variant.Mirror)] else []) := by
            by_cases h : r.id = k
            · rw [if_pos ⟨h, (contains_true_iff _ _).2 hsmem⟩, if_pos h]
            · rw [if_neg (fun hh => h hh.1), if_neg h]
          rw [L3 k, L2 k, L1 k]
          cases hlk : getHierarchyFromId g k with
          | none => rfl
          | some m =>
              simp only [contribOf, hqq, hss, List.append_nil, hro, hRc, hMc,
                Option.map_some', List.append_assoc]

theorem keys_addChild (g : HierarchyGraph) (pk c : Nat) (v : Variant) :
    (addChild g pk c v).nodes.map Prod.fst = g.nodes.map Prod.fst :=
  keys_modifyNode _ _ _

theorem keys_attachToParent (g : HierarchyGraph) (r : RequestedLayerState) :
    (attachToParent g r).nodes.map Prod.fst = g.nodes.map Prod.fst := by
  unfold attachToParent
  simp only []
  rw [keys_modifyNode, keys_addChild]

theorem keys_attachToRelativeParent (g : HierarchyGraph)
    (r : RequestedLayerState) :
    (attachToRelativeParent g r).nodes.map Prod.fst = g.nodes.map Prod.fst := by
  unfold attachToRelativeParent
  split
  · rfl
  · split
    · rw [keys_modifyNode, keys_addChild]
    · rfl

theorem keys_updateMirrorLayer (g : HierarchyGraph)
    (r : RequestedLayerState) :
    (updateMirrorLayer g r).nodes.map Prod.fst = g.nodes.map Prod.fst := by
  unfold updateMirrorLayer
  split
  · rfl
  · split
    · exact keys_addChild _ _ _ _
    · rfl

theorem keys_attachAll (g : HierarchyGraph) (r : RequestedLayerState) :
    (attachAll g r).nodes.map Prod.fst = g.nodes.map Prod.fst := by
  unfold attachAll
  rw [keys_updateMirrorLayer, keys_attachToRelativeParent, keys_attachToParent]

theorem attachInv_step {N att : List RequestedLayerState} {g : HierarchyGraph}
    {r : RequestedLayerState}
    (hndN : (aliveIds N).Nodup) (hresN : resolvedRecords N)
    (hwfN : ∀ x ∈ N, wfRecord x)
    (hr : r ∈ N) (hrp : r.id ∉ aliveIds att)
    (hI : AttachInv N att g) :
    AttachInv N (att ++ [r]) (attachAll g r) := by
  have hcont : ∀ i ∈ aliveIds N, containsNode g i = true := by
    intro i hi
    rw [containsNode_iff_mem_keys]
    exact hI.keys.mem_iff.2 (List.mem_cons_of_mem _ (List.mem_cons_of_mem _ hi))
  have hresr := hresN r hr
  have hprior : ∀ m, getHierarchyFromId g r.id = some m →
      m.mRelativeParent = none := by
    intro m hm
    obtain ⟨n, hn, _, _, h3⟩ := hI.recN r hr
    have hmn : m = n := Option.some.inj ((hm.symm).trans hn)
    rw [hmn]
    exact (h3 hrp).2
  have desc := attachAll_desc g r hresr.1 hresr.2.1 hresr.2.2 hcont hprior
  have hvalid : r.id < UNASSIGNED_LAYER_ID := (hwfN r hr).1
  have hroot_ne : ROOT_KEY ≠ r.id := Ne.symm (Nat.ne_of_lt hvalid)
  have hoff_ne : OFFSCREEN_KEY ≠ r.id :=
    Ne.symm (Nat.ne_of_lt (Nat.lt_trans hvalid (by decide)))
  have hmematt : r.id ∈ aliveIds (att ++ [r]) := by
    rw [aliveIds_append]
    exact List.mem_append_right _ (List.mem_singleton_self _)
  refine ⟨?_, ?_, ?_, ?_, ?_⟩
  · rw [keys_attachAll]
    exact hI.keys
  · obtain ⟨nr, hnr, p1, p2, p3⟩ := hI.rootN
    rw [desc ROOT_KEY, hnr, Option.map_some']
    refine ⟨_, rfl, p1, ?_, ?_⟩
    · show (if ROOT_KEY = r.id then some (resolveParentOf N r)
          else nr.mParent) = none
      rw [if_neg hroot_ne]
      exact p2
    · show (if ROOT_KEY = r.id then resolveRelativeOf N r
          else nr.mRelativeParent) = none
      rw [if_neg hroot_ne]
      exact p3
  · obtain ⟨nr, hnr, p1, p2, p3⟩ := hI.offN
    rw [desc OFFSCREEN_KEY, hnr, Option.map_some']
    refine ⟨_, rfl, p1, ?_, ?_⟩
    · show (if OFFSCREEN_KEY = r.id then some (resolveParentOf N r)
          else nr.mParent) = none
      rw [if_neg hoff_ne]
      exact p2
    · show (if OFFSCREEN_KEY = r.id then resolveRelativeOf N r
          else nr.mRelativeParent) = none
      rw [if_neg hoff_ne]
      exact p3
  · intro v hv
    obtain ⟨n, hn, h1, h2, h3⟩ := hI.recN v hv
    rw [desc v.id, hn, Option.map_some']
    by_cases hvr : v.id = r.id
    · have hveq : v = r := id_inj_of_nodup hndN hv hr hvr
      subst hveq
      refine ⟨_, rfl, h1, fun _ => ⟨?_, ?_⟩, fun hnot => absurd hmematt hnot⟩
      · show (if v.id = v.id then some (resolveParentOf N v)
            else n.mParent) = some (resolveParentOf N v)
        rw [if_pos rfl]
      · show (if v.id = v.id then resolveRelativeOf N v
            else n.mRelativeParent) = resolveRelativeOf N v
        rw [if_pos rfl]
    · have hmem_iff : v.id ∈ aliveIds (att ++ [r]) ↔ v.id ∈ aliveIds att := by
        rw [aliveIds_append]
        constructor
        · intro h
          rcases List.mem_append.1 h with h | h
          · exact h
          · exact absurd (List.mem_singleton.1 h) hvr
        · exact fun h => List.mem_append_left _ h
      refine ⟨_, rfl, h1, fun hmem => ?_, fun hnot => ?_⟩
      · obtain ⟨e2, e3⟩ := h2 (hmem_iff.1 hmem)
        constructor
        · show (if v.id = r.id then some (resolveParentOf N r)
              else n.mParent) = some (resolveParentOf N v)
          rw [if_neg hvr]
          exact e2
        · show (if v.id = r.id then resolveRelativeOf N r
              else n.mRelativeParent) = resolveRelativeOf N v
          rw [if_neg hvr]
          exact e3
      · obtain ⟨e2, e3⟩ := h3 (fun h => hnot (hmem_iff.2 h))
        constructor
        · show (if v.id = r.id then some (resolveParentOf N r)
              else n.mParent) = none
          rw [if_neg hvr]
          exact e2
        · show (if v.id = r.id then resolveRelativeOf N r
              else n.mRelativeParent) = none
          rw [if_neg hvr]
          exact e3
  · intro key n' hn'
    rw [desc key] at hn'
    cases hg : getHierarchyFromId g key with
    | none => rw [hg] at hn'; cases hn'
    | some m =>
        rw [hg, Option.map_some'] at hn'
        have hm' : n' = _ := (Option.some.inj hn').symm
        rw [hm']
        show m.mChildren ++ contribOf N r key
          = canonicalChildrenOn N (att ++ [r]) key
        rw [hI.childrenN key m hg, canonicalChildrenOn_append]

theorem attachInv_fold {N : List RequestedLayerState}
    (hndN : (aliveIds N).Nodup) (hresN : resolvedRecords N)
    (hwfN : ∀ x ∈ N, wfRecord x) (ls : List RequestedLayerState) :
    ∀ (att : List RequestedLayerState) (g : HierarchyGraph),
      (∀ x ∈ ls, x ∈ N) → (aliveIds ls).Nodup →
      (∀ x ∈ ls, x.id ∉ aliveIds att) →
      AttachInv N att g →
      AttachInv N (att ++ ls) (ls.foldl attachAll g) := by
  induction ls with
  | nil =>
      intro att g _ _ _ hI
      rw [List.append_nil]
      exact hI
  | cons l ls ih =>
      intro att g hmem hnodup hdis hI
      rw [List.foldl_cons]
      have h1 := attachInv_step hndN hresN hwfN
        (hmem l (List.mem_cons_self l ls)) (hdis l (List.mem_cons_self l ls)) hI
      have hheadout : l.id ∉ aliveIds ls :=
        (List.nodup_cons.1 (show (l.id :: aliveIds ls).Nodup from hnodup)).1
      have h2 := ih (att ++ [l]) (attachAll g l)
        (fun x hx => hmem x (List.mem_cons_of_mem l hx))
        ((List.nodup_cons.1 (show (l.id :: aliveIds ls).Nodup from hnodup)).2)
        (fun x hx hc => by
          rw [aliveIds_append] at hc
          rcases List.mem_append.1 hc with h | h
          · exact hdis x (List.mem_cons_of_mem l hx) h
          · exact hheadout
              ((List.mem_singleton.1 h) ▸ mem_aliveIds.2 ⟨x, hx, rfl⟩))
        h1
      rw [show att ++ l :: ls = att ++ [l] ++ ls from
        (List.append_assoc att [l] ls).symm]
      exact h2

theorem attNext_perm {rs att layers : List RequestedLayerState}
    {destroyed : List Nat}
    (hattp : att.Perm rs) (hnd : (aliveIds rs).Nodup)
    (hndl : (aliveIds layers).Nodup)
    (hndN : (aliveIds (applyDelta rs layers destroyed)).Nodup)
    (hDdis : ∀ d ∈ destroyed, d ∉ aliveIds layers) :
    (attNext att layers destroyed).Perm (applyDelta rs layers destroyed) := by
  have hattnd : att.Nodup :=
    (hattp.nodup_iff).2 (nodup_records_of_nodup_ids hnd)
  have hlnd : layers.Nodup := nodup_records_of_nodup_ids hndl
  have hdisj : (att.filter (fun u =>
      !(destroyed.contains u.id)
        && !((aliveIds layers).contains u.id))).Disjoint layers := by
    intro a ha hal
    have hpred := (List.mem_filter.1 ha).2
    have : (aliveIds layers).contains a.id = true :=
      (contains_true_iff _ _).2 (mem_aliveIds.2 ⟨a, hal, rfl⟩)
    rw [this] at hpred
    simp at hpred
  have hnd' : (attNext att layers destroyed).Nodup :=
    List.Nodup.append (hattnd.filter _) hlnd hdisj
  have hndN' : (applyDelta rs layers destroyed).Nodup :=
    nodup_records_of_nodup_ids hndN
  rw [List.perm_ext_iff_of_nodup hnd' hndN']
  intro x
  constructor
  · intro hx
    rcases List.mem_append.1 hx with hx | hx
    · have hxm := (List.mem_filter.1 hx).1
      have hpred := (List.mem_filter.1 hx).2
      have hxrs : x ∈ rs := hattp.mem_iff.1 hxm
      have hpD : x.id ∉ destroyed := by
        intro h
        rw [(contains_true_iff _ _).2 h] at hpred
        cases hpred
      have hpL : x.id ∉ aliveIds layers := by
        intro h
        rw [(contains_true_iff _ _).2 h] at hpred
        simp at hpred
      exact mem_applyDelta_old hxrs hpD hpL
    · have hxD : x.id ∉ destroyed := fun h =>
        hDdis x.id h (mem_aliveIds.2 ⟨x, hx, rfl⟩)
      exact mem_applyDelta_layer hx hndl hnd hxD
  · intro hx
    rcases mem_applyDelta_cases hx with ⟨hxrs, hxD, hxL⟩ | hxl
    · refine List.mem_append_left _ (List.mem_filter.2 ⟨hattp.mem_iff.2 hxrs, ?_⟩)
      rw [(contains_false_iff _ _).2 hxD, (contains_false_iff _ _).2 hxL]
      rfl
    · exact List.mem_append_right _ hxl

theorem updateBInv {rs att layers : List RequestedLayerState}
    {destroyed : List Nat} {g : HierarchyGraph}
    (hwfrs : wfRecords rs) (hres : resolvedRecords rs)
    (hd : wfDelta rs layers destroyed) (hB : BInv rs att g) :
    BInv (applyDelta rs layers destroyed) (attNext att layers destroyed)
      (LayerHierarchyBuilder.update g layers destroyed) := by
  obtain ⟨hDnd, hDsub, hDdis, hwfl, hwfN, hresN⟩ := hd
  obtain ⟨hnd, hwf⟩ := hwfrs
  have hatt : ∀ r ∈ att, r ∈ rs := fun r hr => hB.perm.mem_iff.1 hr
  have hlayD : ∀ x ∈ layers, x.id ∉ destroyed :=
    fun x hx h => hDdis x.id h (mem_aliveIds.2 ⟨x, hx, rfl⟩)
  have hI1 := midInv_destroyFold hatt hnd hwf destroyed [] g
    hDsub (fun x _ h => List.not_mem_nil x h) hDnd (midInv_of_BInv hB)
  rw [List.nil_append] at hI1
  have hI2 := midInv_addFold hatt hnd hwf layers [] []
    (destroyed.foldl onLayerDestroyed g)
    hlayD (fun x hx => (hwfl.2 x hx).1) hwfl.1
    (fun x _ h => List.not_mem_nil x.id h)
    (fun x _ h => List.not_mem_nil x.id h)
    hI1
  rw [List.nil_append, List.nil_append] at hI2
  have hI3 := attachInv_of_midInv hB.perm hnd hres hDdis hresN hI2
  have hfeq : att.filter (fun u =>
      !((destroyed ++ aliveIds (layers.filter
          (fun x => (aliveIds rs).contains x.id))).contains u.id)) =
      att.filter (fun u =>
        !(destroyed.contains u.id) && !((aliveIds layers).contains u.id)) := by
    apply List.filter_congr
    intro a ha
    have hars : a.id ∈ aliveIds rs := mem_aliveIds.2 ⟨a, hatt a ha, rfl⟩
    cases hca : (destroyed ++ aliveIds (layers.filter
        (fun x => (aliveIds rs).contains x.id))).contains a.id with
    | false =>
        have hnm := (contains_false_iff _ _).1 hca
        have h1 : a.id ∉ destroyed := fun h => hnm (List.mem_append_left _ h)
        have h2 : a.id ∉ aliveIds layers := by
          intro h
          obtain ⟨l, hl, hlid⟩ := mem_aliveIds.1 h
          refine hnm (List.mem_append_right _ (mem_aliveIds.2
            ⟨l, List.mem_filter.2 ⟨hl, ?_⟩, hlid⟩))
          rw [(contains_true_iff _ _).2 (hlid ▸ hars)]
        rw [(contains_false_iff _ _).2 h1, (contains_false_iff _ _).2 h2]
        rfl
    | true =>
        have hm := (contains_true_iff _ _).1 hca
        rcases List.mem_append.1 hm with h | h
        · rw [(contains_true_iff _ _).2 h]
          rfl
        · obtain ⟨l, hl, hlid⟩ := mem_aliveIds.1 h
          have : a.id ∈ aliveIds layers :=
            mem_aliveIds.2 ⟨l, (List.mem_filter.1 hl).1, hlid⟩
          rw [(contains_true_iff _ _).2 this]
          cases destroyed.contains a.id <;> rfl
  rw [hfeq] at hI3
  have hfold := attachInv_fold hwfN.1 hresN hwfN.2 layers _ _
    (fun x hx => mem_applyDelta_layer hx hwfl.1 hnd (hlayD x hx))
    hwfl.1
    (fun x hx hmem => by
      obtain ⟨a, ha, haid⟩ := mem_aliveIds.1 hmem
      have hpred := (List.mem_filter.1 ha).2
      have : (aliveIds layers).contains a.id = true :=
        (contains_true_iff _ _).2 (haid ▸ mem_aliveIds.2 ⟨x, hx, rfl⟩)
      rw [this] at hpred
      simp at hpred)
    hI3
  refine ⟨attNext_perm hB.perm hnd hwfl.1 hwfN.1 hDdis,
    hfold.keys, hfold.rootN, hfold.offN, ?_, hfold.childrenN⟩
  intro r hr
  obtain ⟨n, hn, h1, h2, _⟩ := hfold.recN r hr
  have hcov : r.id ∈ aliveIds (att.filter (fun u =>
      !(destroyed.contains u.id) && !((aliveIds layers).contains u.id))
        ++ layers) := by
    rw [aliveIds_append]
    rcases mem_applyDelta_cases hr with ⟨hxrs, hxD, hxL⟩ | hxl
    · refine List.mem_append_left _ (mem_aliveIds.2
        ⟨r, List.mem_filter.2 ⟨hB.perm.mem_iff.2 hxrs, ?_⟩, rfl⟩)
      rw [(contains_false_iff _ _).2 hxD, (contains_false_iff _ _).2 hxL]
      rfl
    · exact List.mem_append_right _ (mem_aliveIds.2 ⟨r, hxl, rfl⟩)
  exact ⟨n, hn, h1, (h2 hcov).1, (h2 hcov).2⟩

/-! Builder invariant: construction and delta sequences. -/

theorem rootsBInv : BInv [] [] rootsOnlyGraph := by
  refine ⟨List.Perm.nil, List.Perm.refl _, ⟨_, rfl, rfl, rfl, rfl⟩,
    ⟨_, rfl, rfl, rfl, rfl⟩, ?_, ?_⟩
  · intro r hr
    exact absurd hr (List.not_mem_nil r)
  · intro key n hn
    unfold getHierarchyFromId at hn
    cases hf : rootsOnlyGraph.nodes.find? (fun kn => kn.1 == key) with
    | none => rw [hf] at hn; cases hn
    | some kn =>
        rw [hf] at hn
        have hmem := List.mem_of_find?_eq_some hf
        have hkn : n = kn.2 := (Option.some.inj hn).symm
        rcases List.mem_cons.1 hmem with h | h2
        · rw [hkn, h]
          rfl
        · rcases List.mem_cons.1 h2 with h | h3
          · rw [hkn, h]
            rfl
          · exact absurd h3 (List.not_mem_nil kn)

theorem constructBInv {rs : List RequestedLayerState}
    (hwf : wfRecords rs) (hres : resolvedRecords rs) :
    BInv rs (attNext [] rs []) (LayerHierarchyBuilder.construct rs) := by
  have hnil : applyDelta [] rs [] = rs := applyDelta_nil_left rs
  have hd : wfDelta [] rs [] := by
    refine ⟨List.nodup_nil, ?_, ?_, hwf, ?_, ?_⟩
    · intro d hd
      exact absurd hd (List.not_mem_nil d)
    · intro d hd
      exact absurd hd (List.not_mem_nil d)
    · rw [hnil]
      exact hwf
    · rw [hnil]
      exact hres
  have hwfnil : wfRecords ([] : List RequestedLayerState) :=
    ⟨List.nodup_nil, fun r hr => absurd hr (List.not_mem_nil r)⟩
  have hresnil : resolvedRecords ([] : List RequestedLayerState) :=
    fun r hr => absurd hr (List.not_mem_nil r)
  have h := updateBInv hwfnil hresnil hd rootsBInv
  rw [hnil] at h
  exact h

theorem applyUpdates_BInv
    (deltas : List (List RequestedLayerState × List Nat)) :
    ∀ (rs att : List RequestedLayerState) (g : HierarchyGraph),
      wfRecords rs → resolvedRecords rs → wfDeltas rs deltas →
      BInv rs att g →
      ∃ att', BInv (applyDeltas rs deltas) att' (applyUpdates g deltas) := by
  induction deltas with
  | nil =>
      intro rs att g _ _ _ hB
      exact ⟨att, hB⟩
  | cons d ds ih =>
      intro rs att g hwf hres hwd hB
      obtain ⟨hd1, hds⟩ := hwd
      have hB1 := updateBInv hwf hres hd1 hB
      exact ih _ _ _ hd1.2.2.2.2.1 hd1.2.2.2.2.2 hds hB1

theorem wf_applyDeltas
    (deltas : List (List RequestedLayerState × List Nat)) :
    ∀ (rs : List RequestedLayerState),
      wfRecords rs → resolvedRecords rs → wfDeltas rs deltas →
      wfRecords (applyDeltas rs deltas)
        ∧ resolvedRecords (applyDeltas rs deltas) := by
  induction deltas with
  | nil => intro rs hwf hres _; exact ⟨hwf, hres⟩
  | cons d ds ih =>
      intro rs hwf hres hwd
      obtain ⟨hd1, hds⟩ := hwd
      exact ih _ hd1.2.2.2.2.1 hd1.2.2.2.2.2 hds

theorem graphEquiv_of_BInv {N a1 a2 : List RequestedLayerState}
    {g1 g2 : HierarchyGraph}
    (hB1 : BInv N a1 g1) (hB2 : BInv N a2 g2) :
    graphEquiv g1 g2 := by
  refine ⟨hB1.keys.trans hB2.keys.symm, ?_⟩
  intro key n1 n2 hn1 hn2
  have hmem : key ∈ (ROOT_KEY :: OFFSCREEN_KEY :: aliveIds N) := by
    have hmem0 : key ∈ g1.nodes.map Prod.fst := by
      rw [← containsNode_iff_mem_keys]
      unfold containsNode
      rw [hn1]
      rfl
    exact hB1.keys.mem_iff.1 hmem0
  have hch1 := hB1.childrenN key n1 hn1
  have hch2 := hB2.childrenN key n2 hn2
  have hperm : (canonicalChildrenOn N a1 key).Perm
      (canonicalChildrenOn N a2 key) :=
    perm_flatMap (hB1.perm.trans hB2.perm.symm) _
  rcases List.mem_cons.1 hmem with hk | hmem2
  · subst hk
    obtain ⟨m1, hm1, p1, p2, p3⟩ := hB1.rootN
    obtain ⟨m2, hm2, q1, q2, q3⟩ := hB2.rootN
    have e1 : n1 = m1 := Option.some.inj (hn1.symm.trans hm1)
    have e2 : n2 = m2 := Option.some.inj (hn2.symm.trans hm2)
    subst e1
    subst e2
    refine ⟨p1.trans q1.symm, p2.trans q2.symm, p3.trans q3.symm, ?_⟩
    rw [hch1, hch2]
    exact hperm
  rcases List.mem_cons.1 hmem2 with hk | hmem3
  · subst hk
    obtain ⟨m1, hm1, p1, p2, p3⟩ := hB1.offN
    obtain ⟨m2, hm2, q1, q2, q3⟩ := hB2.offN
    have e1 : n1 = m1 := Option.some.inj (hn1.symm.trans hm1)
    have e2 : n2 = m2 := Option.some.inj (hn2.symm.trans hm2)
    subst e1
    subst e2
    refine ⟨p1.trans q1.symm, p2.trans q2.symm, p3.trans q3.symm, ?_⟩
    rw [hch1, hch2]
    exact hperm
  · obtain ⟨r, hrN, hrid⟩ := mem_aliveIds.1 hmem3
    obtain ⟨m1, hm1, p1, p2, p3⟩ := hB1.recN r hrN
    obtain ⟨m2, hm2, q1, q2, q3⟩ := hB2.recN r hrN
    rw [hrid] at hm1 hm2
    have e1 : n1 = m1 := Option.some.inj (hn1.symm.trans hm1)
    have e2 : n2 = m2 := Option.some.inj (hn2.symm.trans hm2)
    subst e1
    subst e2
    refine ⟨p1.trans q1.symm, p2.trans q2.symm, p3.trans q3.symm, ?_⟩
    rw [hch1, hch2]
    exact hperm

theorem lookup_resolveParent {N att : List RequestedLayerState}
    {g : HierarchyGraph} {r : RequestedLayerState}
    (hres : resolvedRecords N) (hr : r ∈ N) (hB : BInv N att g) :
    ∃ nP, getHierarchyFromId g (resolveParentOf N r) = some nP := by
  cases hp : r.parentId with
  | none =>
      have he : resolveParentOf N r = ROOT_KEY := by
        unfold resolveParentOf
        rw [hp]
      obtain ⟨nr, hnr, _⟩ := hB.rootN
      exact ⟨nr, by rw [he]; exact hnr⟩
  | some p =>
      have hmem : p ∈ aliveIds N := (hres r hr).1 p (by rw [hp]; rfl)
      have he : resolveParentOf N r = p := by
        unfold resolveParentOf
        rw [hp]
        exact if_pos ((contains_true_iff _ _).2 hmem)
      have hc : containsNode g p = true := by
        rw [containsNode_iff_mem_keys]
        exact hB.keys.mem_iff.2
          (List.mem_cons_of_mem _ (List.mem_cons_of_mem _ hmem))
      unfold containsNode at hc
      cases hg : getHierarchyFromId g p with
      | none => rw [hg] at hc; cases hc
      | some nP => exact ⟨nP, by rw [he]; exact hg⟩

theorem edgeInvariant_of_BInv {N att : List RequestedLayerState}
    {g : HierarchyGraph} (hres : resolvedRecords N) (hB : BInv N att g) :
    edgeInvariant g := by
  intro A nA B v hA hmem
  have hatt : ∀ x ∈ att, x ∈ N := fun x hx => hB.perm.mem_iff.1 hx
  rw [hB.childrenN A nA hA] at hmem
  constructor
  · intro hv
    subst hv
    obtain ⟨r, hr, hrid, hcase⟩ := contribOf_entry_nonMirror hmem (by decide)
    rcases hcase with ⟨_, hkey, _⟩ | ⟨hvrel, _, _⟩
    · obtain ⟨nB, hnB, _, hpar, _⟩ := hB.recN r (hatt r hr)
      refine ⟨nB, hrid ▸ hnB, ?_⟩
      rw [hpar, ← hkey]
    · cases hvrel
  · intro hv
    subst hv
    obtain ⟨r, hr, hrid, hcase⟩ := contribOf_entry_nonMirror hmem (by decide)
    rcases hcase with ⟨hsv, _, _⟩ | ⟨_, hrp, hcont⟩
    · rw [isStructural_rel] at hsv
      cases hsv
    · obtain ⟨nB, hnB, _, hpar, hrel⟩ := hB.recN r (hatt r hr)
      obtain ⟨nP, hnP⟩ := lookup_resolveParent hres (hatt r hr) hB
      refine ⟨nB, resolveParentOf N r, nP, hrid ▸ hnB, ?_, hpar, hnP, ?_⟩
      · rw [hrel, resolveRelativeOf_eq_some hrp hcont]
      · rw [hB.childrenN (resolveParentOf N r) nP hnP]
        unfold canonicalChildrenOn
        rw [List.mem_flatMap]
        refine ⟨r, hr, ?_⟩
        unfold contribOf
        apply List.mem_append_left
        apply List.mem_append_left
        rw [if_pos rfl]
        have hdet : structuralVariantOf N r = Variant.Detached := by
          unfold structuralVariantOf relResolvesOf
          rw [hrp]
          rw [if_pos hcont]
        rw [hdet, hrid]
        exact List.mem_singleton_self _

/-! Soundness of the decidable well-formedness certificates. -/

theorem and_true_of_eq {a b : Bool} (h : (a && b) = true) :
    a = true ∧ b = true := by
  cases a
  · cases h
  · cases b
    · cases h
    · exact ⟨rfl, rfl⟩

theorem wfRecord_of_ok {r : RequestedLayerState}
    (h : wfRecordOk r = true) : wfRecord r := by
  unfold wfRecordOk at h
  obtain ⟨h123, h4⟩ := and_true_of_eq h
  obtain ⟨h12, h3⟩ := and_true_of_eq h123
  obtain ⟨h1, h2⟩ := and_true_of_eq h12
  refine ⟨(of_decide_eq_true h1 : r.id < UNASSIGNED_LAYER_ID), ?_, ?_, ?_⟩
  · intro p hp
    cases hpp : r.parentId with
    | none => rw [hpp] at hp; cases hp
    | some p0 =>
        rw [hpp] at hp h2
        have hpe : p0 = p := Option.some.inj hp
        rw [← hpe]
        exact (of_decide_eq_true h2 : p0 < UNASSIGNED_LAYER_ID)
  · intro q hq
    cases hqq : r.relativeParentId with
    | none => rw [hqq] at hq; cases hq
    | some q0 =>
        rw [hqq] at hq h3
        have hqe : q0 = q := Option.some.inj hq
        rw [← hqe]
        exact (of_decide_eq_true h3 : q0 < UNASSIGNED_LAYER_ID)
  · intro s hs
    cases hss : r.mirrorId with
    | none => rw [hss] at hs; cases hs
    | some s0 =>
        rw [hss] at hs h4
        have hse : s0 = s := Option.some.inj hs
        rw [← hse]
        exact (of_decide_eq_true h4 : s0 < UNASSIGNED_LAYER_ID)

theorem wfRecords_of_ok (rs : List RequestedLayerState)
    (h : wfRecordsOk rs = true) : wfRecords rs := by
  unfold wfRecordsOk at h
  obtain ⟨h1, h2⟩ := and_true_of_eq h
  refine ⟨of_decide_eq_true h1, ?_⟩
  intro r hr
  exact wfRecord_of_ok (List.all_eq_true.1 h2 r hr)

theorem resolved_of_ok (rs : List RequestedLayerState)
    (h : resolvedOk rs = true) : resolvedRecords rs := by
  unfold resolvedOk at h
  intro r hr
  have hr2 := List.all_eq_true.1 h r hr
  obtain ⟨h12, h3⟩ := and_true_of_eq hr2
  obtain ⟨h1, h2⟩ := and_true_of_eq h12
  refine ⟨?_, ?_, ?_⟩
  · intro p hp
    cases hpp : r.parentId with
    | none => rw [hpp] at hp; cases hp
    | some p0 =>
        rw [hpp] at hp h1
        rw [← Option.some.inj hp]
        exact (contains_true_iff _ _).1 h1
  · intro q hq
    cases hqq : r.relativeParentId with
    | none => rw [hqq] at hq; cases hq
    | some q0 =>
        rw [hqq] at hq h2
        rw [← Option.some.inj hq]
        exact (contains_true_iff _ _).1 h2
  · intro s hs
    cases hss : r.mirrorId with
    | none => rw [hss] at hs; cases hs
    | some s0 =>
        rw [hss] at hs h3
        rw [← Option.some.inj hs]
        exact (contains_true_iff _ _).1 h3

theorem wfDelta_of_ok (rs layers : List RequestedLayerState)
    (destroyed : List Nat) (h : wfDeltaOk rs layers destroyed = true) :
    wfDelta rs layers destroyed := by
  unfold wfDeltaOk at h
  obtain ⟨h12345, h6⟩ := and_true_of_eq h
  obtain ⟨h1234, h5⟩ := and_true_of_eq h12345
  obtain ⟨h123, h4⟩ := and_true_of_eq h1234
  obtain ⟨h12, h3⟩ := and_true_of_eq h123
  obtain ⟨h1, h2⟩ := and_true_of_eq h12
  refine ⟨of_decide_eq_true h1, ?_, ?_, wfRecords_of_ok _ h4,
    wfRecords_of_ok _ h5, resolved_of_ok _ h6⟩
  · intro d hd
    exact (contains_true_iff _ _).1 (List.all_eq_true.1 h2 d hd)
  · intro d hd
    have := List.all_eq_true.1 h3 d hd
    intro hmem
    rw [(contains_true_iff _ _).2 hmem] at this
    cases this
  
theorem wfDeltas_of_ok :
    ∀ (deltas : List (List RequestedLayerState × List Nat))
      (rs : List RequestedLayerState),
      wfDeltasOk rs deltas = true → wfDeltas rs deltas
  | [], _, _ => trivial
  | d :: ds, rs, h => by
      unfold wfDeltasOk at h
      obtain ⟨h1, h2⟩ := and_true_of_eq h
      exact ⟨wfDelta_of_ok rs d.1 d.2 h1, wfDeltas_of_ok ds _ h2⟩

/-- C3: for every well-formed sequence of add/change/destroy deltas applied
via `update` to a builder constructed from an initial record collection, the
resulting hierarchy graph agrees with the graph constructed from scratch from
the final record collection on node keys and, per node, on the stored record,
the structural-parent back-reference, the relative-parent back-reference and
the multiset of child edges; the child lists themselves may list equal-z
siblings in a different order, so this equivalence up to child insertion
order is the exact sense in which the claimed identity holds. -/
theorem c3_refinement_equivalence (rs : List RequestedLayerState)
    (deltas : List (List RequestedLayerState × List Nat))
    (h1 : wfRecords rs) (h2 : resolvedRecords rs)
    (h3 : wfDeltas rs deltas) :
    graphEquiv (applyUpdates (LayerHierarchyBuilder.construct rs) deltas)
      (LayerHierarchyBuilder.construct (applyDeltas rs deltas)) := by
  obtain ⟨att', hB1⟩ := applyUpdates_BInv deltas rs (attNext [] rs [])
    (LayerHierarchyBuilder.construct rs) h1 h2 h3 (constructBInv h1 h2)
  obtain ⟨hwfN, hresN⟩ := wf_applyDeltas deltas rs h1 h2 h3
  exact graphEquiv_of_BInv hB1 (constructBInv hwfN hresN)

theorem c3_refinement_equivalence_witness :
    graphEquiv (applyUpdates (LayerHierarchyBuilder.construct tieRecords)
        [(tieDelta, [])])
      (LayerHierarchyBuilder.construct (applyDeltas tieRecords
        [(tieDelta, [])])) :=
  c3_refinement_equivalence tieRecords [(tieDelta, [])]
    (wfRecords_of_ok tieRecords (by decide))
    (resolved_of_ok tieRecords (by decide))
    (wfDeltas_of_ok [(tieDelta, [])] tieRecords (by decide))

/-- C3 counterexample to literal identity: re-listing record 2 unchanged is a
well-formed delta, yet the incrementally updated graph and the from-scratch
graph visit the equal-z siblings 2 and 3 in different orders in
`traverseInZOrder`, so the two graphs are observably not identical. -/
theorem c3_refinement_equivalence_counterexample :
    tieIncremental = applyUpdates
        (LayerHierarchyBuilder.construct tieRecords) [(tieDelta, [])]
    ∧ tieScratch = LayerHierarchyBuilder.construct
        (applyDeltas tieRecords [(tieDelta, [])])
    ∧ wfRecordsOk tieRecords = true
    ∧ resolvedOk tieRecords = true
    ∧ wfDeltasOk tieRecords [(tieDelta, [])] = true
    ∧ (LayerHierarchy.traverseInZOrder tieIncremental ROOT_KEY
        visitTrue).visits.map Prod.fst
      ≠ (LayerHierarchy.traverseInZOrder tieScratch ROOT_KEY
        visitTrue).visits.map Prod.fst :=
  ⟨rfl, rfl, by decide, by decide, by decide, by decide⟩

/-- C6: every graph state reachable through the builder operations — a fresh
construction followed by any well-formed sequence of incremental updates —
satisfies the edge/back-reference invariant: an `Attached` child edge from A
to B is mirrored by B's structural-parent back-reference, and a `Relative`
child edge from A to B is mirrored by B's relative-parent back-reference
together with a `Detached` edge for B under B's own structural parent. -/
theorem c6_invariants (rs : List RequestedLayerState)
    (deltas : List (List RequestedLayerState × List Nat))
    (h1 : wfRecords rs) (h2 : resolvedRecords rs)
    (h3 : wfDeltas rs deltas) :
    edgeInvariant (LayerHierarchyBuilder.construct rs)
    ∧ edgeInvariant
        (applyUpdates (LayerHierarchyBuilder.construct rs) deltas) := by
  obtain ⟨att', hB1⟩ := applyUpdates_BInv deltas rs (attNext [] rs [])
    (LayerHierarchyBuilder.construct rs) h1 h2 h3 (constructBInv h1 h2)
  obtain ⟨_, hresN⟩ := wf_applyDeltas deltas rs h1 h2 h3
  exact ⟨edgeInvariant_of_BInv h2 (constructBInv h1 h2),
    edgeInvariant_of_BInv hresN hB1⟩

theorem c6_invariants_witness :
    edgeInvariant (LayerHierarchyBuilder.construct invRecords)
    ∧ edgeInvariant
        (applyUpdates (LayerHierarchyBuilder.construct invRecords)
          [invDelta]) :=
  c6_invariants invRecords [invDelta]
    (wfRecords_of_ok invRecords (by decide))
    (resolved_of_ok invRecords (by decide))
    (wfDeltas_of_ok [invDelta] invRecords (by decide))
